import Mathlib

/-!
# uv_callback: a shallow embedding of `src/uv_callback.c`

The C library layers a call queue and a reference-counted handle life cycle on
top of libuv.  The embedding below follows the C source function by function.

* Pointers are natural numbers and `0` is `NULL`.  Function pointers are
  natural numbers as well (`0` is a null function pointer).
* The heap of `uv_callback_t` objects is a total map `mem : Ptr → uv_callback_t`.
* The singly linked list of `uv_call_t` records hanging off `callback->queue`
  is a Lean `List` (head of the list = `callback->queue`, tail = `call->next`);
  every record is allocated by `malloc` in `uv_callback_fire_ex`, so the C
  list is finite and acyclic.
* The sibling chain (`callback->next`) is kept as pointers in the heap; loops
  that follow it take a fuel argument and return `none` when it runs out.
* `int` fields are mathematical integers (signed overflow is undefined in C).
* Calls of function pointers and of libuv primitives are recorded, in order,
  in `State.trace`.  The mutex is not modelled (the model is sequential).
-/

namespace UvCallback

/-- Pointers; `0` is `NULL`. -/
abbrev Ptr := Nat

/-- Value of `UV_EINVAL`. -/
def UV_EINVAL : Int := -22
/-- Value of `UV_EPERM`. -/
def UV_EPERM : Int := -1
/-- Value of `UV_ENOMEM`. -/
def UV_ENOMEM : Int := -12
/-- Constant `UV_DEFAULT` of `uv_callback.h`. -/
def UV_DEFAULT : Int := 0
/-- Constant `UV_COALESCE` of `uv_callback.h`. -/
def UV_COALESCE : Int := 1
/-- Handle type `UV_UNKNOWN_HANDLE` of libuv (what `memset` leaves in `async.type`). -/
def UV_UNKNOWN_HANDLE : Nat := 0
/-- Handle type `UV_ASYNC` of libuv. -/
def UV_ASYNC : Nat := 1

/-- The record `struct uv_call_s`; the `next` link is the tail of the list that holds it. -/
structure uv_call_t where
  callback : Ptr
  data : Ptr
  size : Int
  free_data : Ptr
  notify : Ptr
deriving DecidableEq, Repr

/-- The record `struct uv_callback_s`.  `async_type`, `async_data` and
`async_loop` are the `type`, `data` and `loop` members of the embedded
`uv_async_t`; the mutex and the embedded idle handle carry no modelled state. -/
@[ext]
structure uv_callback_t where
  async_type : Nat
  async_data : Ptr
  async_loop : Ptr
  data : Ptr
  usequeue : Int
  queue : List uv_call_t
  function : Ptr
  arg : Ptr
  idle_active : Int
  master : Ptr
  next : Ptr
  inactive : Int
  refcount : Int
  free_cb : Ptr
  free_result : Ptr
deriving DecidableEq, Repr

/-- Observable effects: calls through function pointers and of libuv primitives. -/
inductive Event where
  | invoke (fn handle data : Ptr) (size : Int)
  | free_data (fn data : Ptr)
  | free_result (fn result : Ptr)
  | free_cb (fn handle : Ptr)
  | free_call (call : uv_call_t)
  | async_send (handle : Ptr)
  | idle_start (handle : Ptr)
  | idle_stop (handle : Ptr)
deriving DecidableEq, Repr

/-- Program state: the heap of handles, for every loop the `uv_callback_t`
handles registered on it by `uv_async_init` in `uv_walk` order, and the trace.
Idle and timer handles of a loop are left out of `loops`: every walk callback
modelled here ignores a handle whose type is not `UV_ASYNC`. -/
structure State where
  mem : Ptr → uv_callback_t
  loops : Ptr → List Ptr
  trace : List Event

/-- Heap update `mem[p] := v`. -/
def upd (mem : Ptr → uv_callback_t) (p : Ptr) (v : uv_callback_t) : Ptr → uv_callback_t :=
  fun q => if q = p then v else mem q

/-- What `memset(callback, 0, sizeof(uv_callback_t))` leaves behind. -/
def zero_callback : uv_callback_t :=
  { async_type := 0, async_data := 0, async_loop := 0, data := 0, usequeue := 0,
    queue := [], function := 0, arg := 0, idle_active := 0, master := 0, next := 0,
    inactive := 0, refcount := 0, free_cb := 0, free_result := 0 }

/-- State before anything was initialised: zeroed memory, empty loops. -/
def State.init : State :=
  { mem := fun _ => zero_callback, loops := fun _ => [], trace := [] }

/-! ## Master lookup -/

/-- Model of `uv_is_callback`. -/
def uv_is_callback (s : State) (handle : Ptr) : Bool :=
  decide ((s.mem handle).async_type = UV_ASYNC ∧ (s.mem handle).async_data = handle)

/-- Model of `master_on_walk`: `arg` is the current content of `*arg`, the result the new one. -/
def master_on_walk (s : State) (handle : Ptr) (arg : Ptr) : Ptr :=
  if (s.mem handle).async_type = UV_ASYNC ∧ (s.mem handle).usequeue ≠ 0 then handle else arg

/-- Model of `get_master_callback`: `uv_walk` with `master_on_walk`, starting from `NULL`. -/
def get_master_callback (s : State) (loop : Ptr) : Ptr :=
  (s.loops loop).foldl (fun arg handle => master_on_walk s handle arg) 0

/-! ## Release -/

/-- The unlink loop of `uv_callback_release`: `cb` runs along the `next` chain
until `cb->next == callback` (then `cb->next = callback->next`) or `cb` is null. -/
def release_unlink (callback : Ptr) : Nat → (Ptr → uv_callback_t) → Ptr → Option (Ptr → uv_callback_t)
  | 0, mem, cb => if cb = 0 then some mem else none
  | fuel + 1, mem, cb =>
    if cb = 0 then some mem
    else if (mem cb).next = callback then
      some (upd mem cb { mem cb with next := (mem callback).next })
    else release_unlink callback fuel mem (mem cb).next

/-- Model of `uv_callback_release`.  The result is `none` when the unlink loop
does not end within `fuel` iterations. -/
def uv_callback_release (fuel : Nat) (s : State) (callback : Ptr) : Option State :=
  if callback = 0 then some s
  else
    let mem1 := upd s.mem callback
      { s.mem callback with refcount := (s.mem callback).refcount - 1 }
    if (mem1 callback).refcount = 0 ∧ (mem1 callback).free_cb ≠ 0 then
      (release_unlink callback fuel mem1 (mem1 callback).master).map fun mem2 =>
        let tr := if (mem2 callback).idle_active ≠ 0
          then s.trace ++ [Event.idle_stop callback] else s.trace
        { s with mem := mem2, trace := tr ++ [Event.free_cb (mem2 callback).free_cb callback] }
    else some { s with mem := mem1 }

/-! ## Dequeue -/

/-- The loop of `dequeue_call` on the list: walks to the last record, detaches
it, and returns it (`none` for `NULL`) with the list that is left. -/
def dequeue_walk : List uv_call_t → Option uv_call_t × List uv_call_t
  | [] => (none, [])
  | [current] => (some current, [])
  | prev :: current :: rest =>
    ((dequeue_walk (current :: rest)).1, prev :: (dequeue_walk (current :: rest)).2)

/-- Model of `dequeue_call`. -/
def dequeue_call (s : State) (callback : Ptr) : Option uv_call_t × State :=
  let r := dequeue_walk (s.mem callback).queue
  let mem1 := upd s.mem callback { s.mem callback with queue := r.2 }
  (r.1, { s with mem := mem1 })

/-- What the purge loop does to one record that targets `callback`:
the data destructor when data and destructor are set, then `free(call)`. -/
def discard_call (call : uv_call_t) : List Event :=
  (if call.data ≠ 0 ∧ call.free_data ≠ 0 then [Event.free_data call.free_data call.data] else [])
    ++ [Event.free_call call]

/-- The loop of `dequeue_all_from_callback` on the list: the records kept and
the effects of the records discarded, in list order. -/
def purge_walk (callback : Ptr) : List uv_call_t → List uv_call_t × List Event
  | [] => ([], [])
  | call :: next =>
    if call.callback = callback then
      ((purge_walk callback next).1, discard_call call ++ (purge_walk callback next).2)
    else
      (call :: (purge_walk callback next).1, (purge_walk callback next).2)

/-- Model of `dequeue_all_from_callback`. -/
def dequeue_all_from_callback (s : State) (master callback : Ptr) : State :=
  let master := if master = 0 then callback else master
  let mem1 := upd s.mem master
    { s.mem master with queue := (purge_walk callback (s.mem master).queue).1 }
  let mem2 := upd mem1 callback { mem1 callback with queue := [] }
  { s with mem := mem2, trace := s.trace ++ (purge_walk callback (s.mem master).queue).2 }

/-! ## Fire -/

/-- Model of `uv_callback_fire_ex`.  `malloc_ok` tells whether `malloc` returns
a record; `uv_async_send` is recorded in the trace and returns 0. -/
def uv_callback_fire_ex (s : State) (callback data : Ptr) (size : Int)
    (free_data notify : Ptr) (malloc_ok : Bool) : Int × State :=
  if callback = 0 then (UV_EINVAL, s)
  else if (s.mem callback).inactive ≠ 0 then (UV_EPERM, s)
  else if notify ≠ 0 ∧ (s.mem callback).usequeue = 0 then (UV_EINVAL, s)
  else if (s.mem callback).usequeue ≠ 0 then
    if malloc_ok = false then (UV_ENOMEM, s)
    else
      let call : uv_call_t :=
        { callback := callback, data := data, size := size, free_data := free_data,
          notify := notify }
      let target := if (s.mem callback).master ≠ 0 then (s.mem callback).master else callback
      let mem1 := upd s.mem target { s.mem target with queue := call :: (s.mem target).queue }
      let mem2 := if notify ≠ 0
        then upd mem1 notify { mem1 notify with refcount := (mem1 notify).refcount + 1 }
        else mem1
      (0, { s with mem := mem2, trace := s.trace ++ [Event.async_send target] })
  else
    (0, { s with mem := upd s.mem callback { s.mem callback with arg := data },
                 trace := s.trace ++ [Event.async_send callback] })

/-- Model of `uv_callback_fire`. -/
def uv_callback_fire (s : State) (callback data notify : Ptr) (malloc_ok : Bool) : Int × State :=
  uv_callback_fire_ex s callback data 0 0 notify malloc_ok

/-! ## Dispatch -/

/-- Lines 193-200 of `uv_callback_async_cb`: the result of the user function
is fired at the notify handle when there is one and it is not inactive;
otherwise a non-null result is handed to `free_result` of the executed handle
when that is set. -/
def deliver_result (s : State) (call : uv_call_t) (result : Ptr) (malloc_ok : Bool) : State :=
  if call.notify ≠ 0 ∧ (s.mem call.notify).inactive = 0 then
    (uv_callback_fire s call.notify result 0 malloc_ok).2
  else if result ≠ 0 ∧ (s.mem call.callback).free_result ≠ 0 then
    { s with trace := s.trace ++ [Event.free_result (s.mem call.callback).free_result result] }
  else s

/-- Lines 205-216 of `uv_callback_async_cb`: the data destructor, `free(call)`,
and the start of the idle handle when it is not active yet. -/
def finish_call (s : State) (callback : Ptr) (call : uv_call_t) : State :=
  let s5 : State := { s with trace := s.trace ++ discard_call call }
  if (s5.mem callback).idle_active = 0 then
    { s5 with mem := upd s5.mem callback { s5.mem callback with idle_active := 1 },
              trace := s5.trace ++ [Event.idle_start callback] }
  else s5

/-- Model of `uv_callback_async_cb`.  `exec fn handle data size` is the value
the user function `fn` returns; `malloc_ok` is the outcome of the `malloc` of
the nested notify fire.  The result is `none` when the nested
`uv_callback_release` runs out of fuel. -/
def uv_callback_async_cb (exec : Ptr → Ptr → Ptr → Int → Ptr) (fuel : Nat) (s : State)
    (handle : Ptr) (malloc_ok : Bool) : Option State :=
  let callback := handle
  if (s.mem callback).usequeue ≠ 0 then
    match dequeue_call s callback with
    | (some call, s1) =>
      let fn := (s1.mem call.callback).function
      let result := exec fn call.callback call.data call.size
      let s2 : State :=
        { s1 with trace := s1.trace ++ [Event.invoke fn call.callback call.data call.size] }
      let s3 : State := deliver_result s2 call result malloc_ok
      (if call.notify ≠ 0 then uv_callback_release fuel s3 call.notify else some s3).map
        fun s4 => finish_call s4 callback call
    | (none, s1) =>
      some { s1 with mem := upd s1.mem callback { s1.mem callback with idle_active := 0 },
                     trace := s1.trace ++ [Event.idle_stop callback] }
  else
    some { s with trace := s.trace ++
      [Event.invoke (s.mem callback).function callback (s.mem callback).arg 0] }

/-- Model of `uv_callback_idle_cb`: `container_of` gives back the handle. -/
def uv_callback_idle_cb (exec : Ptr → Ptr → Ptr → Int → Ptr) (fuel : Nat) (s : State)
    (callback : Ptr) (malloc_ok : Bool) : Option State :=
  uv_callback_async_cb exec fuel s callback malloc_ok

/-! ## Initialisation -/

/-- Model of libuv `uv_async_init` with outcome `rc`: on success the handle
gets type `UV_ASYNC`, its loop, and is appended to the loop handles. -/
def uv_async_init (s : State) (loop handle : Ptr) (rc : Int) : Int × State :=
  if rc ≠ 0 then (rc, s)
  else
    (0, { s with mem := upd s.mem handle
                   { s.mem handle with async_type := UV_ASYNC, async_loop := loop },
                 loops := fun l => if l = loop then s.loops l ++ [handle] else s.loops l })

/-- The loop `while (base->next) base = base->next` of `uv_callback_init_ex`. -/
def chain_last : Nat → (Ptr → uv_callback_t) → Ptr → Option Ptr
  | 0, mem, base => if (mem base).next = 0 then some base else none
  | fuel + 1, mem, base =>
    if (mem base).next = 0 then some base else chain_last fuel mem (mem base).next

/-- The `UV_DEFAULT` case of `uv_callback_init_ex` from the point where
`get_master_callback` has returned `master`; `c1` is the content of
`*callback` at that point.  The result is `none` when the walk to the end of
the sibling chain does not end within `fuel` steps. -/
def init_ex_default (fuel : Nat) (s : State) (loop callback : Ptr) (c1 : uv_callback_t)
    (master : Ptr) (idle_rc async_rc : Int) : Option (Int × State) :=
  let c2 : uv_callback_t := { c1 with master := master }
  let s2 : State := { s with mem := upd s.mem callback c2 }
  if master ≠ 0 then
    (chain_last fuel s2.mem master).map fun base =>
      (0, { s2 with mem := upd s2.mem base { s2.mem base with next := callback } })
  else if idle_rc ≠ 0 then some (idle_rc, s2)
  else some (uv_async_init s2 loop callback async_rc)

/-- Model of `uv_callback_init_ex`.  `idle_rc` and `async_rc` are the outcomes
of `uv_idle_init` and `uv_async_init`.  `c0` and `c1` are the contents of
`*callback` after the `memset` and the field writes that follow it. -/
def uv_callback_init_ex (fuel : Nat) (s : State) (loop callback function : Ptr)
    (callback_type : Int) (free_cb free_result : Ptr) (idle_rc async_rc : Int) :
    Option (Int × State) :=
  if loop = 0 ∨ callback = 0 ∨ function = 0 then some (UV_EINVAL, s)
  else
    let c0 : uv_callback_t :=
      { zero_callback with async_data := callback, function := function, refcount := 1,
                           free_cb := free_cb }
    let s0 : State := { s with mem := upd s.mem callback c0 }
    if callback_type = UV_DEFAULT then
      let c1 : uv_callback_t := { c0 with usequeue := 1, free_result := free_result }
      let s1 : State := { s with mem := upd s.mem callback c1 }
      init_ex_default fuel s loop callback c1 (get_master_callback s1 loop) idle_rc async_rc
    else if callback_type = UV_COALESCE then some (uv_async_init s0 loop callback async_rc)
    else some (UV_EINVAL, s0)

/-- Model of `uv_callback_init`. -/
def uv_callback_init (fuel : Nat) (s : State) (loop callback function : Ptr)
    (callback_type : Int) (idle_rc async_rc : Int) : Option (Int × State) :=
  uv_callback_init_ex fuel s loop callback function callback_type 0 0 idle_rc async_rc

/-! ## Stop -/

/-- Model of `uv_callback_stop`. -/
def uv_callback_stop (s : State) (callback : Ptr) : State :=
  if callback = 0 then s
  else
    let s1 : State := { s with mem := upd s.mem callback { s.mem callback with inactive := 1 } }
    if (s1.mem callback).usequeue ≠ 0 then
      dequeue_all_from_callback s1 (s1.mem callback).master callback
    else s1

/-- The `while (callback)` loop of `stop_all_on_walk` along the `next` chain. -/
def stop_chain : Nat → State → Ptr → Option State
  | 0, s, callback => if callback = 0 then some s else none
  | fuel + 1, s, callback =>
    if callback = 0 then some s
    else stop_chain fuel (uv_callback_stop s callback) (s.mem callback).next

/-- Model of `stop_all_on_walk`. -/
def stop_all_on_walk (fuel : Nat) (s : State) (handle : Ptr) : Option State :=
  if uv_is_callback s handle = true then stop_chain fuel s handle else some s

/-- The walk `uv_walk(loop, stop_all_on_walk, NULL)` over the handles of a loop. -/
def stop_all_walk (fuel : Nat) : State → List Ptr → Option State
  | s, [] => some s
  | s, handle :: rest =>
    (stop_all_on_walk fuel s handle).bind fun s1 => stop_all_walk fuel s1 rest

/-- Model of `uv_callback_stop_all`. -/
def uv_callback_stop_all (fuel : Nat) (s : State) (loop : Ptr) : Option State :=
  stop_all_walk fuel s (s.loops loop)

/-! ## Schedules of fires and dequeues on one master group -/

/-- The handle `h` is a Queued handle of the group of `master`: the master
itself (its master link is null) or a sibling whose master link is `master`. -/
def in_group (s : State) (master h : Ptr) : Prop :=
  master ≠ 0 ∧ h ≠ 0 ∧ (s.mem h).usequeue ≠ 0 ∧
    ((h = master ∧ (s.mem h).master = 0) ∨ (s.mem h).master = master)

instance (s : State) (master h : Ptr) : Decidable (in_group s master h) := by
  unfold in_group; infer_instance

/-- One step of a producer/consumer schedule: a call of `uv_callback_fire_ex`
or a call of `dequeue_call` on the master. -/
inductive QueueOp where
  | fire (callback data : Ptr) (size : Int) (free_data notify : Ptr) (malloc_ok : Bool)
  | dequeue
deriving DecidableEq, Repr

/-- The handle a schedule step fires, if it is a fire. -/
def QueueOp.handle? : QueueOp → Option Ptr
  | QueueOp.fire callback _ _ _ _ _ => some callback
  | QueueOp.dequeue => none

/-- The record a fire step allocates. -/
def QueueOp.call? : QueueOp → Option uv_call_t
  | QueueOp.fire callback data size free_data notify _ =>
    some { callback := callback, data := data, size := size, free_data := free_data,
           notify := notify }
  | QueueOp.dequeue => none

/-- Outcome of a schedule: the return codes of the fires, what the successive
`dequeue_call`s returned, and the final state. -/
structure ScheduleRun where
  rcs : List Int
  returned : List (Option uv_call_t)
  final : State

/-- Runs a schedule, step by step, from state `s`. -/
def run_schedule (master : Ptr) : State → List QueueOp → ScheduleRun
  | s, [] => { rcs := [], returned := [], final := s }
  | s, QueueOp.fire callback data size free_data notify malloc_ok :: ops =>
    let r := uv_callback_fire_ex s callback data size free_data notify malloc_ok
    let rest := run_schedule master r.2 ops
    { rest with rcs := r.1 :: rest.rcs }
  | s, QueueOp.dequeue :: ops =>
    let r := dequeue_call s master
    let rest := run_schedule master r.2 ops
    { rest with returned := r.1 :: rest.returned }

/-! ## Observations on a state -/

/-- The handle whose queue holds the records of `h`: `h->master` when that
link is set, `h` itself when it is null (the choice made both by
`uv_callback_fire_ex` and by `dequeue_all_from_callback`). -/
def queue_owner (s : State) (h : Ptr) : Ptr :=
  if (s.mem h).master ≠ 0 then (s.mem h).master else h

/-- The data destructor invocations `free_data(data)` in a trace, in order, as pairs `(free_data, data)`. -/
def destructor_calls (tr : List Event) : List (Ptr × Ptr) :=
  tr.filterMap fun e =>
    match e with
    | Event.free_data fn data => some (fn, data)
    | _ => none

/-- Whether the purge of `uv_callback_stop` hands the data of `call` to its
destructor: the record targets `h`, has data, and has a destructor. -/
def purge_destroys (h : Ptr) (call : uv_call_t) : Bool :=
  decide (call.callback = h ∧ call.data ≠ 0 ∧ call.free_data ≠ 0)

/-- The queue field of handle `p` after `uv_callback_stop(h)` for non-null `h`,
read off the code: untouched when `h` is not Queued; else null for `h` itself
(the final `callback->queue = NULL`), the owner queue without the records that
target `h` for the owner, untouched elsewhere. -/
def stop_queue (s : State) (h p : Ptr) : List uv_call_t :=
  if (s.mem h).usequeue ≠ 0 then
    if p = h then []
    else if p = queue_owner s h then
      (s.mem p).queue.filter (fun c => decide (c.callback ≠ h))
    else (s.mem p).queue
  else (s.mem p).queue

/-- The fields of a handle that decide where its records are queued and
whether it may be fired: `inactive`, `usequeue`, `master`, `async.data`. -/
def statics (c : uv_callback_t) : Int × Int × Ptr × Ptr :=
  (c.inactive, c.usequeue, c.master, c.async_data)

/-- The handles whose user function a trace invokes, in order. -/
def invoked_handles (tr : List Event) : List Ptr :=
  tr.filterMap fun e =>
    match e with
    | Event.invoke _ handle _ _ => some handle
    | _ => none

/-- Queue invariant of the heap: every queued record targets a handle that is
not inactive, is Queued, and whose records belong on the queue that holds the
record; and every Queued handle carries the mark `async.data == handle` that
`uv_callback_init_ex` sets. -/
structure MemInv (mem : Ptr → uv_callback_t) : Prop where
  target : ∀ x c, c ∈ (mem x).queue →
    (mem c.callback).inactive = 0 ∧ (mem c.callback).usequeue ≠ 0 ∧
      (if (mem c.callback).master ≠ 0 then (mem c.callback).master else c.callback) = x
  marked : ∀ p, (mem p).usequeue ≠ 0 → (mem p).async_data = p

/-- One API or dispatch step of a sequential run.  `uv_callback_init_ex` is
given storage that does not hold a handle yet (it does not carry the mark
`async.data == callback`); dispatch runs on a non-null handle.  `exec` gives
the results of the user functions. -/
inductive Step (exec : Ptr → Ptr → Ptr → Int → Ptr) : State → State → Prop where
  | init_ex (fuel : Nat) (s : State) (loop callback function : Ptr) (callback_type : Int)
      (free_cb free_result : Ptr) (idle_rc async_rc rc : Int) (s' : State)
      (hfresh : (s.mem callback).async_data ≠ callback)
      (hrun : uv_callback_init_ex fuel s loop callback function callback_type free_cb
        free_result idle_rc async_rc = some (rc, s')) : Step exec s s'
  | fire_ex (s : State) (callback data : Ptr) (size : Int) (free_data notify : Ptr)
      (malloc_ok : Bool) :
      Step exec s (uv_callback_fire_ex s callback data size free_data notify malloc_ok).2
  | stop (s : State) (callback : Ptr) : Step exec s (uv_callback_stop s callback)
  | stop_all (fuel : Nat) (s : State) (loop : Ptr) (s' : State)
      (hrun : uv_callback_stop_all fuel s loop = some s') : Step exec s s'
  | dispatch (fuel : Nat) (s : State) (handle : Ptr) (malloc_ok : Bool) (s' : State)
      (hnull : handle ≠ 0)
      (hrun : uv_callback_async_cb exec fuel s handle malloc_ok = some s') : Step exec s s'

/-- States reachable from the initial state by `Step`s. -/
inductive Reachable (exec : Ptr → Ptr → Ptr → Int → Ptr) : State → Prop where
  | init : Reachable exec State.init
  | step (s s' : State) (hs : Reachable exec s) (hstep : Step exec s s') : Reachable exec s'

/-- Heap `mem'` is `mem` with the storage of `callback` reset by
`uv_callback_init_ex`: there the queue is empty, the mark is set and the
inactive flag is clear; every other handle has kept its `statics` and queue. -/
def ResetAt (callback : Ptr) (mem mem' : Ptr → uv_callback_t) : Prop :=
  (∀ p, p ≠ callback → statics (mem' p) = statics (mem p) ∧ (mem' p).queue = (mem p).queue)
    ∧ (mem' callback).queue = [] ∧ (mem' callback).async_data = callback
    ∧ (mem' callback).inactive = 0

/-- The arguments of one `uv_callback_fire_ex` call on a given handle with a
given notify: data, size, destructor, and the outcome of `malloc`. -/
structure FireArgs where
  data : Ptr
  size : Int
  free_data : Ptr
  malloc_ok : Bool
deriving DecidableEq, Repr

/-- A sequence of `uv_callback_fire_ex(h, data, size, free_data, NULL)` calls
with nothing in between: the return codes and the final state. -/
def fire_seq (h : Ptr) : State → List FireArgs → List Int × State
  | s, [] => ([], s)
  | s, a :: rest =>
    let r := uv_callback_fire_ex s h a.data a.size a.free_data 0 a.malloc_ok
    let rest' := fire_seq h r.2 rest
    (r.1 :: rest'.1, rest'.2)

/-- A sequence of `uv_callback_fire_ex(x, data, size, free_data, n)` calls on
handles `x` that all name `n` as notify: the return codes and the final state. -/
def notify_fires (n : Ptr) : State → List (Ptr × FireArgs) → List Int × State
  | s, [] => ([], s)
  | s, (x, a) :: rest =>
    let r := uv_callback_fire_ex s x a.data a.size a.free_data n a.malloc_ok
    let rest' := notify_fires n r.2 rest
    (r.1 :: rest'.1, rest'.2)

/-- The state after `k` calls of `uv_callback_release(callback)` in a row
(`none` when one of them does not return within `fuel`). -/
def release_seq (fuel : Nat) (callback : Ptr) : Nat → State → Option State
  | 0, s => some s
  | k + 1, s => (release_seq fuel callback k s).bind fun t => uv_callback_release fuel t callback

/-- The invocations `free_cb(handle)` in a trace, in order, as pairs `(free_cb, handle)`. -/
def free_cb_events (tr : List Event) : List (Ptr × Ptr) :=
  tr.filterMap fun e =>
    match e with
    | Event.free_cb fn handle => some (fn, handle)
    | _ => none

/-- The content `uv_callback_init_ex` gives `*callback` on the `UV_DEFAULT`
path before any libuv call: zeroed by `memset`, then marked, with function,
count 1, `free_cb`, `usequeue = 1`, `free_result` and the master found. -/
def queued_record (callback function free_cb free_result master : Ptr) : uv_callback_t :=
  { zero_callback with async_data := callback, function := function, refcount := 1,
                       free_cb := free_cb, usequeue := 1, free_result := free_result,
                       master := master }

/-- The heap in which `uv_callback_init_ex` looks for the master: `*callback`
holds the record with a null master link. -/
def probe_mem (s : State) (callback function free_cb free_result : Ptr) : Ptr → uv_callback_t :=
  upd s.mem callback (queued_record callback function free_cb free_result 0)

/-- The master `uv_callback_init_ex` finds for a new Queued handle. -/
def found_master (s : State) (loop callback function free_cb free_result : Ptr) : Ptr :=
  get_master_callback { s with mem := probe_mem s callback function free_cb free_result } loop

/-- The heap after `callback->master = get_master_callback(loop)`. -/
def linked_mem (s : State) (loop callback function free_cb free_result : Ptr) :
    Ptr → uv_callback_t :=
  upd s.mem callback (queued_record callback function free_cb free_result
    (found_master s loop callback function free_cb free_result))

/-- The heap after `base->next = callback`. -/
def link_after (mem : Ptr → uv_callback_t) (base callback : Ptr) : Ptr → uv_callback_t :=
  upd mem base { mem base with next := callback }

/-- The state `s` with heap `mem`. -/
def with_mem (s : State) (mem : Ptr → uv_callback_t) : State :=
  { s with mem := mem }

/-- The state after a new Queued handle became the master of `loop`: its record
is an async handle of the loop and the loop lists it. -/
def master_state (s : State) (loop callback function free_cb free_result : Ptr) : State :=
  { s with
    mem := upd s.mem callback
      { queued_record callback function free_cb free_result 0 with
        async_type := UV_ASYNC, async_loop := loop },
    loops := fun l => if l = loop then s.loops l ++ [callback] else s.loops l }

/-- The arguments of one `uv_callback_init_ex` call on a given loop for a Queued handle. -/
structure InitArgs where
  callback : Ptr
  function : Ptr
  free_cb : Ptr
  free_result : Ptr
deriving DecidableEq, Repr

/-- Registers Queued handles on `loop` one after the other
(`uv_callback_init_ex` with `UV_DEFAULT`, `uv_idle_init` and `uv_async_init`
succeeding): the return codes and the final state. -/
def register_all (fuel : Nat) (loop : Ptr) : State → List InitArgs → Option (List Int × State)
  | s, [] => some ([], s)
  | s, a :: rest =>
    (uv_callback_init_ex fuel s loop a.callback a.function UV_DEFAULT a.free_cb a.free_result
        0 0).bind fun r =>
      (register_all fuel loop r.2 rest).map fun r' => (r.1 :: r'.1, r'.2)

/-- The `next` links starting at handle `a` visit exactly the handles of `l`,
in order, and then reach `NULL`. -/
def chain_ok (mem : Ptr → uv_callback_t) : Ptr → List Ptr → Prop
  | a, [] => (mem a).next = 0
  | a, b :: l => (mem a).next = b ∧ b ≠ 0 ∧ chain_ok mem b l

/-- What `master_on_walk` tests: the handle is an async handle that uses a queue. -/
def is_queue_master (mem : Ptr → uv_callback_t) (x : Ptr) : Prop :=
  (mem x).async_type = UV_ASYNC ∧ (mem x).usequeue ≠ 0

/-- The group formed on `loop` by master `h1` and the siblings `tl`, in
registration order: `h1` is the only handle of the loop that `master_on_walk`
accepts, its master link is null, every sibling points to it, all are Queued
and not inactive, and the sibling chain of `h1` is `tl`. -/
structure Group (s : State) (loop h1 : Ptr) (tl : List Ptr) : Prop where
  master_ne : h1 ≠ 0
  master_is : is_queue_master s.mem h1
  master_mem : h1 ∈ s.loops loop
  others : ∀ x ∈ s.loops loop, x ≠ h1 → ¬ is_queue_master s.mem x
  master_link : (s.mem h1).master = 0
  master_active : (s.mem h1).inactive = 0
  siblings : ∀ h ∈ tl, (s.mem h).master = h1 ∧ (s.mem h).usequeue ≠ 0 ∧ (s.mem h).inactive = 0
  chain : chain_ok s.mem h1 tl

/-- Handle `a` is in the condition `uv_callback_stop(a)` leaves it in: the
inactive flag is 1 and, when it is Queued, its own queue field is null and
the queue that holds its records contains no record that targets it. -/
def stopped (s : State) (a : Ptr) : Prop :=
  (s.mem a).inactive = 1 ∧
    ((s.mem a).usequeue ≠ 0 →
      (s.mem a).queue = [] ∧ ∀ c ∈ (s.mem (queue_owner s a)).queue, c.callback ≠ a)

/-- States `t` and `u` agree on what the walks of `uv_callback_stop_all` read:
the `next` links and the `type` and `data` of the async handles. -/
def same_walk (t u : State) : Prop :=
  ∀ p, (u.mem p).next = (t.mem p).next ∧ (u.mem p).async_type = (t.mem p).async_type
    ∧ (u.mem p).async_data = (t.mem p).async_data

/-! ## A concrete group used to exercise the theorems -/

/-- A Queued master at address 1 with one Queued sibling at address 2 and a
Coalesced handle at address 3, all registered on loop 100 (the state three
successful `uv_callback_init_ex` calls produce), with empty queues. -/
def demo_state : State :=
  { mem := fun p =>
      if p = 1 then
        { zero_callback with async_type := UV_ASYNC, async_data := 1, async_loop := 100,
                             usequeue := 1, function := 7, refcount := 1, next := 2 }
      else if p = 2 then
        { zero_callback with async_data := 2, usequeue := 1, function := 8, refcount := 1,
                             master := 1 }
      else if p = 3 then
        { zero_callback with async_type := UV_ASYNC, async_data := 3, async_loop := 100,
                             function := 9, refcount := 1 }
      else zero_callback,
    loops := fun l => if l = 100 then [1, 3] else [],
    trace := [] }

/-- A schedule on the group of `demo_state`: fires on master and sibling with dequeues in between. -/
def demo_ops : List QueueOp :=
  [QueueOp.fire 1 10 0 0 0 true, QueueOp.fire 2 20 4 5 0 true, QueueOp.dequeue,
   QueueOp.fire 1 30 0 0 2 true, QueueOp.dequeue, QueueOp.dequeue, QueueOp.dequeue]

/-- The group of `demo_state` after four fires: on the sibling (data 20,
destructor 5), on the master (data 10, destructor 6), on the sibling with null
data (destructor 5), and on the sibling with data 21 and no destructor. -/
def demo_fired : State :=
  (uv_callback_fire_ex
    (uv_callback_fire_ex
      (uv_callback_fire_ex
        (uv_callback_fire_ex demo_state 2 20 4 5 0 true).2
        1 10 0 6 0 true).2
      2 0 0 5 0 true).2
    2 21 0 0 0 true).2

/-- The state after `uv_callback_init_ex(100, 1, 7, UV_DEFAULT, 0, 0)` in the
initial state (`State.init` stands in should the model return nothing). -/
def run_init1 : State :=
  ((uv_callback_init_ex 2 State.init 100 1 7 UV_DEFAULT 0 0 0 0).getD (0, State.init)).2

/-- The state after `uv_callback_init_ex(100, 2, 8, UV_DEFAULT, 0, 0)` in `run_init1`. -/
def run_init2 : State :=
  ((uv_callback_init_ex 2 run_init1 100 2 8 UV_DEFAULT 0 0 0 0).getD (0, State.init)).2

/-- The state after `uv_callback_init_ex(100, 3, 9, UV_COALESCE, 0, 0)` in `run_init2`. -/
def run_init3 : State :=
  ((uv_callback_init_ex 2 run_init2 100 3 9 UV_COALESCE 0 0 0 0).getD (0, State.init)).2

/-- The state after a fire on the sibling 2 in `run_init3`. -/
def run_fired : State := (uv_callback_fire_ex run_init3 2 20 4 5 0 true).2

/-- The state after `uv_callback_stop(2)` in `run_fired`. -/
def run_stopped : State := uv_callback_stop run_fired 2

/-- The state after `uv_callback_init_ex(100, 2, 8, UV_DEFAULT, 6, 0)` in
`run_init1`: handle 2 becomes a sibling of master 1 and has `free_cb` 6. -/
def run_sibling : State :=
  ((uv_callback_init_ex 2 run_init1 100 2 8 UV_DEFAULT 6 0 0 0).getD (0, State.init)).2

/-- Two fires that name handle 2 as notify: one on the master 1, one on the sibling 2 itself. -/
def demo_notify_fires : List (Ptr × FireArgs) :=
  [(1, { data := 10, size := 0, free_data := 0, malloc_ok := true }),
   (2, { data := 20, size := 0, free_data := 0, malloc_ok := true })]

/-- Three Queued handles (addresses 1, 2 and 4) to register on one loop. -/
def demo_inits : List InitArgs :=
  [{ callback := 2, function := 8, free_cb := 0, free_result := 0 },
   { callback := 4, function := 9, free_cb := 6, free_result := 0 }]

/-- The arguments `uv_callback_init_ex` rejects: a null loop, handle or
function, or a callback type that is neither `UV_DEFAULT` nor `UV_COALESCE`. -/
def bad_init_args (loop callback function : Ptr) (callback_type : Int) : Prop :=
  loop = 0 ∨ callback = 0 ∨ function = 0 ∨
    (callback_type ≠ UV_DEFAULT ∧ callback_type ≠ UV_COALESCE)

/-- Number of records on the queues of the handles `hs` that name `n` as notify. -/
def notify_refs (s : State) (hs : List Ptr) (n : Ptr) : Nat :=
  (hs.map fun x => (s.mem x).queue.countP (fun c => decide (c.notify = n))).sum

/-- Reference-count invariant, for the handles `hs` initialised so far and a
handle `k` on which the running dispatch still holds the reference of the
record it dequeued (`k = 0`: none).  Every count covers the queued records
that name the handle as notify, plus the reference held on `k`. -/
structure RefInv (hs : List Ptr) (s : State) (k : Ptr) : Prop where
  memInv : MemInv s.mem
  marked : ∀ p ∈ hs, (s.mem p).async_data = p
  queued_mem : ∀ p, (s.mem p).usequeue ≠ 0 → p ∈ hs
  master_mem : ∀ p, (s.mem p).master ≠ 0 → (s.mem p).master ∈ hs
  notify_mem : ∀ x c, c ∈ (s.mem x).queue → c.notify = 0 ∨ c.notify ∈ hs
  nodup : hs.Nodup
  refs : ∀ n, n ≠ 0 → (notify_refs s hs n : Int) + (if n = k then 1 else 0) ≤ (s.mem n).refcount
  null_count : (s.mem 0).refcount = 0

/-- One step of a run in which references are given back only by their
holders; `hs` is the storage handed to `uv_callback_init_ex` so far.
`uv_callback_init_ex` gets non-null arguments and storage that holds no handle
(a call with a null argument returns `UV_EINVAL` without touching the state);
a notify argument is null or initialised; `uv_callback_release(h)` is called
directly only while the count of `h` exceeds the number of queued records
that name `h` as notify. -/
inductive RefStep (exec : Ptr → Ptr → Ptr → Int → Ptr) :
    List Ptr → State → List Ptr → State → Prop where
  | init_ex (hs : List Ptr) (fuel : Nat) (s : State) (loop callback function : Ptr)
      (callback_type : Int) (free_cb free_result : Ptr) (idle_rc async_rc rc : Int) (s' : State)
      (hnull : ¬ (loop = 0 ∨ callback = 0 ∨ function = 0))
      (hfresh : (s.mem callback).async_data ≠ callback)
      (hrun : uv_callback_init_ex fuel s loop callback function callback_type free_cb
        free_result idle_rc async_rc = some (rc, s')) : RefStep exec hs s (callback :: hs) s'
  | fire_ex (hs : List Ptr) (s : State) (callback data : Ptr) (size : Int)
      (free_data notify : Ptr) (malloc_ok : Bool) (hnotify : notify = 0 ∨ notify ∈ hs) :
      RefStep exec hs s hs
        (uv_callback_fire_ex s callback data size free_data notify malloc_ok).2
  | async_cb (hs : List Ptr) (fuel : Nat) (s : State) (handle : Ptr) (malloc_ok : Bool)
      (s' : State) (hnull : handle ≠ 0)
      (hrun : uv_callback_async_cb exec fuel s handle malloc_ok = some s') :
      RefStep exec hs s hs s'
  | stop (hs : List Ptr) (s : State) (callback : Ptr) :
      RefStep exec hs s hs (uv_callback_stop s callback)
  | release (hs : List Ptr) (fuel : Nat) (s : State) (callback : Ptr) (s' : State)
      (hheld : (notify_refs s hs callback : Int) < (s.mem callback).refcount)
      (hrun : uv_callback_release fuel s callback = some s') : RefStep exec hs s hs s'

/-- The runs made of `RefStep`s from the initial state. -/
inductive RefReach (exec : Ptr → Ptr → Ptr → Int → Ptr) : List Ptr → State → Prop where
  | init : RefReach exec [] State.init
  | step (hs hs' : List Ptr) (s s' : State) (hr : RefReach exec hs s)
      (hstep : RefStep exec hs s hs' s') : RefReach exec hs' s'

/-- The state after `uv_callback_fire_ex(1, 10, 0, NULL, 2)` in `run_init2`:
the master 1 is fired with the sibling 2 as notify handle. -/
def run_notified : State := (uv_callback_fire_ex run_init2 1 10 0 0 2 true).2

/-- The state after one dispatch on the master 1 in `run_notified`, the user
functions returning null (`State.init` stands in should the model return nothing). -/
def run_dispatched : State :=
  (uv_callback_async_cb (fun _ _ _ _ => 0) 2 run_notified 1 true).getD State.init

/-- States `s` and `t` agree on the links that place a handle in a group: the
master link, the async handle type and the mark `async.data`. -/
def same_links (s t : State) : Prop :=
  ∀ p, (t.mem p).master = (s.mem p).master ∧ (t.mem p).async_type = (s.mem p).async_type
    ∧ (t.mem p).async_data = (s.mem p).async_data

/-- Shape of the master links: the master of a sibling is a marked handle whose
own master link is null, and an async handle has a null master link. -/
structure LinkInv (mem : Ptr → uv_callback_t) : Prop where
  master_top : ∀ p, (mem p).master ≠ 0 →
    (mem (mem p).master).master = 0 ∧ (mem (mem p).master).async_data = (mem p).master
  async_top : ∀ p, (mem p).async_type = UV_ASYNC → (mem p).master = 0

/-! ## Synchronous fire -/

/-- Value of libuv `UV_ETIMEDOUT`. -/
def UV_ETIMEDOUT : Int := -110

/-- Value of libuv `UV_UNKNOWN`. -/
def UV_UNKNOWN : Int := -4094

/-- The `struct call_result` that `on_call_result` and `on_timer` fill in. -/
structure call_result where
  timed_out : Int
  called : Int
  data : Ptr
  size : Int
deriving DecidableEq, Repr

/-- What `uv_callback_fire_sync` gets from outside its own code: the address
`malloc` returns for the notify handle (0 when it fails), the address of the
local loop, the addresses of `on_call_result` and `free`, the outcomes of the
libuv initialisers and of the `malloc` of the nested fire, the fuel of the
chain walks, the effect of `uv_close` on the notify handle, the state and the
result record after the first `uv_run` (the other thread dispatches meanwhile),
and the state after the closing `uv_walk` and second `uv_run`. -/
structure SyncEnv where
  notify : Ptr
  loop : Ptr
  on_call_result : Ptr
  free : Ptr
  idle_rc : Int
  async_rc : Int
  malloc_ok : Bool
  fuel : Nat
  close : State → Ptr → State
  run : State → Int → State × call_result
  close_all : State → State

/-- The statements of `uv_callback_fire_sync` from `loc_exit` on: the write to
`*presult` (`none` when `presult` is null) and the final return code. -/
def sync_exit (s : State) (presult : Ptr) (rc : Int) (result : call_result) :
    Int × State × Option Ptr :=
  let out : Option Ptr := if presult ≠ 0 then some result.data else none
  let rc1 := if rc = 0 ∧ result.timed_out ≠ 0 then UV_ETIMEDOUT else rc
  let rc2 := if rc1 = 0 ∧ result.called = 0 then UV_UNKNOWN else rc1
  (rc2, s, out)

/-- Model of `uv_callback_fire_sync`.  The result is the return code, the state
and the value written to `*presult` (`none` when nothing is written); it is
`none` when a chain walk of the nested calls runs out of fuel. -/
def uv_callback_fire_sync (env : SyncEnv) (s : State) (callback data presult : Ptr)
    (timeout : Int) : Option (Int × State × Option Ptr) :=
  if callback = 0 ∨ (s.mem callback).usequeue = 0 then some (UV_EINVAL, s, none)
  else if env.notify = 0 then some (UV_ENOMEM, s, none)
  else
    (uv_callback_init_ex env.fuel s env.loop env.notify env.on_call_result UV_DEFAULT
        env.free 0 env.idle_rc env.async_rc).bind fun r1 =>
      let r2 := uv_callback_fire r1.2 callback data env.notify env.malloc_ok
      if r2.1 ≠ 0 then
        some (sync_exit (env.close r2.2 env.notify) presult r2.1
          { timed_out := 0, called := 0, data := 0, size := 0 })
      else
        let r3 := env.run r2.2 timeout
        (uv_callback_stop_all env.fuel r3.1 env.loop).map fun s4 =>
          sync_exit (env.close_all s4) presult r2.1 r3.2

/-- An environment for `uv_callback_fire_sync` in the demo states: the notify
handle is allocated at address 50 on the local loop 200, and the event loop
runs without the other thread answering (the timer fires). -/
def demo_sync_env : SyncEnv :=
  { notify := 50, loop := 200, on_call_result := 60, free := 61, idle_rc := 0, async_rc := 0,
    malloc_ok := true, fuel := 4, close := fun s _ => s,
    run := fun s _ => (s, { timed_out := 1, called := 0, data := 0, size := 0 }),
    close_all := fun s => s }

/-- The state after `uv_callback_fire_ex(1, 10, 0, NULL, 2)` in `demo_state`:
the Queued master 1 is fired with its Queued sibling 2 as notify handle. -/
def run_queued_notify : State := (uv_callback_fire_ex demo_state 1 10 0 0 2 true).2

/-- The state after `uv_callback_init_ex(200, 2, 8, UV_DEFAULT, 0, 0)` in
`run_fired`: the sibling 2 of master 1, with a record pending on the queue of
1, is registered a second time, now on the empty loop 200 (`State.init` stands
in should the model return nothing). -/
def run_reinit : State :=
  ((uv_callback_init_ex 2 run_fired 200 2 8 UV_DEFAULT 0 0 0 0).getD (0, State.init)).2

/-- The state after `uv_callback_stop(2)` in `run_reinit`. -/
def run_reinit_stopped : State := uv_callback_stop run_reinit 2

/-- The state after `uv_callback_init_ex(100, 2, 8, UV_DEFAULT, 0, 0)` in
`run_init2`: the sibling 2 of master 1 is registered a second time on the same
loop. -/
def run_reinit_same : State :=
  ((uv_callback_init_ex 2 run_init2 100 2 8 UV_DEFAULT 0 0 0 0).getD (0, State.init)).2

/-- The state after `uv_callback_init_ex(200, 9, 7, UV_DEFAULT, 0, 0)` in
`run_init2`: besides master 1 and sibling 2 on loop 100 there is a master 9 on
loop 200. -/
def run_two_loops : State :=
  ((uv_callback_init_ex 2 run_init2 200 9 7 UV_DEFAULT 0 0 0 0).getD (0, State.init)).2

/-- The state after `uv_callback_init_ex(200, 1, 7, UV_DEFAULT, 0, 0)` and then
`uv_callback_fire_ex(2, 20, 4, 5, NULL)` in `run_two_loops`: the master 1 is
registered a second time, on loop 200, and its old sibling 2 is fired. -/
def run_master_moved : State :=
  (uv_callback_fire_ex
    ((uv_callback_init_ex 2 run_two_loops 200 1 7 UV_DEFAULT 0 0 0 0).getD (0, State.init)).2
    2 20 4 5 0 true).2

/-- The state after `uv_callback_fire_ex(2, 20, 4, 5, NULL)` and then
`uv_callback_init_ex(200, 2, 8, UV_DEFAULT, 0, 0)` in `run_two_loops`: the
sibling 2 is fired and then registered a second time, on loop 200. -/
def run_sibling_moved : State :=
  ((uv_callback_init_ex 2 (uv_callback_fire_ex run_two_loops 2 20 4 5 0 true).2
      200 2 8 UV_DEFAULT 0 0 0 0).getD (0, State.init)).2

/-! ## Basic facts -/

@[simp] theorem upd_same (mem : Ptr → uv_callback_t) (p : Ptr) (v : uv_callback_t) :
    upd mem p v p = v := by
  simp [upd]

theorem upd_other (mem : Ptr → uv_callback_t) (p : Ptr) (v : uv_callback_t) (q : Ptr)
    (h : q ≠ p) : upd mem p v q = mem q := by
  simp [upd, h]

theorem upd_apply (mem : Ptr → uv_callback_t) (p : Ptr) (v : uv_callback_t) (q : Ptr) :
    upd mem p v q = if q = p then v else mem q := rfl

theorem dequeue_walk_snoc (q : List uv_call_t) (c : uv_call_t) :
    dequeue_walk (q ++ [c]) = (some c, q) := by
  induction q with
  | nil => rfl
  | cons a q ih =>
    cases q with
    | nil => rfl
    | cons b q =>
      have h : dequeue_walk (a :: b :: q ++ [c])
          = ((dequeue_walk (b :: q ++ [c])).1, a :: (dequeue_walk (b :: q ++ [c])).2) := rfl
      rw [h, ih]

theorem dequeue_walk_eq (q : List uv_call_t) :
    dequeue_walk q = (q.getLast?, q.dropLast) := by
  rcases List.eq_nil_or_concat q with h | ⟨l, c, h⟩
  · subst h; rfl
  · subst h; simp [dequeue_walk_snoc]

/-! ## Fire: frame facts -/

theorem fire_ex_usequeue (s : State) (callback data : Ptr) (size : Int)
    (free_data notify : Ptr) (malloc_ok : Bool) (p : Ptr) :
    ((uv_callback_fire_ex s callback data size free_data notify malloc_ok).2.mem p).usequeue
      = (s.mem p).usequeue := by
  unfold uv_callback_fire_ex
  split_ifs <;> simp only [upd_apply] <;> split_ifs <;> simp_all

theorem fire_ex_master (s : State) (callback data : Ptr) (size : Int)
    (free_data notify : Ptr) (malloc_ok : Bool) (p : Ptr) :
    ((uv_callback_fire_ex s callback data size free_data notify malloc_ok).2.mem p).master
      = (s.mem p).master := by
  unfold uv_callback_fire_ex
  split_ifs <;> simp only [upd_apply] <;> split_ifs <;> simp_all

theorem fire_ex_in_group (s : State) (callback data : Ptr) (size : Int)
    (free_data notify : Ptr) (malloc_ok : Bool) (master h : Ptr) :
    in_group (uv_callback_fire_ex s callback data size free_data notify malloc_ok).2 master h
      ↔ in_group s master h := by
  simp only [in_group, fire_ex_usequeue, fire_ex_master]

/-- The handle whose queue a fire on `callback` uses: `callback->master` when
set, else `callback` itself. -/
theorem in_group_target (s : State) (master callback : Ptr) (hg : in_group s master callback) :
    (if (s.mem callback).master ≠ 0 then (s.mem callback).master else callback) = master := by
  obtain ⟨hm0, -, -, hm⟩ := hg
  rcases hm with ⟨h1, h2⟩ | h2
  · rw [if_neg (by simpa using h2)]; exact h1
  · rw [if_pos (by rw [h2]; exact hm0)]; exact h2

/-- A fire on a Queued group handle that returns 0 puts its record at the head
of the master queue. -/
theorem fire_ex_group_queue (s : State) (callback data : Ptr) (size : Int)
    (free_data notify : Ptr) (malloc_ok : Bool) (master : Ptr)
    (hg : in_group s master callback)
    (hrc : (uv_callback_fire_ex s callback data size free_data notify malloc_ok).1 = 0) :
    ((uv_callback_fire_ex s callback data size free_data notify malloc_ok).2.mem master).queue
      = { callback := callback, data := data, size := size, free_data := free_data,
          notify := notify } :: (s.mem master).queue := by
  have ht := in_group_target s master callback hg
  obtain ⟨-, h0, hq, -⟩ := hg
  unfold uv_callback_fire_ex at hrc ⊢
  simp only [ht] at hrc ⊢
  split_ifs at hrc ⊢ <;> simp_all [upd_apply, UV_EINVAL, UV_EPERM, UV_ENOMEM]
  split_ifs <;> simp_all

/-- A fire on a Queued handle leaves the queue of every handle other than its target alone. -/
theorem dequeue_call_usequeue (s : State) (callback p : Ptr) :
    ((dequeue_call s callback).2.mem p).usequeue = (s.mem p).usequeue := by
  simp only [dequeue_call, upd_apply]; split_ifs <;> simp_all

theorem dequeue_call_master (s : State) (callback p : Ptr) :
    ((dequeue_call s callback).2.mem p).master = (s.mem p).master := by
  simp only [dequeue_call, upd_apply]; split_ifs <;> simp_all

theorem dequeue_call_in_group (s : State) (callback master h : Ptr) :
    in_group (dequeue_call s callback).2 master h ↔ in_group s master h := by
  simp only [in_group, dequeue_call_usequeue, dequeue_call_master]

theorem dequeue_call_queue (s : State) (callback : Ptr) :
    ((dequeue_call s callback).2.mem callback).queue = (s.mem callback).queue.dropLast := by
  simp [dequeue_call, dequeue_walk_eq]

theorem dequeue_call_fst (s : State) (callback : Ptr) :
    (dequeue_call s callback).1 = (s.mem callback).queue.getLast? := by
  simp [dequeue_call, dequeue_walk_eq]

/-- Generalised FIFO statement: from any master queue `q`, what the dequeues
return followed by what is left (oldest first) is `q` (oldest first) followed
by the fired records in fire order. -/
theorem run_schedule_fifo (master : Ptr) (ops : List QueueOp) :
    ∀ s : State,
      (∀ op ∈ ops, ∀ h, op.handle? = some h → in_group s master h) →
      (∀ rc ∈ (run_schedule master s ops).rcs, rc = 0) →
      (run_schedule master s ops).returned.filterMap id
          ++ ((run_schedule master s ops).final.mem master).queue.reverse
        = (s.mem master).queue.reverse ++ ops.filterMap QueueOp.call? := by
  induction ops with
  | nil => intro s _ _; simp [run_schedule]
  | cons op ops ih =>
    intro s hg hrc
    cases op with
    | fire callback data size free_data notify malloc_ok =>
      have hgc : in_group s master callback :=
        hg _ (List.mem_cons_self _ _) callback rfl
      simp only [run_schedule, List.mem_cons, forall_eq_or_imp] at hrc ⊢
      have h1 := ih (uv_callback_fire_ex s callback data size free_data notify malloc_ok).2
        (fun op hop h hh => (fire_ex_in_group s callback data size free_data notify malloc_ok
          master h).2 (hg op (List.mem_cons_of_mem _ hop) h hh)) hrc.2
      rw [h1, fire_ex_group_queue s callback data size free_data notify malloc_ok master hgc hrc.1]
      simp [QueueOp.call?]
    | dequeue =>
      simp only [run_schedule] at hrc ⊢
      have h1 := ih (dequeue_call s master).2
        (fun op hop h hh => (dequeue_call_in_group s master master h).2
          (hg op (List.mem_cons_of_mem _ hop) h hh)) hrc
      rw [dequeue_call_queue] at h1
      rw [dequeue_call_fst]
      rcases List.eq_nil_or_concat (s.mem master).queue with hq | ⟨l, c, hq⟩
      · rw [hq] at h1 ⊢
        simpa [QueueOp.call?] using h1
      · rw [hq] at h1 ⊢
        simp at h1
        simp [QueueOp.call?, ← h1]

/-- C1: for every schedule of successful `uv_callback_fire_ex` calls on Queued
handles of one master group, started from an empty master queue and
interleaved at will with `dequeue_call` on the master, the records the
dequeues return, followed by the records still queued (oldest first), are
exactly the fired records in fire order: every record comes out once, in the
order fired.  `dequeue_call` returns `NULL` exactly on an empty queue and
leaves that queue empty. -/
theorem fifo_fire_order (s : State) (master : Ptr) (ops : List QueueOp)
    (hempty : (s.mem master).queue = [])
    (hgroup : ∀ op ∈ ops, ∀ h, op.handle? = some h → in_group s master h)
    (hok : ∀ rc ∈ (run_schedule master s ops).rcs, rc = 0) :
    ((run_schedule master s ops).returned.filterMap id
        ++ ((run_schedule master s ops).final.mem master).queue.reverse
      = ops.filterMap QueueOp.call?)
    ∧ (∀ t : State, ((dequeue_call t master).1 = none ↔ (t.mem master).queue = []))
    ∧ (∀ t : State, (t.mem master).queue = [] →
        ((dequeue_call t master).2.mem master).queue = []) := by
  refine ⟨?_, ?_, ?_⟩
  · have h := run_schedule_fifo master ops s hgroup hok
    rw [hempty] at h
    simpa using h
  · intro t
    rw [dequeue_call_fst]
    exact List.getLast?_eq_none_iff
  · intro t ht
    rw [dequeue_call_queue, ht]
    rfl

/-- C1 at the schedule `demo_ops` on `demo_state`: the three fired records come
out in fire order and the fourth dequeue returns `NULL`. -/
theorem fifo_fire_order_witness :
    (run_schedule 1 demo_state demo_ops).returned
      = [some { callback := 1, data := 10, size := 0, free_data := 0, notify := 0 },
         some { callback := 2, data := 20, size := 4, free_data := 5, notify := 0 },
         some { callback := 1, data := 30, size := 0, free_data := 0, notify := 2 },
         none]
    ∧ ((run_schedule 1 demo_state demo_ops).returned.filterMap id
        ++ ((run_schedule 1 demo_state demo_ops).final.mem 1).queue.reverse
      = demo_ops.filterMap QueueOp.call?) := by
  refine ⟨by decide, (fifo_fire_order demo_state 1 demo_ops (by decide) ?_ (by decide)).1⟩
  intro op hop h hh
  simp only [demo_ops, List.mem_cons, List.mem_singleton, List.not_mem_nil, or_false] at hop
  rcases hop with rfl | rfl | rfl | rfl | rfl | rfl | rfl <;>
    simp only [QueueOp.handle?, Option.some.injEq] at hh <;>
    first
      | (subst hh; decide)
      | exact absurd hh (by simp)

/-! ## Purge and stop -/

theorem purge_walk_fst (callback : Ptr) (q : List uv_call_t) :
    (purge_walk callback q).1 = q.filter (fun c => decide (c.callback ≠ callback)) := by
  induction q with
  | nil => rfl
  | cons c q ih =>
    by_cases h : c.callback = callback
    · simp [purge_walk, h, ih]
    · simp [purge_walk, h, ih]

theorem purge_walk_snd (callback : Ptr) (q : List uv_call_t) :
    (purge_walk callback q).2
      = (q.filter (fun c => decide (c.callback = callback))).flatMap discard_call := by
  induction q with
  | nil => rfl
  | cons c q ih =>
    by_cases h : c.callback = callback
    · simp [purge_walk, h, ih]
    · simp [purge_walk, h, ih]

theorem destructor_calls_append (a b : List Event) :
    destructor_calls (a ++ b) = destructor_calls a ++ destructor_calls b := by
  simp [destructor_calls, List.filterMap_append]

theorem destructor_calls_discard (c : uv_call_t) :
    destructor_calls (discard_call c)
      = if c.data ≠ 0 ∧ c.free_data ≠ 0 then [(c.free_data, c.data)] else [] := by
  unfold discard_call destructor_calls
  split_ifs <;> simp

theorem destructor_calls_purge (callback : Ptr) (q : List uv_call_t) :
    destructor_calls (purge_walk callback q).2
      = (q.filter (purge_destroys callback)).map (fun c => (c.free_data, c.data)) := by
  induction q with
  | nil => rfl
  | cons c q ih =>
    by_cases h : c.callback = callback
    · by_cases h2 : c.data ≠ 0 ∧ c.free_data ≠ 0
      · simp [purge_walk, h, destructor_calls_append, destructor_calls_discard, ih,
          purge_destroys, h2]
      · have h3 : ¬ (c.data ≠ 0 ∧ c.free_data ≠ 0) := h2
        simp only [purge_walk, h, if_true, destructor_calls_append, destructor_calls_discard,
          if_neg h3, ih, List.nil_append]
        rw [List.filter_cons_of_neg]
        simp only [purge_destroys, h, true_and, decide_eq_true_eq]
        exact h3
    · simp only [purge_walk, h, if_false, ih]
      rw [List.filter_cons_of_neg]
      simp [purge_destroys, h]

/-- The trace a stop of a non-null Queued handle leaves: the old trace followed
by the effects of the purge of the owner queue. -/
theorem stop_trace_queued (s : State) (h : Ptr) (h0 : h ≠ 0) (hq : (s.mem h).usequeue ≠ 0) :
    (uv_callback_stop s h).trace
      = s.trace ++ (purge_walk h (s.mem (queue_owner s h)).queue).2 := by
  have hm : (if (s.mem h).master = 0 then h else (s.mem h).master) = queue_owner s h := by
    unfold queue_owner; split_ifs <;> simp_all
  simp only [uv_callback_stop, h0, if_false, upd_same, dequeue_all_from_callback]
  rw [if_pos (by simpa using hq)]
  simp only [hm, upd_apply]
  split_ifs <;> simp_all

/-- Full description of the heap after `uv_callback_stop(h)`, `h` non-null. -/
theorem stop_mem (s : State) (h p : Ptr) (h0 : h ≠ 0) :
    (uv_callback_stop s h).mem p
      = { s.mem p with inactive := if p = h then 1 else (s.mem p).inactive,
                       queue := stop_queue s h p } := by
  have hm : (if (s.mem h).master = 0 then h else (s.mem h).master) = queue_owner s h := by
    unfold queue_owner; split_ifs <;> simp_all
  simp only [uv_callback_stop, if_neg h0, upd_same, dequeue_all_from_callback, stop_queue,
    hm, purge_walk_fst]
  by_cases hq : (s.mem h).usequeue = 0
  · simp only [hq, ne_eq, not_true_eq_false, if_false, upd_apply]
    by_cases hp : p = h
    · subst hp; simp [hq]
    · simp [hp]
  · simp only [hq, ne_eq, not_false_eq_true, if_true]
    by_cases hp : p = h
    · subst hp
      by_cases ho : queue_owner s p = p
      · simp [ho, upd_apply]
      · simp [ho, upd_apply, Ne.symm ho]
    · by_cases hpo : p = queue_owner s h
      · have hoh : queue_owner s h ≠ h := fun e => hp (hpo.trans e)
        simp [hp, upd_apply, ← hpo]
      · simp [hp, hpo, upd_apply]

theorem stop_null (s : State) : uv_callback_stop s 0 = s := by
  simp [uv_callback_stop]

theorem stop_loops (s : State) (h : Ptr) : (uv_callback_stop s h).loops = s.loops := by
  unfold uv_callback_stop dequeue_all_from_callback
  dsimp only
  split_ifs <;> rfl

/-- After `uv_callback_stop(h)` on a Queued handle whose records live on another
handle (a sibling), the owner queue is the old one without the records that target `h`. -/
theorem stop_queue_of_sibling (s : State) (h : Ptr) (h0 : h ≠ 0)
    (hq : (s.mem h).usequeue ≠ 0) (hsib : queue_owner s h ≠ h) :
    ((uv_callback_stop s h).mem (queue_owner s h)).queue
      = (s.mem (queue_owner s h)).queue.filter (fun c => decide (c.callback ≠ h)) := by
  rw [stop_mem s h _ h0]
  simp [stop_queue, hq, hsib]

/-- After `uv_callback_stop(h)` on a Queued handle, the queue field of `h` itself is null. -/
theorem stop_queue_of_self (s : State) (h : Ptr) (h0 : h ≠ 0) (hq : (s.mem h).usequeue ≠ 0) :
    ((uv_callback_stop s h).mem h).queue = [] := by
  rw [stop_mem s h _ h0]
  simp [stop_queue, hq]

/-- C2 (the code departs from the claim): in the group of `demo_state` a record
that targets the sibling 2 is queued on the master 1; `uv_callback_stop` on the
master leaves the master queue empty, so the record of the sibling is gone,
and the trace is unchanged: neither its destructor nor `free` was called. -/
theorem stop_master_drops_sibling_calls :
    in_group (uv_callback_fire_ex demo_state 2 20 4 5 0 true).2 1 1
    ∧ ((uv_callback_fire_ex demo_state 2 20 4 5 0 true).2.mem 1).master = 0
    ∧ ((uv_callback_fire_ex demo_state 2 20 4 5 0 true).2.mem 1).queue
        = [{ callback := 2, data := 20, size := 4, free_data := 5, notify := 0 }]
    ∧ ((uv_callback_stop (uv_callback_fire_ex demo_state 2 20 4 5 0 true).2 1).mem 1).queue = []
    ∧ ((uv_callback_stop (uv_callback_fire_ex demo_state 2 20 4 5 0 true).2 1).mem 1).queue
        ≠ ((uv_callback_fire_ex demo_state 2 20 4 5 0 true).2.mem 1).queue.filter
            (fun c => decide (c.callback ≠ 1))
    ∧ (uv_callback_stop (uv_callback_fire_ex demo_state 2 20 4 5 0 true).2 1).trace
        = (uv_callback_fire_ex demo_state 2 20 4 5 0 true).2.trace := by
  decide

/-- C3: `uv_callback_stop(h)` on a Queued handle `h` extends the trace, and the
data destructor invocations it adds are, in queue order, exactly one
`free_data(data)` for every record of the owner queue that targets `h` and has
non-null data and a destructor; records that target other handles, or lack
data or destructor, add none. -/
theorem stop_invokes_destructors (s : State) (h : Ptr) (h0 : h ≠ 0)
    (hq : (s.mem h).usequeue ≠ 0) :
    s.trace <+: (uv_callback_stop s h).trace
    ∧ destructor_calls (uv_callback_stop s h).trace
        = destructor_calls s.trace
          ++ ((s.mem (queue_owner s h)).queue.filter (purge_destroys h)).map
              (fun c => (c.free_data, c.data)) := by
  rw [stop_trace_queued s h h0 hq, destructor_calls_append, destructor_calls_purge]
  exact ⟨List.prefix_append _ _, rfl⟩

/-- C3 on `demo_fired`: stopping the sibling 2 invokes destructor 5 on data 20
once; the record of the master and the records without data or destructor
cause no invocation. -/
theorem stop_invokes_destructors_witness :
    (demo_fired.mem (queue_owner demo_fired 2)).queue
      = [{ callback := 2, data := 21, size := 0, free_data := 0, notify := 0 },
         { callback := 2, data := 0, size := 0, free_data := 5, notify := 0 },
         { callback := 1, data := 10, size := 0, free_data := 6, notify := 0 },
         { callback := 2, data := 20, size := 4, free_data := 5, notify := 0 }]
    ∧ destructor_calls (uv_callback_stop demo_fired 2).trace = [(5, 20)] := by
  refine ⟨by decide, ?_⟩
  rw [(stop_invokes_destructors demo_fired 2 (by decide) (by decide)).2]
  decide

/-- A fire on a handle whose inactive flag is set returns `UV_EPERM` and leaves the state as it is. -/
theorem fire_ex_inactive (t : State) (h data : Ptr) (size : Int) (free_data notify : Ptr)
    (malloc_ok : Bool) (h0 : h ≠ 0) (hi : (t.mem h).inactive ≠ 0) :
    uv_callback_fire_ex t h data size free_data notify malloc_ok = (UV_EPERM, t) := by
  unfold uv_callback_fire_ex
  rw [if_neg h0, if_pos hi]

/-- C4: after `uv_callback_stop(h)` the inactive flag of `h` is set, and a
`uv_callback_fire_ex(h, ...)` with any data, size, destructor, notify and
allocation outcome returns `UV_EPERM` and returns the state it was given:
queues, data slots, reference counts and trace (no wake) are unchanged. -/
theorem fire_after_stop_eperm (s : State) (h data : Ptr) (size : Int)
    (free_data notify : Ptr) (malloc_ok : Bool) (h0 : h ≠ 0) :
    ((uv_callback_stop s h).mem h).inactive = 1
    ∧ uv_callback_fire_ex (uv_callback_stop s h) h data size free_data notify malloc_ok
        = (UV_EPERM, uv_callback_stop s h) := by
  have hi : ((uv_callback_stop s h).mem h).inactive = 1 := by
    rw [stop_mem s h _ h0]; simp
  refine ⟨hi, fire_ex_inactive _ h data size free_data notify malloc_ok h0 ?_⟩
  rw [hi]; decide

/-- C4 on `demo_fired`: a fire on the stopped sibling 2, naming the master as
notify, returns `UV_EPERM` and the state is the one after the stop. -/
theorem fire_after_stop_eperm_witness :
    (2 : Ptr) ≠ 0
    ∧ uv_callback_fire_ex (uv_callback_stop demo_fired 2) 2 40 0 5 1 true
        = (UV_EPERM, uv_callback_stop demo_fired 2) :=
  ⟨by decide, (fire_after_stop_eperm demo_fired 2 40 0 5 1 true (by decide)).2⟩

/-! ## The queue invariant -/

theorem MemInv.transfer {mem mem' : Ptr → uv_callback_t} (hinv : MemInv mem)
    (hst : ∀ p, statics (mem' p) = statics (mem p))
    (hq : ∀ x c, c ∈ (mem' x).queue → c ∈ (mem x).queue) : MemInv mem' := by
  have hf : ∀ p, (mem' p).inactive = (mem p).inactive ∧ (mem' p).usequeue = (mem p).usequeue
      ∧ (mem' p).master = (mem p).master ∧ (mem' p).async_data = (mem p).async_data := by
    intro p
    have h := hst p
    simp only [statics, Prod.mk.injEq] at h
    exact h
  constructor
  · intro x c hc
    have h := hinv.target x c (hq x c hc)
    rw [(hf c.callback).1, (hf c.callback).2.1, (hf c.callback).2.2.1]
    exact h
  · intro p hp
    rw [(hf p).2.1] at hp
    rw [(hf p).2.2.2]
    exact hinv.marked p hp

theorem MemInv.init : MemInv State.init.mem := by
  constructor
  · intro x c hc; simp [State.init, zero_callback] at hc
  · intro p hp; simp [State.init, zero_callback] at hp

theorem fire_ex_statics (s : State) (callback data : Ptr) (size : Int)
    (free_data notify : Ptr) (malloc_ok : Bool) (p : Ptr) :
    statics ((uv_callback_fire_ex s callback data size free_data notify malloc_ok).2.mem p)
      = statics (s.mem p) := by
  unfold uv_callback_fire_ex
  split_ifs <;> simp only [upd_apply, statics] <;> split_ifs <;> simp_all

theorem upd_refcount_queue (mem : Ptr → uv_callback_t) (n : Ptr) (r : Int) (x : Ptr) :
    (upd mem n { mem n with refcount := r } x).queue = (mem x).queue := by
  simp only [upd_apply]; split_ifs with h
  · subst h; rfl
  · rfl

theorem upd_queue_queue (mem : Ptr → uv_callback_t) (t : Ptr) (q : List uv_call_t) (x : Ptr) :
    (upd mem t { mem t with queue := q } x).queue = if x = t then q else (mem x).queue := by
  simp only [upd_apply]; split_ifs <;> rfl

theorem upd_arg_queue (mem : Ptr → uv_callback_t) (n : Ptr) (a : Ptr) (x : Ptr) :
    (upd mem n { mem n with arg := a } x).queue = (mem x).queue := by
  simp only [upd_apply]; split_ifs with h
  · subst h; rfl
  · rfl

theorem fire_ex_queue (s : State) (callback data : Ptr) (size : Int)
    (free_data notify : Ptr) (malloc_ok : Bool) (x : Ptr) (c : uv_call_t)
    (hc : c ∈ ((uv_callback_fire_ex s callback data size free_data notify malloc_ok).2.mem x).queue) :
    c ∈ (s.mem x).queue ∨
      (c.callback = callback ∧ (s.mem callback).inactive = 0 ∧ (s.mem callback).usequeue ≠ 0 ∧
        (if (s.mem callback).master ≠ 0 then (s.mem callback).master else callback) = x) := by
  unfold uv_callback_fire_ex at hc
  by_cases h1 : callback = 0
  · rw [if_pos h1] at hc; exact Or.inl hc
  rw [if_neg h1] at hc
  by_cases h2 : (s.mem callback).inactive ≠ 0
  · rw [if_pos h2] at hc; exact Or.inl hc
  rw [if_neg h2] at hc
  by_cases h3 : notify ≠ 0 ∧ (s.mem callback).usequeue = 0
  · rw [if_pos h3] at hc; exact Or.inl hc
  rw [if_neg h3] at hc
  by_cases h4 : (s.mem callback).usequeue ≠ 0
  · rw [if_pos h4] at hc
    by_cases h5 : malloc_ok = false
    · rw [if_pos h5] at hc; exact Or.inl hc
    rw [if_neg h5] at hc
    dsimp only at hc
    generalize htgt : (if (s.mem callback).master ≠ 0 then (s.mem callback).master else callback)
      = tgt at hc ⊢
    have hc2 : c ∈ (upd s.mem tgt { s.mem tgt with queue :=
        { callback := callback, data := data, size := size, free_data := free_data,
          notify := notify } :: (s.mem tgt).queue } x).queue := by
      by_cases h6 : notify ≠ 0
      · rw [if_pos h6, upd_refcount_queue] at hc; exact hc
      · rw [if_neg h6] at hc; exact hc
    rw [upd_queue_queue] at hc2
    by_cases h7 : x = tgt
    · rw [if_pos h7, List.mem_cons] at hc2
      rcases hc2 with hc2 | hc2
      · right; subst hc2; exact ⟨rfl, by simpa using h2, h4, h7.symm⟩
      · left; rw [h7]; exact hc2
    · rw [if_neg h7] at hc2; exact Or.inl hc2
  · rw [if_neg h4] at hc
    dsimp only at hc
    rw [upd_arg_queue] at hc
    exact Or.inl hc

theorem MemInv.fire_ex (s : State) (callback data : Ptr) (size : Int)
    (free_data notify : Ptr) (malloc_ok : Bool) (hinv : MemInv s.mem) :
    MemInv (uv_callback_fire_ex s callback data size free_data notify malloc_ok).2.mem := by
  have hf : ∀ p, ((uv_callback_fire_ex s callback data size free_data notify malloc_ok).2.mem p).inactive
        = (s.mem p).inactive
      ∧ ((uv_callback_fire_ex s callback data size free_data notify malloc_ok).2.mem p).usequeue
        = (s.mem p).usequeue
      ∧ ((uv_callback_fire_ex s callback data size free_data notify malloc_ok).2.mem p).master
        = (s.mem p).master
      ∧ ((uv_callback_fire_ex s callback data size free_data notify malloc_ok).2.mem p).async_data
        = (s.mem p).async_data := by
    intro p
    have h := fire_ex_statics s callback data size free_data notify malloc_ok p
    simp only [statics, Prod.mk.injEq] at h
    exact h
  constructor
  · intro x c hc
    rw [(hf c.callback).1, (hf c.callback).2.1, (hf c.callback).2.2.1]
    rcases fire_ex_queue s callback data size free_data notify malloc_ok x c hc with h | h
    · exact hinv.target x c h
    · obtain ⟨h1, h2, h3, h4⟩ := h
      rw [h1]; exact ⟨h2, h3, h4⟩
  · intro p hp
    rw [(hf p).2.1] at hp
    rw [(hf p).2.2.2]
    exact hinv.marked p hp

theorem stop_queue_subset (s : State) (h x : Ptr) (c : uv_call_t)
    (hc : c ∈ stop_queue s h x) : c ∈ (s.mem x).queue := by
  unfold stop_queue at hc
  split_ifs at hc
  · simp at hc
  · exact (List.mem_filter.1 hc).1
  · exact hc
  · exact hc

theorem MemInv.stop (s : State) (h : Ptr) (hinv : MemInv s.mem) :
    MemInv (uv_callback_stop s h).mem := by
  by_cases h0 : h = 0
  · subst h0; rw [stop_null]; exact hinv
  constructor
  · intro x c hc
    rw [stop_mem s h _ h0] at hc ⊢
    dsimp only at hc ⊢
    have hold := hinv.target x c (stop_queue_subset s h x c hc)
    refine ⟨?_, hold.2.1, hold.2.2⟩
    by_cases hch : c.callback = h
    · exfalso
      rw [hch] at hold
      unfold stop_queue at hc
      rw [if_pos hold.2.1] at hc
      by_cases hx : x = h
      · rw [if_pos hx] at hc; simp at hc
      · rw [if_neg hx] at hc
        have hxo : x = queue_owner s h := hold.2.2.symm
        rw [if_pos hxo] at hc
        have := (List.mem_filter.1 hc).2
        simp [hch] at this
    · rw [if_neg hch]; exact hold.1
  · intro p hp
    rw [stop_mem s h _ h0] at hp ⊢
    exact hinv.marked p hp

theorem MemInv.dequeue_call (s : State) (callback : Ptr) (hinv : MemInv s.mem) :
    MemInv (dequeue_call s callback).2.mem := by
  refine hinv.transfer ?_ ?_
  · intro p
    simp only [UvCallback.dequeue_call, upd_apply, statics]
    split_ifs with h
    · subst h; rfl
    · rfl
  · intro x c hc
    simp only [UvCallback.dequeue_call, upd_queue_queue, dequeue_walk_eq] at hc
    split_ifs at hc with h
    · subst h; exact List.mem_of_mem_dropLast hc
    · exact hc

theorem release_unlink_frame (callback : Ptr) (fuel : Nat) :
    ∀ (mem mem' : Ptr → uv_callback_t) (start : Ptr),
      release_unlink callback fuel mem start = some mem' →
      ∀ p, statics (mem' p) = statics (mem p) ∧ (mem' p).queue = (mem p).queue := by
  induction fuel with
  | zero =>
    intro mem mem' start h p
    simp only [release_unlink] at h
    split_ifs at h
    simp only [Option.some.injEq] at h
    subst h; exact ⟨rfl, rfl⟩
  | succ fuel ih =>
    intro mem mem' start h p
    simp only [release_unlink] at h
    split_ifs at h with h1 h2
    · simp only [Option.some.injEq] at h
      subst h; exact ⟨rfl, rfl⟩
    · simp only [Option.some.injEq] at h
      subst h
      simp only [upd_apply, statics]
      split_ifs with h3
      · subst h3; exact ⟨rfl, rfl⟩
      · exact ⟨rfl, rfl⟩
    · exact ih mem mem' _ h p

theorem release_frame (fuel : Nat) (s s' : State) (callback : Ptr)
    (h : uv_callback_release fuel s callback = some s') :
    ∀ p, statics (s'.mem p) = statics (s.mem p) ∧ (s'.mem p).queue = (s.mem p).queue := by
  intro p
  have hm1 : ∀ r : Int, statics (upd s.mem callback { s.mem callback with refcount := r } p)
        = statics (s.mem p)
      ∧ (upd s.mem callback { s.mem callback with refcount := r } p).queue = (s.mem p).queue := by
    intro r
    simp only [upd_apply, statics]
    split_ifs with h3
    · subst h3; exact ⟨rfl, rfl⟩
    · exact ⟨rfl, rfl⟩
  unfold uv_callback_release at h
  dsimp only at h
  split_ifs at h with h0 h1
  · simp only [Option.some.injEq] at h; subst h; exact ⟨rfl, rfl⟩
  · simp only [Option.map_eq_some'] at h
    obtain ⟨mem2, hm, rfl⟩ := h
    have h2 := release_unlink_frame callback fuel _ mem2 _ hm p
    dsimp only
    rw [h2.1, h2.2]
    exact hm1 _
  · simp only [Option.some.injEq] at h
    subst h
    exact hm1 _

theorem MemInv.release (fuel : Nat) (s s' : State) (callback : Ptr)
    (h : uv_callback_release fuel s callback = some s') (hinv : MemInv s.mem) :
    MemInv s'.mem :=
  hinv.transfer (fun p => (release_frame fuel s s' callback h p).1)
    (fun x c hc => by rw [(release_frame fuel s s' callback h x).2] at hc; exact hc)

theorem upd_frame (mem : Ptr → uv_callback_t) (b : Ptr) (v : uv_callback_t) (p : Ptr)
    (hv : statics v = statics (mem b) ∧ v.queue = (mem b).queue) :
    statics (upd mem b v p) = statics (mem p) ∧ (upd mem b v p).queue = (mem p).queue := by
  simp only [upd_apply]
  split_ifs with h
  · subst h; exact hv
  · exact ⟨rfl, rfl⟩

theorem ResetAt.of_upd (callback : Ptr) (mem : Ptr → uv_callback_t) (v : uv_callback_t)
    (hq : v.queue = []) (hd : v.async_data = callback) (hi : v.inactive = 0) :
    ResetAt callback mem (upd mem callback v) := by
  refine ⟨fun p hp => ?_, ?_, ?_, ?_⟩
  · rw [upd_other _ _ _ _ hp]; exact ⟨rfl, rfl⟩
  · rw [upd_same]; exact hq
  · rw [upd_same]; exact hd
  · rw [upd_same]; exact hi

theorem ResetAt.then_reset {callback : Ptr} {mem mem' : Ptr → uv_callback_t}
    (h : ResetAt callback mem mem') (v : uv_callback_t)
    (hq : v.queue = []) (hd : v.async_data = callback) (hi : v.inactive = 0) :
    ResetAt callback mem (upd mem' callback v) := by
  refine ⟨fun p hp => ?_, ?_, ?_, ?_⟩
  · rw [upd_other _ _ _ _ hp]; exact h.1 p hp
  · rw [upd_same]; exact hq
  · rw [upd_same]; exact hd
  · rw [upd_same]; exact hi

theorem ResetAt.then_keep {callback : Ptr} {mem mem' : Ptr → uv_callback_t}
    (h : ResetAt callback mem mem') (b : Ptr) (v : uv_callback_t)
    (hv : statics v = statics (mem' b) ∧ v.queue = (mem' b).queue) :
    ResetAt callback mem (upd mem' b v) := by
  have hs : statics v = statics (mem' b) → v.async_data = (mem' b).async_data
      ∧ v.inactive = (mem' b).inactive := by
    intro e; simp only [statics, Prod.mk.injEq] at e; exact ⟨e.2.2.2, e.1⟩
  refine ⟨fun p hp => ?_, ?_, ?_, ?_⟩
  · have h1 := upd_frame mem' b v p hv
    rw [h1.1, h1.2]; exact h.1 p hp
  · rw [(upd_frame mem' b v callback hv).2]; exact h.2.1
  · by_cases hb : callback = b
    · subst hb; rw [upd_same, (hs hv.1).1]; exact h.2.2.1
    · rw [upd_other _ _ _ _ hb]; exact h.2.2.1
  · by_cases hb : callback = b
    · subst hb; rw [upd_same, (hs hv.1).2]; exact h.2.2.2
    · rw [upd_other _ _ _ _ hb]; exact h.2.2.2

/-- What `uv_callback_init_ex` does to the heap, as far as the queue invariant
is concerned: nothing at all (null argument), or the storage of `callback` is
reset and no other handle changes in its `statics` or queue. -/
theorem init_ex_frame (fuel : Nat) (s : State) (loop callback function : Ptr)
    (callback_type : Int) (free_cb free_result : Ptr) (idle_rc async_rc rc : Int) (s' : State)
    (hrun : uv_callback_init_ex fuel s loop callback function callback_type free_cb
      free_result idle_rc async_rc = some (rc, s')) :
    s'.mem = s.mem ∨ ResetAt callback s.mem s'.mem := by
  unfold uv_callback_init_ex at hrun
  by_cases hnull : loop = 0 ∨ callback = 0 ∨ function = 0
  · rw [if_pos hnull] at hrun
    simp only [Option.some.injEq, Prod.mk.injEq] at hrun
    left; rw [← hrun.2]
  rw [if_neg hnull] at hrun
  right
  dsimp only at hrun
  by_cases hty : callback_type = UV_DEFAULT
  · rw [if_pos hty] at hrun
    unfold init_ex_default at hrun
    dsimp only at hrun
    split_ifs at hrun with hm hi
    · simp only [Option.map_eq_some'] at hrun
      obtain ⟨base, -, hb⟩ := hrun
      simp only [Prod.mk.injEq] at hb
      obtain ⟨-, rfl⟩ := hb
      exact (ResetAt.of_upd callback s.mem _ rfl rfl rfl).then_keep base _ ⟨rfl, rfl⟩
    · simp only [Option.some.injEq, Prod.mk.injEq] at hrun
      obtain ⟨-, rfl⟩ := hrun
      exact ResetAt.of_upd callback s.mem _ rfl rfl rfl
    · simp only [Option.some.injEq] at hrun
      unfold uv_async_init at hrun
      split_ifs at hrun with ha
      · simp only [Prod.mk.injEq] at hrun
        obtain ⟨-, rfl⟩ := hrun
        exact ResetAt.of_upd callback s.mem _ rfl rfl rfl
      · simp only [Prod.mk.injEq] at hrun
        obtain ⟨-, rfl⟩ := hrun
        exact (ResetAt.of_upd callback s.mem _ rfl rfl rfl).then_keep callback _ ⟨rfl, rfl⟩
  · rw [if_neg hty] at hrun
    split_ifs at hrun with hc
    · simp only [Option.some.injEq] at hrun
      unfold uv_async_init at hrun
      split_ifs at hrun with ha
      · simp only [Prod.mk.injEq] at hrun
        obtain ⟨-, rfl⟩ := hrun
        exact ResetAt.of_upd callback s.mem _ rfl rfl rfl
      · simp only [Prod.mk.injEq] at hrun
        obtain ⟨-, rfl⟩ := hrun
        exact (ResetAt.of_upd callback s.mem _ rfl rfl rfl).then_keep callback _ ⟨rfl, rfl⟩
    · simp only [Option.some.injEq, Prod.mk.injEq] at hrun
      obtain ⟨-, rfl⟩ := hrun
      exact ResetAt.of_upd callback s.mem _ rfl rfl rfl

theorem MemInv.init_ex (fuel : Nat) (s : State) (loop callback function : Ptr)
    (callback_type : Int) (free_cb free_result : Ptr) (idle_rc async_rc rc : Int) (s' : State)
    (hfresh : (s.mem callback).async_data ≠ callback)
    (hrun : uv_callback_init_ex fuel s loop callback function callback_type free_cb
      free_result idle_rc async_rc = some (rc, s'))
    (hinv : MemInv s.mem) : MemInv s'.mem := by
  rcases init_ex_frame fuel s loop callback function callback_type free_cb free_result
    idle_rc async_rc rc s' hrun with h | h
  · rw [h]; exact hinv
  obtain ⟨hother, hq, hd, hi⟩ := h
  have hf : ∀ p, p ≠ callback → (s'.mem p).inactive = (s.mem p).inactive
      ∧ (s'.mem p).usequeue = (s.mem p).usequeue
      ∧ (s'.mem p).master = (s.mem p).master ∧ (s'.mem p).async_data = (s.mem p).async_data := by
    intro p hp
    have h := (hother p hp).1
    simp only [statics, Prod.mk.injEq] at h
    exact h
  constructor
  · intro x c hc
    have hx : x ≠ callback := by
      intro e; rw [e, hq] at hc; simp at hc
    rw [(hother x hx).2] at hc
    have hold := hinv.target x c hc
    have ht : c.callback ≠ callback := by
      intro e
      have := hinv.marked c.callback hold.2.1
      rw [e] at this
      exact hfresh this
    rw [(hf _ ht).1, (hf _ ht).2.1, (hf _ ht).2.2.1]
    exact hold
  · intro p hp
    by_cases hpc : p = callback
    · rw [hpc]; exact hd
    · rw [(hf p hpc).2.1] at hp
      rw [(hf p hpc).2.2.2]
      exact hinv.marked p hp

/-! ## Dispatch keeps the invariant -/

theorem invoked_handles_append (a b : List Event) :
    invoked_handles (a ++ b) = invoked_handles a ++ invoked_handles b := by
  simp [invoked_handles, List.filterMap_append]

theorem invoked_handles_discard (c : uv_call_t) : invoked_handles (discard_call c) = [] := by
  unfold discard_call invoked_handles
  split_ifs <;> simp

theorem fire_ex_invoked (s : State) (callback data : Ptr) (size : Int)
    (free_data notify : Ptr) (malloc_ok : Bool) :
    invoked_handles (uv_callback_fire_ex s callback data size free_data notify malloc_ok).2.trace
      = invoked_handles s.trace := by
  unfold uv_callback_fire_ex
  split_ifs <;> simp [invoked_handles_append, invoked_handles]

theorem release_invoked (fuel : Nat) (s s' : State) (callback : Ptr)
    (h : uv_callback_release fuel s callback = some s') :
    invoked_handles s'.trace = invoked_handles s.trace := by
  unfold uv_callback_release at h
  dsimp only at h
  split_ifs at h with h0 h1
  · simp only [Option.some.injEq] at h; subst h; rfl
  · simp only [Option.map_eq_some'] at h
    obtain ⟨mem2, -, rfl⟩ := h
    dsimp only
    split_ifs <;> simp [invoked_handles_append, invoked_handles]
  · simp only [Option.some.injEq] at h
    subst h; rfl

theorem MemInv.deliver_result (s : State) (call : uv_call_t) (result : Ptr) (malloc_ok : Bool)
    (hinv : MemInv s.mem) : MemInv (UvCallback.deliver_result s call result malloc_ok).mem := by
  unfold UvCallback.deliver_result
  split_ifs
  · exact MemInv.fire_ex s _ _ _ _ _ _ hinv
  · exact hinv
  · exact hinv

theorem deliver_result_invoked (s : State) (call : uv_call_t) (result : Ptr) (malloc_ok : Bool) :
    invoked_handles (deliver_result s call result malloc_ok).trace = invoked_handles s.trace := by
  unfold deliver_result
  split_ifs
  · exact fire_ex_invoked s _ _ _ _ _ _
  · simp [invoked_handles_append, invoked_handles]
  · rfl

theorem MemInv.upd_keep {mem : Ptr → uv_callback_t} (hinv : MemInv mem) (b : Ptr)
    (v : uv_callback_t) (hv : statics v = statics (mem b) ∧ v.queue = (mem b).queue) :
    MemInv (upd mem b v) :=
  hinv.transfer (fun p => (upd_frame mem b v p hv).1)
    (fun x c hc => by rw [(upd_frame mem b v x hv).2] at hc; exact hc)

theorem MemInv.finish_call (s : State) (callback : Ptr) (call : uv_call_t)
    (hinv : MemInv s.mem) : MemInv (UvCallback.finish_call s callback call).mem := by
  unfold UvCallback.finish_call
  dsimp only
  split_ifs
  · exact MemInv.upd_keep hinv callback _ ⟨rfl, rfl⟩
  · exact hinv

theorem finish_call_invoked (s : State) (callback : Ptr) (call : uv_call_t) :
    invoked_handles (finish_call s callback call).trace = invoked_handles s.trace := by
  unfold finish_call
  dsimp only
  split_ifs
  · simp only [invoked_handles_append, invoked_handles_discard]
    simp [invoked_handles]
  · simp only [invoked_handles_append, invoked_handles_discard]
    simp

/-- One run of `uv_callback_async_cb` keeps the queue invariant, and the only
user function it invokes is that of the target of the record it dequeued
(Queued handle) or of the handle itself (Coalesced handle). -/
theorem async_cb_spec (exec : Ptr → Ptr → Ptr → Int → Ptr) (fuel : Nat) (s : State)
    (handle : Ptr) (malloc_ok : Bool) (s' : State)
    (hrun : uv_callback_async_cb exec fuel s handle malloc_ok = some s')
    (hinv : MemInv s.mem) :
    MemInv s'.mem ∧
      ((s.mem handle).usequeue = 0 ∧ invoked_handles s'.trace = invoked_handles s.trace ++ [handle]
        ∨ (s.mem handle).usequeue ≠ 0 ∧ (s.mem handle).queue = [] ∧
            invoked_handles s'.trace = invoked_handles s.trace
        ∨ (s.mem handle).usequeue ≠ 0 ∧ ∃ call, (s.mem handle).queue.getLast? = some call ∧
            invoked_handles s'.trace = invoked_handles s.trace ++ [call.callback]) := by
  unfold uv_callback_async_cb at hrun
  dsimp only at hrun
  by_cases hq : (s.mem handle).usequeue ≠ 0
  · rw [if_pos hq] at hrun
    have hd1 := dequeue_call_fst s handle
    have hinv1 := MemInv.dequeue_call s handle hinv
    have htr1 : (dequeue_call s handle).2.trace = s.trace := rfl
    rcases hd : dequeue_call s handle with ⟨_ | call, s1⟩
    · rw [hd] at hrun hd1 hinv1 htr1
      dsimp only at hrun hd1 hinv1 htr1
      simp only [Option.some.injEq] at hrun
      subst hrun
      refine ⟨MemInv.upd_keep hinv1 handle _ ⟨rfl, rfl⟩, ?_⟩
      right; left
      refine ⟨hq, List.getLast?_eq_none_iff.1 hd1.symm, ?_⟩
      dsimp only
      rw [htr1]
      simp [invoked_handles_append, invoked_handles]
    · rw [hd] at hrun hd1 hinv1 htr1
      dsimp only at hrun hd1 hinv1 htr1
      simp only [Option.map_eq_some'] at hrun
      obtain ⟨s4, hs4, rfl⟩ := hrun
      have hinv3 := MemInv.deliver_result
        { s1 with trace := s1.trace ++
            [Event.invoke (s1.mem call.callback).function call.callback call.data call.size] }
        call (exec (s1.mem call.callback).function call.callback call.data call.size)
        malloc_ok hinv1
      have htr3 := deliver_result_invoked
        { s1 with trace := s1.trace ++
            [Event.invoke (s1.mem call.callback).function call.callback call.data call.size] }
        call (exec (s1.mem call.callback).function call.callback call.data call.size)
        malloc_ok
      have h4 : MemInv s4.mem ∧ invoked_handles s4.trace
          = invoked_handles s.trace ++ [call.callback] := by
        split_ifs at hs4 with hn
        · refine ⟨MemInv.release fuel _ s4 _ hs4 hinv3, ?_⟩
          rw [release_invoked fuel _ s4 _ hs4, htr3]
          dsimp only
          rw [htr1]
          simp [invoked_handles_append, invoked_handles]
        · simp only [Option.some.injEq] at hs4
          subst hs4
          refine ⟨hinv3, ?_⟩
          rw [htr3]
          dsimp only
          rw [htr1]
          simp [invoked_handles_append, invoked_handles]
      refine ⟨MemInv.finish_call s4 handle call h4.1, ?_⟩
      right; right
      exact ⟨hq, call, hd1.symm, by rw [finish_call_invoked, h4.2]⟩
  · rw [if_neg hq] at hrun
    simp only [Option.some.injEq] at hrun
    subst hrun
    refine ⟨hinv, ?_⟩
    left
    exact ⟨by simpa using hq, by simp [invoked_handles_append, invoked_handles]⟩

/-! ## Stop-all keeps the invariant -/

theorem MemInv.stop_chain (fuel : Nat) :
    ∀ (s s' : State) (callback : Ptr), UvCallback.stop_chain fuel s callback = some s' →
      MemInv s.mem → MemInv s'.mem := by
  induction fuel with
  | zero =>
    intro s s' callback h hinv
    simp only [UvCallback.stop_chain] at h
    split_ifs at h
    simp only [Option.some.injEq] at h
    subst h; exact hinv
  | succ fuel ih =>
    intro s s' callback h hinv
    simp only [UvCallback.stop_chain] at h
    split_ifs at h
    · simp only [Option.some.injEq] at h
      subst h; exact hinv
    · exact ih _ s' _ h (MemInv.stop s callback hinv)

theorem MemInv.stop_all_walk (fuel : Nat) (l : List Ptr) :
    ∀ (s s' : State), UvCallback.stop_all_walk fuel s l = some s' →
      MemInv s.mem → MemInv s'.mem := by
  induction l with
  | nil =>
    intro s s' h hinv
    simp only [UvCallback.stop_all_walk, Option.some.injEq] at h
    subst h; exact hinv
  | cons x l ih =>
    intro s s' h hinv
    simp only [UvCallback.stop_all_walk, Option.bind_eq_some] at h
    obtain ⟨s1, h1, h2⟩ := h
    refine ih s1 s' h2 ?_
    unfold stop_all_on_walk at h1
    split_ifs at h1
    · exact MemInv.stop_chain fuel s s1 x h1 hinv
    · simp only [Option.some.injEq] at h1
      subst h1; exact hinv

/-- Every reachable state satisfies the queue invariant. -/
theorem Reachable.memInv {exec : Ptr → Ptr → Ptr → Int → Ptr} {s : State}
    (hr : Reachable exec s) : MemInv s.mem := by
  induction hr with
  | init => exact MemInv.init
  | step s s' _ hstep ih =>
    cases hstep with
    | init_ex fuel _ loop callback function callback_type free_cb free_result idle_rc async_rc
        rc _ hfresh hrun =>
      exact MemInv.init_ex fuel s loop callback function callback_type free_cb free_result
        idle_rc async_rc rc s' hfresh hrun ih
    | fire_ex _ callback data size free_data notify malloc_ok =>
      exact MemInv.fire_ex s callback data size free_data notify malloc_ok ih
    | stop _ callback => exact MemInv.stop s callback ih
    | stop_all fuel _ loop _ hrun =>
      exact MemInv.stop_all_walk fuel _ s s' hrun ih
    | dispatch fuel _ handle malloc_ok _ hnull hrun =>
      exact (async_cb_spec exec fuel s handle malloc_ok s' hrun ih).1

/-- C5 (amended): in every state reachable from the initial state by
`uv_callback_init_ex` (each call on storage that holds no handle yet),
`uv_callback_fire_ex`, `uv_callback_stop`, `uv_callback_stop_all` and dispatch
steps, no record in any queue targets a handle whose inactive flag is set; and
a run of `uv_callback_async_cb` from such a state invokes no user function of
a handle that is Queued and inactive: the handles it invokes (`hs`, at most
one) are not both. -/
theorem no_stopped_target (exec : Ptr → Ptr → Ptr → Int → Ptr) (s : State)
    (hr : Reachable exec s) :
    (∀ x c, c ∈ (s.mem x).queue → (s.mem c.callback).inactive = 0)
    ∧ (∀ fuel handle malloc_ok s',
        uv_callback_async_cb exec fuel s handle malloc_ok = some s' →
        ∃ hs, invoked_handles s'.trace = invoked_handles s.trace ++ hs ∧
          ∀ h ∈ hs, (s.mem h).usequeue ≠ 0 → (s.mem h).inactive = 0) := by
  have hinv := hr.memInv
  refine ⟨fun x c hc => (hinv.target x c hc).1, ?_⟩
  intro fuel handle malloc_ok s' hrun
  rcases (async_cb_spec exec fuel s handle malloc_ok s' hrun hinv).2 with
    ⟨h0, htr⟩ | ⟨-, -, htr⟩ | ⟨-, call, hlast, htr⟩
  · refine ⟨[handle], htr, ?_⟩
    intro h hh hq
    simp only [List.mem_singleton] at hh
    subst hh; exact absurd h0 hq
  · exact ⟨[], by simpa using htr, by simp⟩
  · refine ⟨[call.callback], htr, ?_⟩
    intro h hh _
    simp only [List.mem_singleton] at hh
    subst hh
    exact (hinv.target handle call (List.mem_of_getLast?_eq_some hlast)).1

theorem run_stopped_reachable (exec : Ptr → Ptr → Ptr → Int → Ptr) :
    Reachable exec run_stopped := by
  have h1 : Reachable exec run_init1 :=
    Reachable.step _ _ Reachable.init
      (Step.init_ex 2 State.init 100 1 7 UV_DEFAULT 0 0 0 0 0 run_init1 (by decide) rfl)
  have h2 : Reachable exec run_init2 :=
    Reachable.step _ _ h1
      (Step.init_ex 2 run_init1 100 2 8 UV_DEFAULT 0 0 0 0 0 run_init2 (by decide) rfl)
  have h3 : Reachable exec run_init3 :=
    Reachable.step _ _ h2
      (Step.init_ex 2 run_init2 100 3 9 UV_COALESCE 0 0 0 0 0 run_init3 (by decide) rfl)
  have h4 : Reachable exec run_fired :=
    Reachable.step _ _ h3 (Step.fire_ex run_init3 2 20 4 5 0 true)
  exact Reachable.step _ _ h4 (Step.stop run_fired 2)

/-- C5 on a concrete run: after registering master 1, sibling 2 and Coalesced
handle 3, firing the sibling and stopping it, the record of the sibling has
left the master queue, and no queued record targets an inactive handle. -/
theorem no_stopped_target_witness :
    (run_fired.mem 1).queue
      = [{ callback := 2, data := 20, size := 4, free_data := 5, notify := 0 }]
    ∧ (run_stopped.mem 2).inactive = 1
    ∧ (run_stopped.mem 1).queue = []
    ∧ (∀ x c, c ∈ (run_stopped.mem x).queue → (run_stopped.mem c.callback).inactive = 0) :=
  ⟨by decide, by decide, by decide,
    (no_stopped_target (fun _ _ _ _ => 0) run_stopped (run_stopped_reachable _)).1⟩

/-- The hand-written `demo_state` is the state the three registrations produce. -/
theorem demo_state_eq_run : run_init3.mem = demo_state.mem ∧ run_init3.loops = demo_state.loops
    ∧ run_init3.trace = demo_state.trace := by
  refine ⟨?_, ?_, rfl⟩
  · funext p
    by_cases h1 : p = 1
    · subst h1; rfl
    by_cases h2 : p = 2
    · subst h2; rfl
    by_cases h3 : p = 3
    · subst h3; rfl
    simp [run_init3, run_init2, run_init1, uv_callback_init_ex, init_ex_default, uv_async_init, State.init,
      get_master_callback, master_on_walk, chain_last, upd_apply, demo_state, h1, h2, h3,
      UV_DEFAULT, UV_COALESCE, UV_ASYNC, zero_callback]
  · funext l
    by_cases h : l = 100
    · subst h; rfl
    simp [run_init3, run_init2, run_init1, uv_callback_init_ex, init_ex_default, uv_async_init, State.init,
      get_master_callback, master_on_walk, chain_last, upd_apply, demo_state, h,
      UV_DEFAULT, UV_COALESCE, UV_ASYNC, zero_callback]

/-! ## Coalesced handles -/

/-- A fire without notify on an active Coalesced handle stores the data in the
slot `arg`, signals the wake primitive and returns 0. -/
theorem fire_ex_coalesced (s : State) (h : Ptr) (a : FireArgs) (h0 : h ≠ 0)
    (hq : (s.mem h).usequeue = 0) (hi : (s.mem h).inactive = 0) :
    uv_callback_fire_ex s h a.data a.size a.free_data 0 a.malloc_ok
      = (0, { s with mem := upd s.mem h { s.mem h with arg := a.data },
                     trace := s.trace ++ [Event.async_send h] }) := by
  unfold uv_callback_fire_ex
  rw [if_neg h0, if_neg (by simpa using hi), if_neg (by simp), if_neg (by simpa using hq)]

theorem fire_seq_coalesced (h : Ptr) (h0 : h ≠ 0) (fires : List FireArgs) :
    ∀ s : State, (s.mem h).usequeue = 0 → (s.mem h).inactive = 0 →
      (∀ rc ∈ (fire_seq h s fires).1, rc = 0)
      ∧ (∀ p, ((fire_seq h s fires).2.mem p).queue = (s.mem p).queue)
      ∧ ((fire_seq h s fires).2.mem h).usequeue = 0
      ∧ ((fire_seq h s fires).2.mem h).function = (s.mem h).function
      ∧ ((fire_seq h s fires).2.mem h).arg
          = (fires.getLast?.map FireArgs.data).getD (s.mem h).arg := by
  induction fires with
  | nil => intro s hq _; simp [fire_seq, hq]
  | cons a rest ih =>
    intro s hq hi
    have hstep := fire_ex_coalesced s h a h0 hq hi
    simp only [fire_seq, hstep]
    have ih' := ih { s with mem := upd s.mem h { s.mem h with arg := a.data },
                            trace := s.trace ++ [Event.async_send h] }
      (by simp [hq]) (by simp [hi])
    obtain ⟨i1, i2, i3, i4, i5⟩ := ih'
    refine ⟨?_, ?_, i3, ?_, ?_⟩
    · intro rc hrc
      simp only [List.mem_cons] at hrc
      rcases hrc with rfl | hrc
      · rfl
      · exact i1 rc hrc
    · intro p; rw [i2 p]; exact upd_arg_queue s.mem h a.data p
    · rw [i4]; simp
    · rw [i5]
      cases rest with
      | nil => simp
      | cons b rest =>
        rw [List.getLast?_cons_cons, List.getLast?_eq_getLast _ (List.cons_ne_nil b rest)]
        rfl

/-- C6: on an active Coalesced handle `h`, a non-empty sequence of fires with
null notify and nothing in between (data `d1..dn`, the last being `last.data`)
returns 0 every time and leaves every queue as it was (no record is
enqueued); the next run of `uv_callback_async_cb` on `h` returns, and what it
adds to the trace is exactly one invocation of the function of `h`, with data
`dn` and size 0. -/
theorem coalesced_last_write (exec : Ptr → Ptr → Ptr → Int → Ptr) (fuel : Nat) (s : State)
    (h : Ptr) (earlier : List FireArgs) (last : FireArgs) (malloc_ok : Bool)
    (h0 : h ≠ 0) (hq : (s.mem h).usequeue = 0) (hi : (s.mem h).inactive = 0) :
    (∀ rc ∈ (fire_seq h s (earlier ++ [last])).1, rc = 0)
    ∧ (∀ p, ((fire_seq h s (earlier ++ [last])).2.mem p).queue = (s.mem p).queue)
    ∧ uv_callback_async_cb exec fuel (fire_seq h s (earlier ++ [last])).2 h malloc_ok
        = some { (fire_seq h s (earlier ++ [last])).2 with
                 trace := (fire_seq h s (earlier ++ [last])).2.trace
                   ++ [Event.invoke (s.mem h).function h last.data 0] } := by
  obtain ⟨i1, i2, i3, i4, i5⟩ := fire_seq_coalesced h h0 (earlier ++ [last]) s hq hi
  refine ⟨i1, i2, ?_⟩
  unfold uv_callback_async_cb
  dsimp only
  rw [if_neg (by simpa using i3), i4, i5]
  simp

/-- C6 on the Coalesced handle 3 of `demo_state`: after fires with data 11, 12
and 13, the dispatch invokes function 9 once, with data 13 and size 0. -/
theorem coalesced_last_write_witness :
    (uv_callback_async_cb (fun _ _ _ _ => 0) 0
        (fire_seq 3 demo_state
          ([{ data := 11, size := 1, free_data := 0, malloc_ok := true },
            { data := 12, size := 2, free_data := 0, malloc_ok := false }]
            ++ [{ data := 13, size := 3, free_data := 4, malloc_ok := true }])).2 3 true).map
      (fun s => invoked_handles s.trace)
      = some [3]
    ∧ uv_callback_async_cb (fun _ _ _ _ => 0) 0
        (fire_seq 3 demo_state
          ([{ data := 11, size := 1, free_data := 0, malloc_ok := true },
            { data := 12, size := 2, free_data := 0, malloc_ok := false }]
            ++ [{ data := 13, size := 3, free_data := 4, malloc_ok := true }])).2 3 true
      = some { (fire_seq 3 demo_state
          ([{ data := 11, size := 1, free_data := 0, malloc_ok := true },
            { data := 12, size := 2, free_data := 0, malloc_ok := false }]
            ++ [{ data := 13, size := 3, free_data := 4, malloc_ok := true }])).2 with
          trace := (fire_seq 3 demo_state
            ([{ data := 11, size := 1, free_data := 0, malloc_ok := true },
              { data := 12, size := 2, free_data := 0, malloc_ok := false }]
              ++ [{ data := 13, size := 3, free_data := 4, malloc_ok := true }])).2.trace
            ++ [Event.invoke (demo_state.mem 3).function 3 13 0] } :=
  ⟨by decide,
   (coalesced_last_write (fun _ _ _ _ => 0) 0 demo_state 3 _ _ true (by decide) (by decide)
      (by decide)).2.2⟩

/-! ## Reference counting -/

theorem fire_ex_links (s : State) (callback data : Ptr) (size : Int)
    (free_data notify : Ptr) (malloc_ok : Bool) (p : Ptr) :
    ((uv_callback_fire_ex s callback data size free_data notify malloc_ok).2.mem p).next
        = (s.mem p).next
    ∧ ((uv_callback_fire_ex s callback data size free_data notify malloc_ok).2.mem p).free_cb
        = (s.mem p).free_cb := by
  unfold uv_callback_fire_ex
  split_ifs <;> simp only [upd_apply] <;> (try split_ifs) <;> simp_all

theorem upd_queue_refcount (mem : Ptr → uv_callback_t) (t : Ptr) (q : List uv_call_t)
    (x : Ptr) : (upd mem t { mem t with queue := q } x).refcount = (mem x).refcount := by
  simp only [upd_apply]; split_ifs with h
  · subst h; rfl
  · rfl

/-- A fire that returns 0 and names a non-null notify handle adds one to the
reference count of that handle. -/
theorem fire_ex_notify_refcount (s : State) (callback data : Ptr) (size : Int)
    (free_data notify : Ptr) (malloc_ok : Bool) (hn : notify ≠ 0)
    (hrc : (uv_callback_fire_ex s callback data size free_data notify malloc_ok).1 = 0) :
    ((uv_callback_fire_ex s callback data size free_data notify malloc_ok).2.mem notify).refcount
      = (s.mem notify).refcount + 1 := by
  unfold uv_callback_fire_ex at hrc ⊢
  by_cases h1 : callback = 0
  · rw [if_pos h1] at hrc; simp [UV_EINVAL] at hrc
  rw [if_neg h1] at hrc ⊢
  by_cases h2 : (s.mem callback).inactive ≠ 0
  · rw [if_pos h2] at hrc; simp [UV_EPERM] at hrc
  rw [if_neg h2] at hrc ⊢
  by_cases h3 : notify ≠ 0 ∧ (s.mem callback).usequeue = 0
  · rw [if_pos h3] at hrc; simp [UV_EINVAL] at hrc
  rw [if_neg h3] at hrc ⊢
  have h4 : (s.mem callback).usequeue ≠ 0 := fun e => h3 ⟨hn, e⟩
  rw [if_pos h4] at hrc ⊢
  by_cases h5 : malloc_ok = false
  · rw [if_pos h5] at hrc; simp [UV_ENOMEM] at hrc
  rw [if_neg h5]
  dsimp only
  rw [if_pos hn, upd_same]
  dsimp only
  rw [upd_queue_refcount]

theorem free_cb_events_append (a b : List Event) :
    free_cb_events (a ++ b) = free_cb_events a ++ free_cb_events b := by
  simp [free_cb_events, List.filterMap_append]

theorem notify_fires_spec (n : Ptr) (hn : n ≠ 0) (fires : List (Ptr × FireArgs)) :
    ∀ s : State, (∀ rc ∈ (notify_fires n s fires).1, rc = 0) →
      ((notify_fires n s fires).2.mem n).refcount = (s.mem n).refcount + fires.length
      ∧ ∀ p, ((notify_fires n s fires).2.mem p).next = (s.mem p).next
          ∧ ((notify_fires n s fires).2.mem p).free_cb = (s.mem p).free_cb
          ∧ ((notify_fires n s fires).2.mem p).master = (s.mem p).master := by
  induction fires with
  | nil => intro s _; simp [notify_fires]
  | cons xa rest ih =>
    intro s hrc
    obtain ⟨x, a⟩ := xa
    simp only [notify_fires, List.mem_cons, forall_eq_or_imp] at hrc ⊢
    obtain ⟨i1, i2⟩ := ih _ hrc.2
    refine ⟨?_, fun p => ?_⟩
    · rw [i1, fire_ex_notify_refcount s x a.data a.size a.free_data n a.malloc_ok hn hrc.1]
      simp only [List.length_cons, Nat.cast_add, Nat.cast_one]
      ring
    · rw [(i2 p).1, (i2 p).2.1, (i2 p).2.2, (fire_ex_links s x _ _ _ n _ p).1,
        (fire_ex_links s x _ _ _ n _ p).2, fire_ex_master]
      exact ⟨rfl, rfl, rfl⟩

/-! ### The unlink walk of `uv_callback_release` -/

theorem release_unlink_null (callback : Ptr) (fuel : Nat) (mem : Ptr → uv_callback_t) :
    release_unlink callback fuel mem 0 = some mem := by
  cases fuel <;> simp [release_unlink]

theorem release_unlink_congr (callback : Ptr) (fuel : Nat) :
    ∀ (mem mem' : Ptr → uv_callback_t) (start : Ptr),
      (∀ p, (mem' p).next = (mem p).next) →
      (release_unlink callback fuel mem start).isSome →
      (release_unlink callback fuel mem' start).isSome := by
  induction fuel with
  | zero =>
    intro mem mem' start _ h
    simp only [release_unlink] at h ⊢
    split_ifs at h ⊢ <;> simp_all
  | succ fuel ih =>
    intro mem mem' start hnext h
    simp only [release_unlink] at h ⊢
    rw [hnext start]
    split_ifs at h ⊢ with h1 h2
    · rfl
    · rfl
    · exact ih mem mem' _ hnext h

theorem release_unlink_mono (callback : Ptr) (fuel : Nat) :
    ∀ (mem : Ptr → uv_callback_t) (start : Ptr),
      (release_unlink callback fuel mem start).isSome →
      (release_unlink callback (fuel + 1) mem start).isSome := by
  induction fuel with
  | zero =>
    intro mem start h
    simp only [release_unlink] at h ⊢
    split_ifs at h ⊢ <;> simp_all
  | succ fuel ih =>
    intro mem start h
    rw [release_unlink] at h ⊢
    split_ifs at h ⊢ with h1 h2
    · rfl
    · rfl
    · exact ih mem _ h

theorem release_unlink_mono_le (callback : Ptr) (f f' : Nat) (hle : f ≤ f')
    (mem : Ptr → uv_callback_t) (start : Ptr)
    (h : (release_unlink callback f mem start).isSome) :
    (release_unlink callback f' mem start).isSome := by
  induction hle with
  | refl => exact h
  | step _ ih => exact release_unlink_mono callback _ mem start ih

theorem chain_last_next (fuel : Nat) :
    ∀ (mem : Ptr → uv_callback_t) (start base : Ptr),
      chain_last fuel mem start = some base → (mem base).next = 0 := by
  induction fuel with
  | zero =>
    intro mem start base h
    simp only [chain_last] at h
    split_ifs at h with h1
    simp only [Option.some.injEq] at h
    subst h; exact h1
  | succ fuel ih =>
    intro mem start base h
    simp only [chain_last] at h
    split_ifs at h with h1
    · simp only [Option.some.injEq] at h
      subst h; exact h1
    · exact ih mem _ base h

/-- When the walk of `uv_callback_init_ex` reached the end `base` of the chain
and `base->next` was set to `callback`, the unlink walk of
`uv_callback_release(callback)` from the same start finds a predecessor. -/
theorem chain_unlink (callback : Ptr) (fuel : Nat) :
    ∀ (mem mem' : Ptr → uv_callback_t) (start base : Ptr),
      chain_last fuel mem start = some base → start ≠ 0 →
      (∀ p, (mem' p).next = if p = base then callback else (mem p).next) →
      (release_unlink callback (fuel + 1) mem' start).isSome := by
  induction fuel with
  | zero =>
    intro mem mem' start base h hs hnext
    simp only [chain_last] at h
    split_ifs at h with h1
    simp only [Option.some.injEq] at h
    subst h
    rw [release_unlink, if_neg hs, hnext start, if_pos rfl, if_pos rfl]
    rfl
  | succ fuel ih =>
    intro mem mem' start base h hs hnext
    have hb := chain_last_next _ mem start base h
    simp only [chain_last] at h
    rw [release_unlink, if_neg hs]
    split_ifs at h with h1
    · simp only [Option.some.injEq] at h
      subst h
      rw [hnext start, if_pos rfl, if_pos rfl]
      rfl
    · have hsb : start ≠ base := by
        intro e; rw [e] at h1; exact h1 hb
      rw [hnext start, if_neg hsb]
      split_ifs with h2
      · rfl
      · exact ih mem mem' _ base h h1 hnext

theorem release_unlink_fields (callback : Ptr) (fuel : Nat) :
    ∀ (mem mem' : Ptr → uv_callback_t) (start : Ptr),
      release_unlink callback fuel mem start = some mem' →
      ∀ p, (mem' p).refcount = (mem p).refcount ∧ (mem' p).free_cb = (mem p).free_cb := by
  induction fuel with
  | zero =>
    intro mem mem' start h p
    simp only [release_unlink] at h
    split_ifs at h
    simp only [Option.some.injEq] at h
    subst h; exact ⟨rfl, rfl⟩
  | succ fuel ih =>
    intro mem mem' start h p
    simp only [release_unlink] at h
    split_ifs at h with h1 h2
    · simp only [Option.some.injEq] at h
      subst h; exact ⟨rfl, rfl⟩
    · simp only [Option.some.injEq] at h
      subst h
      simp only [upd_apply]
      split_ifs with h3
      · subst h3; exact ⟨rfl, rfl⟩
      · exact ⟨rfl, rfl⟩
    · exact ih mem mem' _ h p

/-- A release that does not bring the count to 0, or finds no `free_cb`, only
lowers the count. -/
theorem release_keep (fuel : Nat) (s : State) (h : Ptr) (h0 : h ≠ 0)
    (hk : ¬ ((s.mem h).refcount - 1 = 0 ∧ (s.mem h).free_cb ≠ 0)) :
    uv_callback_release fuel s h
      = some { s with mem := upd s.mem h { s.mem h with refcount := (s.mem h).refcount - 1 } } := by
  unfold uv_callback_release
  rw [if_neg h0]
  dsimp only
  rw [if_neg (by simpa using hk)]

/-- The release that brings the count to 0 on a handle with `free_cb` returns
once the unlink walk ends, and invokes `free_cb(h)` once. -/
theorem release_final (fuel : Nat) (s : State) (h : Ptr) (h0 : h ≠ 0)
    (hr : (s.mem h).refcount = 1) (hf : (s.mem h).free_cb ≠ 0)
    (hu : (release_unlink h fuel s.mem (s.mem h).master).isSome) :
    ∃ s3, uv_callback_release fuel s h = some s3 ∧ (s3.mem h).refcount = 0
      ∧ free_cb_events s3.trace = free_cb_events s.trace ++ [((s.mem h).free_cb, h)] := by
  have hu1 := release_unlink_congr h fuel s.mem
    (upd s.mem h { s.mem h with refcount := (s.mem h).refcount - 1 }) (s.mem h).master
    (fun p => by simp only [upd_apply]; split_ifs with e <;> [(subst e; rfl); rfl]) hu
  obtain ⟨mem2, hm2⟩ := Option.isSome_iff_exists.1 hu1
  have hfields := release_unlink_fields h fuel _ mem2 _ hm2 h
  rw [upd_same] at hfields
  dsimp only at hfields
  unfold uv_callback_release
  rw [if_neg h0]
  dsimp only
  rw [upd_same]
  dsimp only
  rw [if_pos ⟨by rw [hr]; rfl, hf⟩, hm2]
  refine ⟨_, rfl, ?_, ?_⟩
  · dsimp only; rw [hfields.1, hr]; rfl
  · dsimp only
    rw [hfields.2]
    split_ifs <;> simp [free_cb_events_append, free_cb_events]

theorem release_seq_spec (fuel : Nat) (h : Ptr) (h0 : h ≠ 0) (s : State) (n : Nat)
    (hn : (s.mem h).refcount = n + 1) (k : Nat) (hk : k ≤ n) :
    ∃ sk, release_seq fuel h k s = some sk ∧ (sk.mem h).refcount = (n : Int) + 1 - k
      ∧ sk.trace = s.trace ∧ (sk.mem h).free_cb = (s.mem h).free_cb
      ∧ (sk.mem h).master = (s.mem h).master ∧ ∀ p, (sk.mem p).next = (s.mem p).next := by
  induction k with
  | zero => exact ⟨s, rfl, by simpa using hn, rfl, rfl, rfl, fun _ => rfl⟩
  | succ k ih =>
    obtain ⟨sk, h1, h2, h3, h4, h5, h6⟩ := ih (Nat.le_of_succ_le hk)
    have hkeep : ¬ ((sk.mem h).refcount - 1 = 0 ∧ (sk.mem h).free_cb ≠ 0) := by
      rintro ⟨e, -⟩
      rw [h2] at e
      have : (k : Int) + 1 ≤ n := by exact_mod_cast hk
      omega
    refine ⟨{ sk with mem := upd sk.mem h { sk.mem h with refcount := (sk.mem h).refcount - 1 } },
      ?_, ?_, ?_, ?_, ?_, ?_⟩
    · simp only [release_seq, h1, Option.some_bind]
      exact release_keep fuel sk h h0 hkeep
    · dsimp only; rw [upd_same]; dsimp only; rw [h2]; push_cast; ring
    · exact h3
    · dsimp only; rw [upd_same]; exact h4
    · dsimp only; rw [upd_same]; exact h5
    · intro p
      dsimp only
      rw [← h6 p]
      simp only [upd_apply]; split_ifs with e
      · subst e; rfl
      · rfl

/-- After a `uv_callback_init_ex` that returns 0 the handle is non-null, its
count is 1, its `free_cb` is the one given, and the unlink walk of a later
release ends within `fuel + 1` steps. -/
theorem init_ex_refcount (fuel : Nat) (s : State) (loop callback function : Ptr)
    (callback_type : Int) (free_cb free_result : Ptr) (idle_rc async_rc : Int) (s' : State)
    (hrun : uv_callback_init_ex fuel s loop callback function callback_type free_cb
      free_result idle_rc async_rc = some (0, s')) :
    callback ≠ 0 ∧ (s'.mem callback).refcount = 1 ∧ (s'.mem callback).free_cb = free_cb
      ∧ (release_unlink callback (fuel + 1) s'.mem (s'.mem callback).master).isSome := by
  unfold uv_callback_init_ex at hrun
  by_cases hnull : loop = 0 ∨ callback = 0 ∨ function = 0
  · rw [if_pos hnull] at hrun
    simp [UV_EINVAL] at hrun
  rw [if_neg hnull] at hrun
  have hc0 : callback ≠ 0 := fun e => hnull (Or.inr (Or.inl e))
  refine ⟨hc0, ?_⟩
  dsimp only at hrun
  by_cases hty : callback_type = UV_DEFAULT
  · rw [if_pos hty] at hrun
    unfold init_ex_default at hrun
    dsimp only at hrun
    split_ifs at hrun with hm hi
    · simp only [Option.map_eq_some'] at hrun
      obtain ⟨base, hbase, hb⟩ := hrun
      simp only [Prod.mk.injEq, true_and] at hb
      subst hb
      dsimp only
      have hfld : ∀ (m : Ptr → uv_callback_t) (c : uv_callback_t),
          (upd (upd m callback c) base { upd m callback c base with next := callback }
            callback).refcount = c.refcount
          ∧ (upd (upd m callback c) base { upd m callback c base with next := callback }
            callback).free_cb = c.free_cb
          ∧ (upd (upd m callback c) base { upd m callback c base with next := callback }
            callback).master = c.master := by
        intro m c
        by_cases e : callback = base
        · subst e; simp [upd_apply]
        · simp [upd_apply, e]
      refine ⟨(hfld _ _).1, (hfld _ _).2.1, ?_⟩
      rw [(hfld _ _).2.2]
      refine chain_unlink callback fuel _ _ _ base hbase hm ?_
      intro p
      simp only [upd_apply]
      split_ifs <;> simp_all
    · simp only [Option.some.injEq, Prod.mk.injEq] at hrun
      exact absurd hrun.1 hi
    · simp only [Option.some.injEq] at hrun
      unfold uv_async_init at hrun
      split_ifs at hrun with ha
      · simp only [Prod.mk.injEq] at hrun
        exact absurd hrun.1 ha
      · simp only [Prod.mk.injEq, true_and] at hrun
        subst hrun
        dsimp only
        rw [upd_same, upd_same]
        dsimp only
        refine ⟨rfl, rfl, ?_⟩
        rw [not_not.1 hm, release_unlink_null]
        rfl
  · rw [if_neg hty] at hrun
    split_ifs at hrun with hc
    · simp only [Option.some.injEq] at hrun
      unfold uv_async_init at hrun
      split_ifs at hrun with ha
      · simp only [Prod.mk.injEq] at hrun
        exact absurd hrun.1 ha
      · simp only [Prod.mk.injEq, true_and] at hrun
        subst hrun
        dsimp only
        rw [upd_same, upd_same]
        dsimp only
        refine ⟨rfl, rfl, ?_⟩
        rw [show zero_callback.master = 0 from rfl, release_unlink_null]
        rfl
    · simp [UV_EINVAL] at hrun

/-- C7: let `uv_callback_init_ex` register `h` with a non-null `free_cb` and
return 0, and let `N` fires that name `h` as notify follow, each returning 0.
Then the count of `h` is 1 after the registration and `N + 1` after the fires;
each of the first `N` calls of `uv_callback_release(h)` returns and leaves a
count `N + 1 - k ≠ 0` without any `free_cb` invocation; the call number
`N + 1` returns (the unlink walk ends within the fuel the registration
needed plus one), leaves the count 0 and invokes `free_cb(h)` exactly once. -/
theorem refcount_lifecycle (fuel fuel2 : Nat) (s s1 : State) (loop h function : Ptr)
    (callback_type : Int) (free_cb free_result : Ptr) (idle_rc async_rc : Int)
    (fires : List (Ptr × FireArgs))
    (hcb : free_cb ≠ 0)
    (hinit : uv_callback_init_ex fuel s loop h function callback_type free_cb free_result
      idle_rc async_rc = some (0, s1))
    (hfires : ∀ rc ∈ (notify_fires h s1 fires).1, rc = 0)
    (hfuel : fuel < fuel2) :
    (s1.mem h).refcount = 1
    ∧ ((notify_fires h s1 fires).2.mem h).refcount = fires.length + 1
    ∧ (∀ k, k ≤ fires.length →
        ∃ sk, release_seq fuel2 h k (notify_fires h s1 fires).2 = some sk
          ∧ (sk.mem h).refcount = (fires.length : Int) + 1 - k
          ∧ (sk.mem h).refcount ≠ 0
          ∧ free_cb_events sk.trace = free_cb_events (notify_fires h s1 fires).2.trace)
    ∧ (∃ s3, release_seq fuel2 h (fires.length + 1) (notify_fires h s1 fires).2 = some s3
          ∧ (s3.mem h).refcount = 0
          ∧ free_cb_events s3.trace
              = free_cb_events (notify_fires h s1 fires).2.trace ++ [(free_cb, h)]) := by
  obtain ⟨h0, hr1, hf1, hu1⟩ := init_ex_refcount fuel s loop h function callback_type free_cb
    free_result idle_rc async_rc s1 hinit
  obtain ⟨hr2, hl2⟩ := notify_fires_spec h h0 fires s1 hfires
  have hr2' : ((notify_fires h s1 fires).2.mem h).refcount = fires.length + 1 := by
    rw [hr2, hr1]; ring
  refine ⟨hr1, hr2', ?_, ?_⟩
  · intro k hk
    obtain ⟨sk, e1, e2, e3, -, -, -⟩ :=
      release_seq_spec fuel2 h h0 (notify_fires h s1 fires).2 fires.length hr2' k hk
    refine ⟨sk, e1, e2, ?_, by rw [e3]⟩
    rw [e2]
    have : (k : Int) ≤ fires.length := by exact_mod_cast hk
    omega
  · obtain ⟨sk, e1, e2, e3, e4, e5, e6⟩ :=
      release_seq_spec fuel2 h h0 (notify_fires h s1 fires).2 fires.length hr2' fires.length
        (le_refl _)
    have hrk : (sk.mem h).refcount = 1 := by rw [e2]; ring
    have hfk : (sk.mem h).free_cb = free_cb := by rw [e4, (hl2 h).2.1, hf1]
    have huk : (release_unlink h fuel2 sk.mem (sk.mem h).master).isSome := by
      rw [e5, (hl2 h).2.2]
      refine release_unlink_congr h fuel2 s1.mem sk.mem _ ?_
        (release_unlink_mono_le h (fuel + 1) fuel2 hfuel s1.mem _ hu1)
      intro p
      rw [e6 p, (hl2 p).1]
    obtain ⟨s3, g1, g2, g3⟩ := release_final fuel2 sk h h0 hrk (by rw [hfk]; exact hcb) huk
    refine ⟨s3, ?_, g2, ?_⟩
    · simp only [release_seq, e1, Option.some_bind]
      exact g1
    · rw [g3, e3, hfk]

/-- C7 on a sibling: handle 2 is registered next to master 1 with `free_cb` 6,
two fires name it as notify (count 3), and of three releases only the third
invokes `free_cb(2)`, and leaves the count 0. -/
theorem refcount_lifecycle_witness :
    ((notify_fires 2 run_sibling demo_notify_fires).2.mem 2).refcount = 3
    ∧ (release_seq 3 2 2 (notify_fires 2 run_sibling demo_notify_fires).2).map
        (fun t => ((t.mem 2).refcount, free_cb_events t.trace)) = some (1, [])
    ∧ (release_seq 3 2 3 (notify_fires 2 run_sibling demo_notify_fires).2).map
        (fun t => ((t.mem 2).refcount, free_cb_events t.trace)) = some (0, [(6, 2)])
    ∧ (∃ s3, release_seq 3 2 (demo_notify_fires.length + 1)
          (notify_fires 2 run_sibling demo_notify_fires).2 = some s3
        ∧ (s3.mem 2).refcount = 0
        ∧ free_cb_events s3.trace
            = free_cb_events (notify_fires 2 run_sibling demo_notify_fires).2.trace
                ++ [(6, 2)]) :=
  ⟨by decide, by decide, by decide,
    (refcount_lifecycle 2 3 run_init1 run_sibling 100 2 8 UV_DEFAULT 6 0 0 0 demo_notify_fires
      (by decide) rfl (by decide) (by decide)).2.2.2⟩

/-! ## Grouping -/

theorem foldl_master_none (s : State) (l : List Ptr) (arg : Ptr)
    (h : ∀ x ∈ l, ¬ is_queue_master s.mem x) :
    l.foldl (fun arg handle => master_on_walk s handle arg) arg = arg := by
  induction l generalizing arg with
  | nil => rfl
  | cons x l ih =>
    simp only [List.foldl_cons]
    have hx : master_on_walk s x arg = arg := by
      unfold master_on_walk
      exact if_neg (h x (List.mem_cons_self _ _))
    rw [hx]
    exact ih arg (fun y hy => h y (List.mem_cons_of_mem _ hy))

theorem foldl_master_unique (s : State) (m : Ptr) (l : List Ptr) (arg : Ptr)
    (hm : is_queue_master s.mem m) (hmem : m ∈ l)
    (h : ∀ x ∈ l, x ≠ m → ¬ is_queue_master s.mem x) :
    l.foldl (fun arg handle => master_on_walk s handle arg) arg = m := by
  induction l generalizing arg with
  | nil => simp at hmem
  | cons x l ih =>
    simp only [List.foldl_cons]
    by_cases hxm : x = m
    · subst hxm
      have hx : master_on_walk s x arg = x := by
        unfold master_on_walk
        exact if_pos hm
      rw [hx]
      by_cases hml : x ∈ l
      · exact ih x hml (fun y hy => h y (List.mem_cons_of_mem _ hy))
      · refine foldl_master_none s l x (fun y hy => ?_)
        exact h y (List.mem_cons_of_mem _ hy) (fun e => hml (e ▸ hy))
    · have hml : m ∈ l := by
        rcases List.mem_cons.1 hmem with e | e
        · exact absurd e.symm hxm
        · exact e
      exact ih _ hml (fun y hy => h y (List.mem_cons_of_mem _ hy))

theorem chain_ok_congr (mem mem' : Ptr → uv_callback_t) (l : List Ptr) :
    ∀ a, chain_ok mem a l → (∀ x ∈ a :: l, (mem' x).next = (mem x).next) →
      chain_ok mem' a l := by
  induction l with
  | nil =>
    intro a h hx
    simp only [chain_ok] at h ⊢
    rw [hx a (List.mem_cons_self _ _)]; exact h
  | cons b l ih =>
    intro a h hx
    simp only [chain_ok] at h ⊢
    refine ⟨by rw [hx a (List.mem_cons_self _ _)]; exact h.1, h.2.1, ?_⟩
    exact ih b h.2.2 (fun x hxm => hx x (List.mem_cons_of_mem _ hxm))

/-- The walk of `uv_callback_init_ex` to the end of a chain `a :: l` ends at its last handle. -/
theorem chain_last_of_chain_ok (mem : Ptr → uv_callback_t) (l : List Ptr) :
    ∀ (a : Ptr) (fuel : Nat), chain_ok mem a l → l.length ≤ fuel →
      chain_last fuel mem a = some ((a :: l).getLast (List.cons_ne_nil a l)) := by
  induction l with
  | nil =>
    intro a fuel h _
    simp only [chain_ok] at h
    cases fuel <;> simp [chain_last, h]
  | cons b l ih =>
    intro a fuel h hf
    simp only [chain_ok] at h
    cases fuel with
    | zero => simp at hf
    | succ fuel =>
      have hnz : (mem a).next ≠ 0 := by rw [h.1]; exact h.2.1
      rw [chain_last, if_neg hnz, h.1,
        ih b fuel h.2.2 (by simpa using hf)]
      simp [List.getLast_cons]

/-- Linking a new handle `h` behind the last handle of the chain `a :: l` extends the chain by `h`. -/
theorem chain_ok_append (mem : Ptr → uv_callback_t) (h : Ptr) (h0 : h ≠ 0)
    (hnext : (mem h).next = 0) (l : List Ptr) :
    ∀ a, chain_ok mem a l → (a :: l).Nodup → h ∉ a :: l →
      chain_ok (upd mem ((a :: l).getLast (List.cons_ne_nil a l))
          { mem ((a :: l).getLast (List.cons_ne_nil a l)) with next := h }) a (l ++ [h]) := by
  induction l with
  | nil =>
    intro a hc _ hh
    have hha : h ≠ a := fun e => hh (by simp [e])
    simp only [List.getLast_singleton, List.nil_append, chain_ok]
    refine ⟨by simp, h0, ?_⟩
    rw [upd_other _ _ _ _ hha]; exact hnext
  | cons b l ih =>
    intro a hc hnd hh
    simp only [chain_ok] at hc
    have hnd' : (b :: l).Nodup := (List.nodup_cons.1 hnd).2
    have hab : a ∉ b :: l := (List.nodup_cons.1 hnd).1
    have hh' : h ∉ b :: l := fun e => hh (List.mem_cons_of_mem _ e)
    have hlast : (a :: b :: l).getLast (List.cons_ne_nil a (b :: l))
        = (b :: l).getLast (List.cons_ne_nil b l) := by
      simp [List.getLast_cons]
    have hane : a ≠ (b :: l).getLast (List.cons_ne_nil b l) :=
      fun e => hab (e ▸ List.getLast_mem _)
    simp only [List.cons_append, chain_ok]
    rw [hlast]
    refine ⟨?_, hc.2.1, ih b hc.2.2 hnd' hh'⟩
    rw [upd_other _ _ _ _ hane]; exact hc.1

/-- The `UV_DEFAULT` path of `uv_callback_init_ex` with valid arguments and
succeeding libuv initialisers when a master is found: the new handle is linked
behind the last handle of the chain of the master. -/
theorem init_ex_default_sibling (fuel : Nat) (s : State) (loop callback function : Ptr)
    (free_cb free_result : Ptr) (hnull : ¬ (loop = 0 ∨ callback = 0 ∨ function = 0))
    (hm : found_master s loop callback function free_cb free_result ≠ 0) :
    uv_callback_init_ex fuel s loop callback function UV_DEFAULT free_cb free_result 0 0
      = (chain_last fuel (linked_mem s loop callback function free_cb free_result)
          (found_master s loop callback function free_cb free_result)).map
          fun base =>
            (0, with_mem s
              (link_after (linked_mem s loop callback function free_cb free_result)
                base callback)) := by
  unfold uv_callback_init_ex
  rw [if_neg hnull]
  dsimp only
  rw [if_pos rfl]
  unfold init_ex_default
  exact if_pos hm

theorem init_ex_default_null (fuel : Nat) (s : State) (loop callback : Ptr)
    (c1 : uv_callback_t) (master : Ptr) (hm : master = 0) :
    init_ex_default fuel s loop callback c1 master 0 0
      = some (0, { s with
          mem := upd s.mem callback
            { c1 with master := 0, async_type := UV_ASYNC, async_loop := loop },
          loops := fun l => if l = loop then s.loops l ++ [callback] else s.loops l }) := by
  subst hm
  unfold init_ex_default uv_async_init
  dsimp only
  rw [if_neg (by simp), if_neg (by simp), if_neg (by simp), upd_same]
  congr 3
  funext q
  simp only [upd_apply]
  split_ifs <;> rfl

/-- The `UV_DEFAULT` path of `uv_callback_init_ex` with valid arguments and
succeeding libuv initialisers when no master is found: the new handle becomes
an async handle of the loop. -/
theorem init_ex_default_master (fuel : Nat) (s : State) (loop callback function : Ptr)
    (free_cb free_result : Ptr) (hnull : ¬ (loop = 0 ∨ callback = 0 ∨ function = 0))
    (hm : found_master s loop callback function free_cb free_result = 0) :
    uv_callback_init_ex fuel s loop callback function UV_DEFAULT free_cb free_result 0 0
      = some (0, master_state s loop callback function free_cb free_result) := by
  unfold uv_callback_init_ex
  rw [if_neg hnull]
  dsimp only
  rw [if_pos rfl]
  exact init_ex_default_null fuel s loop callback _ _ hm

theorem link_after_fields (mem : Ptr → uv_callback_t) (base callback p : Ptr) :
    (link_after mem base callback p).async_type = (mem p).async_type
    ∧ (link_after mem base callback p).usequeue = (mem p).usequeue
    ∧ (link_after mem base callback p).master = (mem p).master
    ∧ (link_after mem base callback p).inactive = (mem p).inactive
    ∧ (link_after mem base callback p).queue = (mem p).queue := by
  unfold link_after
  simp only [upd_apply]
  split_ifs with h
  · subst h; exact ⟨rfl, rfl, rfl, rfl, rfl⟩
  · exact ⟨rfl, rfl, rfl, rfl, rfl⟩

theorem is_queue_master_link_after (mem : Ptr → uv_callback_t) (base callback p : Ptr) :
    is_queue_master (link_after mem base callback) p ↔ is_queue_master mem p := by
  unfold is_queue_master
  rw [(link_after_fields mem base callback p).1, (link_after_fields mem base callback p).2.1]

theorem not_master_queued_record (callback function free_cb free_result master : Ptr)
    (mem : Ptr → uv_callback_t) :
    ¬ is_queue_master
      (upd mem callback (queued_record callback function free_cb free_result master))
      callback := by
  unfold is_queue_master
  rw [upd_same]
  simp [queued_record, zero_callback, UV_ASYNC]

/-- Registering a Queued handle on a loop without queue master makes it the master of a new group. -/
theorem Group.of_master (fuel : Nat) (s : State) (loop callback function : Ptr)
    (free_cb free_result : Ptr) (hloop : loop ≠ 0) (hcb : callback ≠ 0) (hfn : function ≠ 0)
    (hno : ∀ x ∈ s.loops loop, ¬ is_queue_master s.mem x) :
    uv_callback_init_ex fuel s loop callback function UV_DEFAULT free_cb free_result 0 0
        = some (0, master_state s loop callback function free_cb free_result)
      ∧ Group (master_state s loop callback function free_cb free_result) loop callback [] := by
  have hnull : ¬ (loop = 0 ∨ callback = 0 ∨ function = 0) := by
    rintro (h | h | h)
    · exact hloop h
    · exact hcb h
    · exact hfn h
  have hfm : found_master s loop callback function free_cb free_result = 0 := by
    unfold found_master get_master_callback
    refine foldl_master_none _ _ 0 (fun x hx => ?_)
    by_cases e : x = callback
    · subst e
      exact not_master_queued_record x function free_cb free_result 0 s.mem
    · unfold is_queue_master probe_mem
      dsimp only
      rw [upd_other _ _ _ _ e]
      exact hno x hx
  refine ⟨init_ex_default_master fuel s loop callback function free_cb free_result hnull hfm, ?_⟩
  constructor
  · exact hcb
  · simp [is_queue_master, master_state, queued_record]
  · simp [master_state]
  · intro x hx hne
    simp only [master_state, if_true, List.mem_append, List.mem_singleton] at hx
    rcases hx with hx | hx
    · unfold is_queue_master master_state
      dsimp only
      rw [upd_other _ _ _ _ hne]
      exact hno x hx
    · exact absurd hx hne
  · simp [master_state, queued_record]
  · simp [master_state, queued_record, zero_callback]
  · intro h hh; simp at hh
  · simp [chain_ok, master_state, queued_record, zero_callback]

/-- Registering a further Queued handle on the loop of a group links it as the
last sibling of the group. -/
theorem Group.add_sibling (fuel : Nat) (t : State) (loop h1 : Ptr) (tl : List Ptr)
    (g : Group t loop h1 tl) (callback function free_cb free_result : Ptr)
    (hloop : loop ≠ 0) (hcb : callback ≠ 0) (hfn : function ≠ 0)
    (hnd : (h1 :: tl).Nodup) (hnew : callback ∉ h1 :: tl) (hfuel : tl.length ≤ fuel) :
    ∃ s', uv_callback_init_ex fuel t loop callback function UV_DEFAULT free_cb free_result 0 0
        = some (0, s') ∧ Group s' loop h1 (tl ++ [callback]) := by
  have hnull : ¬ (loop = 0 ∨ callback = 0 ∨ function = 0) := by
    rintro (h | h | h)
    · exact hloop h
    · exact hcb h
    · exact hfn h
  have hne1 : h1 ≠ callback := fun e => hnew (by simp [e])
  have hfm : found_master t loop callback function free_cb free_result = h1 := by
    unfold found_master get_master_callback
    refine foldl_master_unique _ h1 _ 0 ?_ g.master_mem (fun x hx hxne => ?_)
    · unfold is_queue_master probe_mem
      dsimp only
      rw [upd_other _ _ _ _ hne1]
      exact g.master_is
    · by_cases e : x = callback
      · subst e
        exact not_master_queued_record x function free_cb free_result 0 t.mem
      · unfold is_queue_master probe_mem
        dsimp only
        rw [upd_other _ _ _ _ e]
        exact g.others x hx hxne
  have hlinked : ∀ x, x ≠ callback →
      linked_mem t loop callback function free_cb free_result x = t.mem x := by
    intro x hx
    unfold linked_mem
    exact upd_other _ _ _ _ hx
  have hlinked_cb : linked_mem t loop callback function free_cb free_result callback
      = queued_record callback function free_cb free_result h1 := by
    unfold linked_mem
    rw [upd_same, hfm]
  have hchain : chain_ok (linked_mem t loop callback function free_cb free_result) h1 tl := by
    refine chain_ok_congr t.mem _ tl h1 g.chain (fun x hx => ?_)
    rw [hlinked x (fun e => hnew (e ▸ hx))]
  have hlast := chain_last_of_chain_ok _ tl h1 fuel hchain hfuel
  have hrun := init_ex_default_sibling fuel t loop callback function free_cb free_result hnull
    (by rw [hfm]; exact g.master_ne)
  rw [hfm, hlast] at hrun
  refine ⟨_, hrun, ?_⟩
  have hf := fun p => link_after_fields
    (linked_mem t loop callback function free_cb free_result)
    ((h1 :: tl).getLast (List.cons_ne_nil h1 tl)) callback p
  constructor
  · exact g.master_ne
  · unfold with_mem
    dsimp only
    rw [is_queue_master_link_after]
    unfold is_queue_master
    rw [hlinked h1 hne1]
    exact g.master_is
  · exact g.master_mem
  · intro x hx hxne
    unfold with_mem
    dsimp only
    rw [is_queue_master_link_after]
    by_cases e : x = callback
    · subst e
      unfold linked_mem
      exact not_master_queued_record x function free_cb free_result _ t.mem
    · unfold is_queue_master
      rw [hlinked x e]
      exact g.others x hx hxne
  · unfold with_mem
    dsimp only
    rw [(hf h1).2.2.1, hlinked h1 hne1]
    exact g.master_link
  · unfold with_mem
    dsimp only
    rw [(hf h1).2.2.2.1, hlinked h1 hne1]
    exact g.master_active
  · intro h hh
    unfold with_mem
    dsimp only
    rw [(hf h).2.2.1, (hf h).2.1, (hf h).2.2.2.1]
    rcases List.mem_append.1 hh with hh | hh
    · have hhc : h ≠ callback := fun e => hnew (List.mem_cons_of_mem _ (e ▸ hh))
      rw [hlinked h hhc]
      exact g.siblings h hh
    · simp only [List.mem_singleton] at hh
      subst hh
      rw [hlinked_cb]
      simp [queued_record, zero_callback]
  · have hnext : (linked_mem t loop callback function free_cb free_result callback).next = 0 := by
      rw [hlinked_cb]; rfl
    exact chain_ok_append _ callback hcb hnext tl h1 hchain hnd hnew

theorem Group.register_rest (fuel : Nat) (loop h1 : Ptr) (hloop : loop ≠ 0) :
    ∀ (rest : List InitArgs) (t : State) (tl : List Ptr), Group t loop h1 tl →
      (h1 :: (tl ++ rest.map InitArgs.callback)).Nodup →
      (∀ a ∈ rest, a.callback ≠ 0 ∧ a.function ≠ 0) →
      tl.length + rest.length ≤ fuel + 1 →
      ∃ s', register_all fuel loop t rest = some (List.replicate rest.length 0, s')
        ∧ Group s' loop h1 (tl ++ rest.map InitArgs.callback) := by
  intro rest
  induction rest with
  | nil =>
    intro t tl g _ _ _
    exact ⟨t, rfl, by simpa using g⟩
  | cons a rest ih =>
    intro t tl g hnd hargs hfuel
    have hnd' : (h1 :: tl).Nodup ∧ a.callback ∉ h1 :: tl := by
      have h2 : (h1 :: (tl ++ [a.callback] ++ rest.map InitArgs.callback)).Nodup := by
        simpa using hnd
      have h3 : ((h1 :: (tl ++ [a.callback])) ++ rest.map InitArgs.callback).Nodup := by
        simpa using h2
      have h4 := (List.nodup_append.1 h3).1
      have h5 : ((h1 :: tl) ++ [a.callback]).Nodup := by simpa using h4
      have h6 := List.nodup_append.1 h5
      refine ⟨h6.1, fun hmem => ?_⟩
      exact h6.2.2 hmem (List.mem_singleton_self _)
    have ha := hargs a (List.mem_cons_self _ _)
    obtain ⟨s1, hrun, g1⟩ := Group.add_sibling fuel t loop h1 tl g a.callback a.function
      a.free_cb a.free_result hloop ha.1 ha.2 hnd'.1 hnd'.2
      (by simp only [List.length_cons] at hfuel; omega)
    obtain ⟨s', hrest, g'⟩ := ih s1 (tl ++ [a.callback]) g1 (by simpa using hnd)
      (fun b hb => hargs b (List.mem_cons_of_mem _ hb))
      (by simp only [List.length_cons, List.length_append, List.length_nil] at hfuel ⊢
          omega)
    refine ⟨s', ?_, by simpa using g'⟩
    simp only [register_all, hrun, Option.some_bind, hrest, Option.map_some',
      List.length_cons, List.replicate_succ]

theorem fire_ex_ok (s : State) (callback data : Ptr) (size : Int) (free_data notify : Ptr)
    (h0 : callback ≠ 0) (hi : (s.mem callback).inactive = 0)
    (hq : (s.mem callback).usequeue ≠ 0) :
    (uv_callback_fire_ex s callback data size free_data notify true).1 = 0 := by
  unfold uv_callback_fire_ex
  rw [if_neg h0, if_neg (by simpa using hi), if_neg (fun h => hq h.2), if_pos hq,
    if_neg (by simp)]

/-- C8: on a loop without queue master, registering the Queued handles
`a1, rest` (distinct, valid arguments, libuv initialisers succeeding) in this
order returns 0 every time; afterwards the first handle has a null master
link, every later handle has the first as master, the `next` chain of the
first handle runs through the later handles in registration order and ends in
`NULL`; and a fire on any of them succeeds and puts a record that names the
fired handle as target at the head of the queue of the first handle. -/
theorem register_group (fuel : Nat) (s : State) (loop : Ptr) (a1 : InitArgs)
    (rest : List InitArgs)
    (hloop : loop ≠ 0)
    (hno : ∀ x ∈ s.loops loop, ¬ is_queue_master s.mem x)
    (hargs : ∀ a ∈ a1 :: rest, a.callback ≠ 0 ∧ a.function ≠ 0)
    (hnd : ((a1 :: rest).map InitArgs.callback).Nodup)
    (hfuel : rest.length ≤ fuel + 1) :
    ∃ s', register_all fuel loop s (a1 :: rest) = some (List.replicate (rest.length + 1) 0, s')
      ∧ (s'.mem a1.callback).master = 0
      ∧ (∀ a ∈ rest, (s'.mem a.callback).master = a1.callback)
      ∧ chain_ok s'.mem a1.callback (rest.map InitArgs.callback)
      ∧ (∀ a ∈ a1 :: rest, ∀ (data : Ptr) (size : Int) (free_data notify : Ptr),
          (uv_callback_fire_ex s' a.callback data size free_data notify true).1 = 0
          ∧ ((uv_callback_fire_ex s' a.callback data size free_data notify true).2.mem
                a1.callback).queue
              = { callback := a.callback, data := data, size := size, free_data := free_data,
                  notify := notify } :: (s'.mem a1.callback).queue) := by
  have ha1 := hargs a1 (List.mem_cons_self _ _)
  obtain ⟨hrun1, g1⟩ := Group.of_master fuel s loop a1.callback a1.function a1.free_cb
    a1.free_result hloop ha1.1 ha1.2 hno
  obtain ⟨s', hrest, g⟩ := Group.register_rest fuel loop a1.callback hloop rest _ [] g1
    (by simpa using hnd) (fun b hb => hargs b (List.mem_cons_of_mem _ hb))
    (by simpa using hfuel)
  simp only [List.nil_append] at g
  refine ⟨s', ?_, g.master_link, ?_, g.chain, ?_⟩
  · simp only [register_all, hrun1, Option.some_bind, hrest, Option.map_some',
      List.replicate_succ]
  · intro a ha
    exact (g.siblings a.callback (List.mem_map_of_mem _ ha)).1
  · intro a ha data size free_data notify
    have hfacts : (s'.mem a.callback).inactive = 0 ∧ (s'.mem a.callback).usequeue ≠ 0
        ∧ in_group s' a1.callback a.callback := by
      rcases List.mem_cons.1 ha with e | e
      · subst e
        exact ⟨g.master_active, g.master_is.2, g.master_ne, g.master_ne, g.master_is.2,
          Or.inl ⟨rfl, g.master_link⟩⟩
      · have hs := g.siblings a.callback (List.mem_map_of_mem _ e)
        exact ⟨hs.2.2, hs.2.1, g.master_ne, (hargs a ha).1, hs.2.1, Or.inr hs.1⟩
    have hrc := fire_ex_ok s' a.callback data size free_data notify (hargs a ha).1
      hfacts.1 hfacts.2.1
    exact ⟨hrc, fire_ex_group_queue s' a.callback data size free_data notify true
      a1.callback hfacts.2.2 hrc⟩

/-- C8 on the initial state: handles 1, 2 and 4 registered on loop 100 form
one group with master 1 and sibling chain 2, 4. -/
theorem register_group_witness :
    ∃ s', register_all 1 100 State.init
          ({ callback := 1, function := 7, free_cb := 0, free_result := 0 } :: demo_inits)
        = some ([0, 0, 0], s')
      ∧ (s'.mem 1).master = 0 ∧ (s'.mem 2).master = 1 ∧ (s'.mem 4).master = 1
      ∧ (s'.mem 1).next = 2 ∧ (s'.mem 2).next = 4 ∧ (s'.mem 4).next = 0
      ∧ ((uv_callback_fire_ex s' 4 30 0 0 0 true).2.mem 1).queue
          = { callback := 4, data := 30, size := 0, free_data := 0, notify := 0 }
              :: (s'.mem 1).queue := by
  obtain ⟨s', h1, h2, h3, h4, h5⟩ := register_group 1 State.init 100
    { callback := 1, function := 7, free_cb := 0, free_result := 0 } demo_inits
    (by decide) (by intro x hx; simp [State.init] at hx) (by decide) (by decide) (by decide)
  refine ⟨s', h1, h2,
    h3 { callback := 2, function := 8, free_cb := 0, free_result := 0 } (by decide),
    h3 { callback := 4, function := 9, free_cb := 6, free_result := 0 } (by decide),
    ?_, ?_, ?_, ?_⟩
  · exact h4.1
  · exact h4.2.2.1
  · exact h4.2.2.2.2
  · exact (h5 { callback := 4, function := 9, free_cb := 6, free_result := 0 }
      (by decide) 30 0 0 0).2

/-! ## Stop-all on a group, and idempotence of stop -/

/-- C9 (the code departs from the claim): on `demo_fired` the master queue
holds three records that target the sibling 2, one of them with data 20 and
destructor 5, and one record of the master with data 10 and destructor 6.
`uv_callback_stop_all` returns, leaves the three handles of the loop inactive
and the master queue empty, but the only destructor invocation is the one of
the record of the master: stopping the master first empties the whole queue,
so the destructor of the record of the sibling is never invoked. -/
theorem stop_all_skips_sibling_destructors :
    { callback := 2, data := 20, size := 4, free_data := 5, notify := 0 }
        ∈ (demo_fired.mem 1).queue
    ∧ (uv_callback_stop_all 3 demo_fired 100).map
        (fun s => [(s.mem 1).inactive, (s.mem 2).inactive, (s.mem 3).inactive])
      = some [1, 1, 1]
    ∧ (uv_callback_stop_all 3 demo_fired 100).map (fun s => (s.mem 1).queue) = some []
    ∧ (uv_callback_stop_all 3 demo_fired 100).map (fun s => destructor_calls s.trace)
      = some [(6, 10)] := by
  refine ⟨by decide, by decide, by decide, by decide⟩

theorem State.eq_of_fields (a b : State) (h1 : a.mem = b.mem) (h2 : a.loops = b.loops)
    (h3 : a.trace = b.trace) : a = b := by
  cases a; cases b
  simp only [State.mk.injEq]
  exact ⟨h1, h2, h3⟩

theorem stop_trace (s : State) (h : Ptr) :
    (uv_callback_stop s h).trace
      = if h ≠ 0 ∧ (s.mem h).usequeue ≠ 0
        then s.trace ++ (purge_walk h (s.mem (queue_owner s h)).queue).2 else s.trace := by
  by_cases h0 : h = 0
  · subst h0; rw [stop_null]; simp
  by_cases hq : (s.mem h).usequeue ≠ 0
  · rw [if_pos ⟨h0, hq⟩]; exact stop_trace_queued s h h0 hq
  · rw [if_neg (fun e => hq e.2)]
    unfold uv_callback_stop
    rw [if_neg h0]
    dsimp only
    rw [upd_same]
    dsimp only
    rw [if_neg hq]

theorem purge_walk_none (h : Ptr) (q : List uv_call_t) (hq : ∀ c ∈ q, c.callback ≠ h) :
    purge_walk h q = (q, []) := by
  induction q with
  | nil => rfl
  | cons c q ih =>
    have hc := hq c (List.mem_cons_self _ _)
    have ih' := ih (fun d hd => hq d (List.mem_cons_of_mem _ hd))
    simp only [purge_walk, if_neg hc, ih']

theorem queue_owner_stop (s : State) (b a : Ptr) :
    queue_owner (uv_callback_stop s b) a = queue_owner s a := by
  by_cases hb : b = 0
  · subst hb; rw [stop_null]
  unfold queue_owner
  rw [stop_mem s b a hb]

/-- A handle that is already stopped is left alone by `uv_callback_stop`: state and trace stay. -/
theorem stop_of_stopped (s : State) (a : Ptr) (hs : stopped s a) : uv_callback_stop s a = s := by
  by_cases h0 : a = 0
  · subst h0; exact stop_null s
  refine State.eq_of_fields _ _ ?_ (stop_loops s a) ?_
  · funext p
    rw [stop_mem s a p h0]
    have hq : stop_queue s a p = (s.mem p).queue := by
      unfold stop_queue
      by_cases hu : (s.mem a).usequeue ≠ 0
      · rw [if_pos hu]
        by_cases hp : p = a
        · rw [if_pos hp, hp, (hs.2 hu).1]
        · rw [if_neg hp]
          by_cases hpo : p = queue_owner s a
          · rw [if_pos hpo]
            refine List.filter_eq_self.2 (fun c hc => ?_)
            rw [hpo] at hc
            simpa using (hs.2 hu).2 c hc
          · rw [if_neg hpo]
      · rw [if_neg hu]
    have hi : (if p = a then (1 : Int) else (s.mem p).inactive) = (s.mem p).inactive := by
      by_cases hp : p = a
      · rw [if_pos hp, hp, hs.1]
      · rw [if_neg hp]
    rw [hq, hi]
  · rw [stop_trace]
    by_cases hu : (s.mem a).usequeue ≠ 0
    · rw [if_pos ⟨h0, hu⟩, purge_walk_none a _ (hs.2 hu).2]
      simp
    · rw [if_neg (fun e => hu e.2)]

theorem stopped_stop_self (s : State) (a : Ptr) (h0 : a ≠ 0) :
    stopped (uv_callback_stop s a) a := by
  unfold stopped
  rw [queue_owner_stop, stop_mem s a a h0, stop_mem s a _ h0]
  dsimp only
  refine ⟨by simp, fun hu => ?_⟩
  unfold stop_queue
  rw [if_pos hu, if_pos rfl, if_pos hu]
  refine ⟨rfl, fun c hc => ?_⟩
  by_cases ho : queue_owner s a = a
  · rw [if_pos ho] at hc; simp at hc
  · rw [if_neg ho, if_pos rfl] at hc
    simpa using (List.mem_filter.1 hc).2

theorem stopped_stop_other (s : State) (a b : Ptr) (hs : stopped s a) :
    stopped (uv_callback_stop s b) a := by
  by_cases hb : b = 0
  · subst hb; rw [stop_null]; exact hs
  unfold stopped
  rw [queue_owner_stop, stop_mem s b a hb, stop_mem s b _ hb]
  dsimp only
  refine ⟨?_, fun hu => ⟨?_, fun c hc => ?_⟩⟩
  · by_cases e : a = b
    · rw [if_pos e]
    · rw [if_neg e]; exact hs.1
  · have h1 := stop_queue_subset s b a
    rw [(hs.2 hu).1] at h1
    exact List.eq_nil_iff_forall_not_mem.2 (fun c hc => by simpa using h1 c hc)
  · exact (hs.2 hu).2 c (stop_queue_subset s b _ c hc)

theorem same_walk_stop (s : State) (b : Ptr) : same_walk s (uv_callback_stop s b) := by
  intro p
  by_cases hb : b = 0
  · subst hb; rw [stop_null]; exact ⟨rfl, rfl, rfl⟩
  · rw [stop_mem s b p hb]; exact ⟨rfl, rfl, rfl⟩

theorem same_walk_trans {a b c : State} (h1 : same_walk a b) (h2 : same_walk b c) :
    same_walk a c := by
  intro p
  obtain ⟨x1, x2, x3⟩ := h1 p
  obtain ⟨y1, y2, y3⟩ := h2 p
  exact ⟨y1.trans x1, y2.trans x2, y3.trans x3⟩

theorem same_walk_symm {a b : State} (h : same_walk a b) : same_walk b a := by
  intro p
  obtain ⟨x1, x2, x3⟩ := h p
  exact ⟨x1.symm, x2.symm, x3.symm⟩

/-- What a run of the chain loop of `stop_all_on_walk` preserves and establishes. -/
theorem stop_chain_facts (fuel : Nat) :
    ∀ (t t' : State) (x : Ptr), stop_chain fuel t x = some t' →
      same_walk t t' ∧ t'.loops = t.loops ∧ (∀ a, stopped t a → stopped t' a) := by
  induction fuel with
  | zero =>
    intro t t' x h
    simp only [stop_chain] at h
    split_ifs at h
    simp only [Option.some.injEq] at h
    subst h
    exact ⟨fun _ => ⟨rfl, rfl, rfl⟩, rfl, fun _ ha => ha⟩
  | succ fuel ih =>
    intro t t' x h
    simp only [stop_chain] at h
    split_ifs at h
    · simp only [Option.some.injEq] at h
      subst h
      exact ⟨fun _ => ⟨rfl, rfl, rfl⟩, rfl, fun _ ha => ha⟩
    · obtain ⟨i1, i2, i3⟩ := ih _ t' _ h
      exact ⟨same_walk_trans (same_walk_stop t x) i1, i2.trans (stop_loops t x),
        fun a ha => i3 a (stopped_stop_other t a x ha)⟩

/-- Running the chain loop again, in a state that agrees on the links and in
which everything the first run stopped is stopped, changes nothing. -/
theorem stop_chain_again (fuel : Nat) :
    ∀ (t t' : State) (x : Ptr), stop_chain fuel t x = some t' →
      ∀ u, same_walk t u → (∀ a, stopped t' a → stopped u a) →
        stop_chain fuel u x = some u := by
  induction fuel with
  | zero =>
    intro t t' x h u _ _
    simp only [stop_chain] at h ⊢
    split_ifs at h ⊢
    rfl
  | succ fuel ih =>
    intro t t' x h u hw hs
    simp only [stop_chain] at h ⊢
    split_ifs at h ⊢ with hx
    · rfl
    · have hsx : stopped u x :=
        hs x ((stop_chain_facts fuel _ t' _ h).2.2 x (stopped_stop_self t x hx))
      rw [stop_of_stopped u x hsx, (hw x).1]
      exact ih _ t' _ h u (same_walk_trans (same_walk_symm (same_walk_stop t x)) hw) hs

theorem uv_is_callback_congr (t u : State) (hw : same_walk t u) (x : Ptr) :
    uv_is_callback u x = uv_is_callback t x := by
  unfold uv_is_callback
  rw [(hw x).2.1, (hw x).2.2]

theorem stop_all_walk_facts (fuel : Nat) (l : List Ptr) :
    ∀ (t t' : State), stop_all_walk fuel t l = some t' →
      same_walk t t' ∧ t'.loops = t.loops ∧ (∀ a, stopped t a → stopped t' a) := by
  induction l with
  | nil =>
    intro t t' h
    simp only [stop_all_walk, Option.some.injEq] at h
    subst h
    exact ⟨fun _ => ⟨rfl, rfl, rfl⟩, rfl, fun _ ha => ha⟩
  | cons x l ih =>
    intro t t' h
    simp only [stop_all_walk, Option.bind_eq_some] at h
    obtain ⟨t1, h1, h2⟩ := h
    obtain ⟨i1, i2, i3⟩ := ih t1 t' h2
    have hfirst : same_walk t t1 ∧ t1.loops = t.loops ∧ (∀ a, stopped t a → stopped t1 a) := by
      unfold stop_all_on_walk at h1
      split_ifs at h1
      · exact stop_chain_facts fuel t t1 x h1
      · simp only [Option.some.injEq] at h1
        subst h1
        exact ⟨fun _ => ⟨rfl, rfl, rfl⟩, rfl, fun _ ha => ha⟩
    exact ⟨same_walk_trans hfirst.1 i1, i2.trans hfirst.2.1, fun a ha => i3 a (hfirst.2.2 a ha)⟩

theorem stop_all_walk_again (fuel : Nat) (l : List Ptr) :
    ∀ (t t' : State), stop_all_walk fuel t l = some t' →
      ∀ u, same_walk t u → (∀ a, stopped t' a → stopped u a) →
        stop_all_walk fuel u l = some u := by
  induction l with
  | nil => intro t t' _ u _ _; rfl
  | cons x l ih =>
    intro t t' h u hw hs
    simp only [stop_all_walk, Option.bind_eq_some] at h ⊢
    obtain ⟨t1, h1, h2⟩ := h
    have hrest := stop_all_walk_facts fuel l t1 t' h2
    refine ⟨u, ?_, ?_⟩
    · unfold stop_all_on_walk at h1 ⊢
      rw [uv_is_callback_congr t u hw x]
      split_ifs at h1 ⊢
      · exact stop_chain_again fuel t t1 x h1 u hw (fun a ha => hs a (hrest.2.2 a ha))
      · rfl
    · refine ih t1 t' h2 u ?_ hs
      have h01 : same_walk t t1 := by
        unfold stop_all_on_walk at h1
        split_ifs at h1
        · exact (stop_chain_facts fuel t t1 x h1).1
        · simp only [Option.some.injEq] at h1
          subst h1
          exact fun _ => ⟨rfl, rfl, rfl⟩
      exact same_walk_trans (same_walk_symm h01) hw

/-- C10: `uv_callback_stop` applied twice to a handle gives the state, trace
included, that one application gives (so the second application invokes no
destructor); and when `uv_callback_stop_all` on a loop returns state `s1`, a
second `uv_callback_stop_all` on that loop returns, with `s1` unchanged. -/
theorem stop_idempotent :
    (∀ (s : State) (h : Ptr),
        uv_callback_stop (uv_callback_stop s h) h = uv_callback_stop s h)
    ∧ (∀ (s : State) (h : Ptr),
        destructor_calls (uv_callback_stop (uv_callback_stop s h) h).trace
          = destructor_calls (uv_callback_stop s h).trace)
    ∧ (∀ (fuel : Nat) (s s1 : State) (loop : Ptr),
        uv_callback_stop_all fuel s loop = some s1 →
        uv_callback_stop_all fuel s1 loop = some s1) := by
  have h1 : ∀ (s : State) (h : Ptr),
      uv_callback_stop (uv_callback_stop s h) h = uv_callback_stop s h := by
    intro s h
    by_cases h0 : h = 0
    · subst h0; rw [stop_null, stop_null]
    · exact stop_of_stopped _ h (stopped_stop_self s h h0)
  refine ⟨h1, fun s h => by rw [h1], ?_⟩
  intro fuel s s1 loop hrun
  unfold uv_callback_stop_all at hrun ⊢
  have hf := stop_all_walk_facts fuel _ s s1 hrun
  rw [hf.2.1]
  exact stop_all_walk_again fuel _ s s1 hrun s1 hf.1 (fun _ ha => ha)

/-- C10 on `demo_fired`: the state `uv_callback_stop_all` returns for loop 100
is returned unchanged by a second `uv_callback_stop_all`. -/
theorem stop_idempotent_witness :
    uv_callback_stop_all 3 ((uv_callback_stop_all 3 demo_fired 100).getD demo_fired) 100
      = some ((uv_callback_stop_all 3 demo_fired 100).getD demo_fired)
    ∧ ((uv_callback_stop_all 3 demo_fired 100).getD demo_fired).mem 1
        ≠ demo_fired.mem 1 :=
  ⟨stop_idempotent.2.2 3 demo_fired _ 100 rfl, by decide⟩

/-- C11: on an active Coalesced handle a fire with a non-null notify returns
`UV_EINVAL` and returns the state it was given (data slot, queues, reference
counts and trace unchanged); a fire on a null handle returns `UV_EINVAL` with
the state unchanged; and on a non-null active handle the return code is
`UV_EINVAL` only in the first case (the wake primitive `uv_async_send` is
modelled as returning 0). -/
theorem fire_ex_einval (s : State) (h data : Ptr) (size : Int) (free_data notify : Ptr)
    (malloc_ok : Bool) :
    (h ≠ 0 → (s.mem h).inactive = 0 → (s.mem h).usequeue = 0 → notify ≠ 0 →
        uv_callback_fire_ex s h data size free_data notify malloc_ok = (UV_EINVAL, s))
    ∧ uv_callback_fire_ex s 0 data size free_data notify malloc_ok = (UV_EINVAL, s)
    ∧ (h ≠ 0 → (s.mem h).inactive = 0 →
        ((uv_callback_fire_ex s h data size free_data notify malloc_ok).1 = UV_EINVAL
          ↔ notify ≠ 0 ∧ (s.mem h).usequeue = 0)) := by
  refine ⟨?_, ?_, ?_⟩
  · intro h0 hi hq hn
    unfold uv_callback_fire_ex
    rw [if_neg h0, if_neg (by simpa using hi), if_pos ⟨hn, hq⟩]
  · unfold uv_callback_fire_ex
    rw [if_pos rfl]
  · intro h0 hi
    unfold uv_callback_fire_ex
    rw [if_neg h0, if_neg (by simpa using hi)]
    by_cases hc : notify ≠ 0 ∧ (s.mem h).usequeue = 0
    · rw [if_pos hc]; exact ⟨fun _ => hc, fun _ => rfl⟩
    · rw [if_neg hc]
      refine ⟨fun e => ?_, fun e => absurd e hc⟩
      exfalso
      split_ifs at e <;> simp [UV_EINVAL, UV_ENOMEM] at e

/-- C11 on the Coalesced handle 3 of `demo_state`: a fire that names the master
1 as notify returns `UV_EINVAL` and leaves the state as it is, while the same
fire without notify returns 0. -/
theorem fire_ex_einval_witness :
    uv_callback_fire_ex demo_state 3 50 0 0 1 true = (UV_EINVAL, demo_state)
    ∧ (uv_callback_fire_ex demo_state 3 50 0 0 0 true).1 = 0
    ∧ ((uv_callback_fire_ex demo_state 2 50 0 0 1 false).1 = UV_EINVAL
        ↔ (1 : Ptr) ≠ 0 ∧ (demo_state.mem 2).usequeue = 0) :=
  ⟨(fire_ex_einval demo_state 3 50 0 0 1 true).1 (by decide) (by decide) (by decide) (by decide),
   by decide,
   (fire_ex_einval demo_state 2 50 0 0 1 false).2.2 (by decide) (by decide)⟩

/-! ## Return code of `uv_callback_init_ex` -/

theorem foldl_master_cases (s : State) (l : List Ptr) (arg : Ptr) :
    l.foldl (fun arg handle => master_on_walk s handle arg) arg = arg
      ∨ (l.foldl (fun arg handle => master_on_walk s handle arg) arg ∈ l
          ∧ is_queue_master s.mem
              (l.foldl (fun arg handle => master_on_walk s handle arg) arg)) := by
  induction l generalizing arg with
  | nil => exact Or.inl rfl
  | cons x l ih =>
    simp only [List.foldl_cons]
    rcases ih (master_on_walk s x arg) with h | h
    · rw [h]
      unfold master_on_walk
      by_cases hx : (s.mem x).async_type = UV_ASYNC ∧ (s.mem x).usequeue ≠ 0
      · rw [if_pos hx]
        exact Or.inr ⟨List.mem_cons_self _ _, hx⟩
      · rw [if_neg hx]
        exact Or.inl rfl
    · exact Or.inr ⟨List.mem_cons_of_mem _ h.1, h.2⟩

/-- The master `uv_callback_init_ex` finds is null or a queue master of the
loop in the heap before the call, different from the handle being initialised. -/
theorem found_master_cases (s : State) (loop callback function free_cb free_result : Ptr) :
    found_master s loop callback function free_cb free_result = 0
      ∨ (found_master s loop callback function free_cb free_result ∈ s.loops loop
          ∧ found_master s loop callback function free_cb free_result ≠ callback
          ∧ is_queue_master s.mem
              (found_master s loop callback function free_cb free_result)) := by
  have h := foldl_master_cases
    { s with mem := probe_mem s callback function free_cb free_result } (s.loops loop) 0
  have hfm : found_master s loop callback function free_cb free_result
      = (s.loops loop).foldl (fun arg handle => master_on_walk
          { s with mem := probe_mem s callback function free_cb free_result } handle arg) 0 :=
    rfl
  rw [← hfm] at h
  rcases h with h | ⟨h1, h2⟩
  · exact Or.inl h
  · right
    have hne : found_master s loop callback function free_cb free_result ≠ callback := by
      intro e
      rw [e] at h2
      exact not_master_queued_record callback function free_cb free_result 0 s.mem h2
    refine ⟨h1, hne, ?_⟩
    unfold is_queue_master probe_mem at h2
    dsimp only at h2
    rw [upd_other _ _ _ _ hne] at h2
    exact h2

/-- The walk to the end of a finite chain still ends when some `next` links
of the chain have been reset to null. -/
theorem chain_last_isSome (mem mem' : Ptr → uv_callback_t) (l : List Ptr) :
    ∀ (a : Ptr) (fuel : Nat), chain_ok mem a l → l.length ≤ fuel →
      (∀ x, (mem' x).next = (mem x).next ∨ (mem' x).next = 0) →
      (chain_last fuel mem' a).isSome := by
  induction l with
  | nil =>
    intro a fuel h _ hn
    simp only [chain_ok] at h
    have h0 : (mem' a).next = 0 := by
      rcases hn a with e | e
      · rw [e, h]
      · exact e
    cases fuel <;> simp [chain_last, h0]
  | cons b l ih =>
    intro a fuel h hf hn
    simp only [chain_ok] at h
    cases fuel with
    | zero => simp at hf
    | succ fuel =>
      rw [chain_last]
      by_cases h0 : (mem' a).next = 0
      · rw [if_pos h0]; rfl
      · rw [if_neg h0]
        have e : (mem' a).next = b := by
          rcases hn a with e | e
          · rw [e, h.1]
          · exact absurd e h0
        rw [e]
        exact ih b fuel h.2.2 (by simpa using hf) hn

/-- Past the null checks `uv_callback_init_ex` resets the storage of `callback`. -/
theorem init_ex_reset (fuel : Nat) (s : State) (loop callback function : Ptr)
    (callback_type : Int) (free_cb free_result : Ptr) (idle_rc async_rc rc : Int) (s' : State)
    (hnull : ¬ (loop = 0 ∨ callback = 0 ∨ function = 0))
    (hrun : uv_callback_init_ex fuel s loop callback function callback_type free_cb
      free_result idle_rc async_rc = some (rc, s')) :
    ResetAt callback s.mem s'.mem := by
  unfold uv_callback_init_ex at hrun
  rw [if_neg hnull] at hrun
  dsimp only at hrun
  by_cases hty : callback_type = UV_DEFAULT
  · rw [if_pos hty] at hrun
    unfold init_ex_default at hrun
    dsimp only at hrun
    split_ifs at hrun with hm hi
    · simp only [Option.map_eq_some'] at hrun
      obtain ⟨base, -, hb⟩ := hrun
      simp only [Prod.mk.injEq] at hb
      obtain ⟨-, rfl⟩ := hb
      exact (ResetAt.of_upd callback s.mem _ rfl rfl rfl).then_keep base _ ⟨rfl, rfl⟩
    · simp only [Option.some.injEq, Prod.mk.injEq] at hrun
      obtain ⟨-, rfl⟩ := hrun
      exact ResetAt.of_upd callback s.mem _ rfl rfl rfl
    · simp only [Option.some.injEq] at hrun
      unfold uv_async_init at hrun
      split_ifs at hrun with ha
      · simp only [Prod.mk.injEq] at hrun
        obtain ⟨-, rfl⟩ := hrun
        exact ResetAt.of_upd callback s.mem _ rfl rfl rfl
      · simp only [Prod.mk.injEq] at hrun
        obtain ⟨-, rfl⟩ := hrun
        exact (ResetAt.of_upd callback s.mem _ rfl rfl rfl).then_keep callback _ ⟨rfl, rfl⟩
  · rw [if_neg hty] at hrun
    split_ifs at hrun with hc
    · simp only [Option.some.injEq] at hrun
      unfold uv_async_init at hrun
      split_ifs at hrun with ha
      · simp only [Prod.mk.injEq] at hrun
        obtain ⟨-, rfl⟩ := hrun
        exact ResetAt.of_upd callback s.mem _ rfl rfl rfl
      · simp only [Prod.mk.injEq] at hrun
        obtain ⟨-, rfl⟩ := hrun
        exact (ResetAt.of_upd callback s.mem _ rfl rfl rfl).then_keep callback _ ⟨rfl, rfl⟩
    · simp only [Option.some.injEq, Prod.mk.injEq] at hrun
      obtain ⟨-, rfl⟩ := hrun
      exact ResetAt.of_upd callback s.mem _ rfl rfl rfl

/-- With valid arguments and succeeding libuv initialisers, `uv_callback_init_ex`
returns 0 once the walk along the sibling chain of the master found ends. -/
theorem init_ex_returns_zero (fuel : Nat) (s : State) (loop callback function : Ptr)
    (callback_type : Int) (free_cb free_result : Ptr)
    (hwf : ∀ m, m ∈ s.loops loop → is_queue_master s.mem m →
      ∃ l, chain_ok s.mem m l ∧ l.length ≤ fuel)
    (hnull : ¬ (loop = 0 ∨ callback = 0 ∨ function = 0))
    (hty : callback_type = UV_DEFAULT ∨ callback_type = UV_COALESCE) :
    ∃ s', uv_callback_init_ex fuel s loop callback function callback_type free_cb free_result
      0 0 = some (0, s') := by
  rcases hty with hty | hty
  · subst hty
    by_cases hm0 : found_master s loop callback function free_cb free_result = 0
    · exact ⟨_, init_ex_default_master fuel s loop callback function free_cb free_result
        hnull hm0⟩
    · rcases found_master_cases s loop callback function free_cb free_result with
        h0 | ⟨h1, -, h3⟩
      · exact absurd h0 hm0
      · obtain ⟨l, hl, hlen⟩ := hwf _ h1 h3
        have hsome := chain_last_isSome s.mem
          (linked_mem s loop callback function free_cb free_result) l _ fuel hl hlen
          (fun x => by
            unfold linked_mem
            by_cases e : x = callback
            · subst e; rw [upd_same]; exact Or.inr rfl
            · rw [upd_other _ _ _ _ e]; exact Or.inl rfl)
        obtain ⟨base, hbase⟩ := Option.isSome_iff_exists.1 hsome
        refine ⟨with_mem s (link_after
          (linked_mem s loop callback function free_cb free_result) base callback), ?_⟩
        rw [init_ex_default_sibling fuel s loop callback function free_cb free_result hnull
          hm0, hbase]
        rfl
  · subst hty
    unfold uv_callback_init_ex
    rw [if_neg hnull]
    dsimp only
    rw [if_neg (by decide), if_pos rfl]
    unfold uv_async_init
    rw [if_neg (by simp)]
    exact ⟨_, rfl⟩

/-- C12 (amended): let the sibling chain of every queue master of the loop be
finite (at most `fuel` long), as it is while no handle has been registered
twice, and let `uv_idle_init` and `uv_async_init` succeed.
Then `uv_callback_init_ex` returns; its return code is `UV_EINVAL` exactly
when the loop, the handle or the function is null or the callback type is
neither `UV_DEFAULT` nor `UV_COALESCE`; in every other case the code is 0 and
the handle is left not inactive, with reference count 1 and an empty queue. -/
theorem init_ex_return_code (fuel : Nat) (s : State) (loop callback function : Ptr)
    (callback_type : Int) (free_cb free_result : Ptr)
    (hwf : ∀ m, m ∈ s.loops loop → is_queue_master s.mem m →
      ∃ l, chain_ok s.mem m l ∧ l.length ≤ fuel) :
    ∃ rc s', uv_callback_init_ex fuel s loop callback function callback_type free_cb
        free_result 0 0 = some (rc, s')
      ∧ (rc = UV_EINVAL ↔ bad_init_args loop callback function callback_type)
      ∧ (¬ bad_init_args loop callback function callback_type →
          rc = 0 ∧ (s'.mem callback).inactive = 0 ∧ (s'.mem callback).refcount = 1
            ∧ (s'.mem callback).queue = []) := by
  by_cases hnull : loop = 0 ∨ callback = 0 ∨ function = 0
  · have hbad : bad_init_args loop callback function callback_type := by
      rcases hnull with h | h | h
      · exact Or.inl h
      · exact Or.inr (Or.inl h)
      · exact Or.inr (Or.inr (Or.inl h))
    refine ⟨UV_EINVAL, s, ?_, ⟨fun _ => hbad, fun _ => rfl⟩, fun h => absurd hbad h⟩
    unfold uv_callback_init_ex
    rw [if_pos hnull]
  by_cases hty : callback_type = UV_DEFAULT ∨ callback_type = UV_COALESCE
  · have hgood : ¬ bad_init_args loop callback function callback_type := by
      rintro (h | h | h | ⟨h1, h2⟩)
      · exact hnull (Or.inl h)
      · exact hnull (Or.inr (Or.inl h))
      · exact hnull (Or.inr (Or.inr h))
      · rcases hty with e | e
        · exact h1 e
        · exact h2 e
    obtain ⟨s', hrun⟩ := init_ex_returns_zero fuel s loop callback function callback_type
      free_cb free_result hwf hnull hty
    refine ⟨0, s', hrun, ⟨fun e => by simp [UV_EINVAL] at e, fun h => absurd h hgood⟩, ?_⟩
    intro _
    have hr := init_ex_refcount fuel s loop callback function callback_type free_cb free_result
      0 0 s' hrun
    have hf := init_ex_reset fuel s loop callback function callback_type free_cb free_result
      0 0 0 s' hnull hrun
    exact ⟨rfl, hf.2.2.2, hr.2.1, hf.2.1⟩
  · have hbad : bad_init_args loop callback function callback_type :=
      Or.inr (Or.inr (Or.inr ⟨fun e => hty (Or.inl e), fun e => hty (Or.inr e)⟩))
    have hrun : ∃ s', uv_callback_init_ex fuel s loop callback function callback_type free_cb
        free_result 0 0 = some (UV_EINVAL, s') := by
      unfold uv_callback_init_ex
      rw [if_neg hnull]
      dsimp only
      rw [if_neg (fun e => hty (Or.inl e)), if_neg (fun e => hty (Or.inr e))]
      exact ⟨_, rfl⟩
    obtain ⟨s', hs'⟩ := hrun
    exact ⟨UV_EINVAL, s', hs', ⟨fun _ => hbad, fun _ => rfl⟩, fun h => absurd hbad h⟩

/-- C12 on `demo_state`: a null function is rejected (the call made by `main`),
callback type 2 is rejected, and registering handle 4 as a further Queued
handle returns 0 with count 1, not inactive, empty queue. -/
theorem init_ex_return_code_witness :
    (uv_callback_init_ex 2 demo_state 100 4 0 UV_DEFAULT 0 0 0 0).map Prod.fst = some UV_EINVAL
    ∧ (uv_callback_init_ex 2 demo_state 100 4 9 2 0 0 0 0).map Prod.fst = some UV_EINVAL
    ∧ (∃ rc s', uv_callback_init_ex 2 demo_state 100 4 9 UV_DEFAULT 0 0 0 0 = some (rc, s')
        ∧ (rc = UV_EINVAL ↔ bad_init_args 100 4 9 UV_DEFAULT)
        ∧ (¬ bad_init_args 100 4 9 UV_DEFAULT →
            rc = 0 ∧ (s'.mem 4).inactive = 0 ∧ (s'.mem 4).refcount = 1
              ∧ (s'.mem 4).queue = [])) := by
  refine ⟨by decide, by decide,
    init_ex_return_code 2 demo_state 100 4 9 UV_DEFAULT 0 0 ?_⟩
  intro m hm hq
  have hm' : m = 1 ∨ m = 3 := by simpa [demo_state] using hm
  rcases hm' with rfl | rfl
  · refine ⟨[2], ?_, by decide⟩
    simp only [chain_ok]
    decide
  · unfold is_queue_master at hq
    exact absurd hq (by decide)

/-! ## Reference counts never drop below the references held -/

theorem sum_map_le_of_le (hs : List Ptr) (f g : Ptr → Nat) (h : ∀ x ∈ hs, g x ≤ f x) :
    (hs.map g).sum ≤ (hs.map f).sum := by
  induction hs with
  | nil => simp
  | cons a l ih =>
    simp only [List.map_cons, List.sum_cons]
    have h1 := h a (List.mem_cons_self _ _)
    have h2 := ih (fun x hx => h x (List.mem_cons_of_mem _ hx))
    omega

theorem sum_map_le_add_one (hs : List Ptr) (f g : Ptr → Nat) (t : Ptr) (hnd : hs.Nodup)
    (h : ∀ x ∈ hs, x ≠ t → g x ≤ f x) (ht : g t ≤ f t + 1) :
    (hs.map g).sum ≤ (hs.map f).sum + 1 := by
  induction hs with
  | nil => simp
  | cons a l ih =>
    simp only [List.map_cons, List.sum_cons]
    have hnd' := List.nodup_cons.1 hnd
    by_cases e : a = t
    · subst e
      have h2 := sum_map_le_of_le l f g
        (fun x hx => h x (List.mem_cons_of_mem _ hx) (fun e => hnd'.1 (e ▸ hx)))
      omega
    · have h1 := h a (List.mem_cons_self _ _) e
      have h2 := ih hnd'.2 (fun x hx => h x (List.mem_cons_of_mem _ hx))
      omega

theorem sum_map_succ_le (hs : List Ptr) (f g : Ptr → Nat) (t : Ptr) (hmem : t ∈ hs)
    (h : ∀ x ∈ hs, g x ≤ f x) (ht : g t + 1 ≤ f t) :
    (hs.map g).sum + 1 ≤ (hs.map f).sum := by
  induction hs with
  | nil => simp at hmem
  | cons a l ih =>
    simp only [List.map_cons, List.sum_cons]
    rcases List.mem_cons.1 hmem with e | e
    · subst e
      have h2 := sum_map_le_of_le l f g (fun x hx => h x (List.mem_cons_of_mem _ hx))
      omega
    · have h1 := h a (List.mem_cons_self _ _)
      have h2 := ih e (fun x hx => h x (List.mem_cons_of_mem _ hx))
      omega

/-- What a fire does to queues and counts: nothing, or one record, which names
`notify`, is put at the head of one queue and the count of a non-null notify
goes up by one. -/
theorem fire_ex_effect (s : State) (callback data : Ptr) (size : Int)
    (free_data notify : Ptr) (malloc_ok : Bool) :
    (∀ p, ((uv_callback_fire_ex s callback data size free_data notify malloc_ok).2.mem p).queue
          = (s.mem p).queue
        ∧ ((uv_callback_fire_ex s callback data size free_data notify malloc_ok).2.mem p).refcount
          = (s.mem p).refcount)
    ∨ (∃ t, ∀ p,
        ((uv_callback_fire_ex s callback data size free_data notify malloc_ok).2.mem p).queue
          = (if p = t then
              { callback := callback, data := data, size := size, free_data := free_data,
                notify := notify } :: (s.mem p).queue
             else (s.mem p).queue)
        ∧ ((uv_callback_fire_ex s callback data size free_data notify malloc_ok).2.mem p).refcount
          = (if p = notify ∧ notify ≠ 0 then (s.mem p).refcount + 1 else (s.mem p).refcount)) := by
  unfold uv_callback_fire_ex
  by_cases h1 : callback = 0
  · rw [if_pos h1]; exact Or.inl (fun _ => ⟨rfl, rfl⟩)
  rw [if_neg h1]
  by_cases h2 : (s.mem callback).inactive ≠ 0
  · rw [if_pos h2]; exact Or.inl (fun _ => ⟨rfl, rfl⟩)
  rw [if_neg h2]
  by_cases h3 : notify ≠ 0 ∧ (s.mem callback).usequeue = 0
  · rw [if_pos h3]; exact Or.inl (fun _ => ⟨rfl, rfl⟩)
  rw [if_neg h3]
  by_cases h4 : (s.mem callback).usequeue ≠ 0
  · rw [if_pos h4]
    by_cases h5 : malloc_ok = false
    · rw [if_pos h5]; exact Or.inl (fun _ => ⟨rfl, rfl⟩)
    rw [if_neg h5]
    right
    dsimp only
    refine ⟨if (s.mem callback).master ≠ 0 then (s.mem callback).master else callback,
      fun p => ?_⟩
    generalize (if (s.mem callback).master ≠ 0 then (s.mem callback).master else callback)
      = tgt
    have hq : (upd s.mem tgt { s.mem tgt with queue :=
        { callback := callback, data := data, size := size, free_data := free_data,
          notify := notify } :: (s.mem tgt).queue } p).queue
        = (if p = tgt then
            { callback := callback, data := data, size := size, free_data := free_data,
              notify := notify } :: (s.mem p).queue
           else (s.mem p).queue) := by
      rw [upd_queue_queue]
      by_cases e : p = tgt
      · subst e; rfl
      · rw [if_neg e, if_neg e]
    by_cases h6 : notify ≠ 0
    · rw [if_pos h6, upd_refcount_queue, hq]
      refine ⟨rfl, ?_⟩
      by_cases h7 : p = notify
      · subst h7
        rw [upd_same, if_pos ⟨rfl, h6⟩]
        dsimp only
        rw [upd_queue_refcount]
      · rw [upd_other _ _ _ _ h7, upd_queue_refcount,
          if_neg (show ¬ (p = notify ∧ notify ≠ 0) from fun e => h7 e.1)]
    · rw [if_neg h6, hq, upd_queue_refcount,
        if_neg (show ¬ (p = notify ∧ notify ≠ 0) from fun e => h6 e.2)]
      exact ⟨rfl, rfl⟩
  · rw [if_neg h4]
    left
    intro p
    dsimp only
    rw [upd_arg_queue]
    refine ⟨rfl, ?_⟩
    simp only [upd_apply]
    split_ifs with e
    · subst e; rfl
    · rfl

theorem statics_fields {a b : uv_callback_t} (h : statics a = statics b) :
    a.inactive = b.inactive ∧ a.usequeue = b.usequeue ∧ a.master = b.master
      ∧ a.async_data = b.async_data := by
  simp only [statics, Prod.mk.injEq] at h
  exact h

theorem notify_refs_le (s s' : State) (hs : List Ptr) (n : Ptr)
    (h : ∀ x ∈ hs, (s'.mem x).queue.Sublist (s.mem x).queue) :
    notify_refs s' hs n ≤ notify_refs s hs n := by
  unfold notify_refs
  exact sum_map_le_of_le hs _ _ (fun x hx => (h x hx).countP_le _)

/-- A change that keeps the links and counts and only shortens queues keeps the invariant. -/
theorem RefInv.of_frame {hs : List Ptr} {s s' : State} {k : Ptr} (hinv : RefInv hs s k)
    (hm : MemInv s'.mem)
    (hst : ∀ p, (s'.mem p).usequeue = (s.mem p).usequeue ∧ (s'.mem p).master = (s.mem p).master
      ∧ (s'.mem p).async_data = (s.mem p).async_data)
    (hq : ∀ p, (s'.mem p).queue.Sublist (s.mem p).queue)
    (hr : ∀ p, (s'.mem p).refcount = (s.mem p).refcount) : RefInv hs s' k := by
  constructor
  · exact hm
  · intro p hp
    rw [(hst p).2.2]
    exact hinv.marked p hp
  · intro p hp
    rw [(hst p).1] at hp
    exact hinv.queued_mem p hp
  · intro p hp
    rw [(hst p).2.1] at hp ⊢
    exact hinv.master_mem p hp
  · intro x c hc
    exact hinv.notify_mem x c ((hq x).subset hc)
  · exact hinv.nodup
  · intro n hn
    have h1 := notify_refs_le s s' hs n (fun x _ => hq x)
    have h2 := hinv.refs n hn
    rw [hr n]
    have h3 : (notify_refs s' hs n : Int) ≤ (notify_refs s hs n : Int) := by exact_mod_cast h1
    omega
  · rw [hr 0]; exact hinv.null_count

theorem statics_links {a b : uv_callback_t} (h : statics a = statics b) :
    a.usequeue = b.usequeue ∧ a.master = b.master ∧ a.async_data = b.async_data :=
  ⟨(statics_fields h).2.1, (statics_fields h).2.2.1, (statics_fields h).2.2.2⟩

theorem RefInv.of_stop {hs : List Ptr} {s : State} {k : Ptr} (hinv : RefInv hs s k) (h : Ptr) :
    RefInv hs (uv_callback_stop s h) k := by
  by_cases h0 : h = 0
  · subst h0; rw [stop_null]; exact hinv
  refine hinv.of_frame (MemInv.stop s h hinv.memInv) ?_ ?_ ?_
  · intro p
    rw [stop_mem s h p h0]
    exact ⟨rfl, rfl, rfl⟩
  · intro p
    rw [stop_mem s h p h0]
    dsimp only
    unfold stop_queue
    split_ifs
    · exact List.nil_sublist _
    · exact List.filter_sublist _
    · exact List.Sublist.refl _
    · exact List.Sublist.refl _
  · intro p
    rw [stop_mem s h p h0]

theorem release_refcount (fuel : Nat) (s s' : State) (callback : Ptr) (h0 : callback ≠ 0)
    (h : uv_callback_release fuel s callback = some s') (p : Ptr) :
    (s'.mem p).refcount
      = if p = callback then (s.mem p).refcount - 1 else (s.mem p).refcount := by
  have hm1 : (upd s.mem callback
      { s.mem callback with refcount := (s.mem callback).refcount - 1 } p).refcount
      = if p = callback then (s.mem p).refcount - 1 else (s.mem p).refcount := by
    simp only [upd_apply]
    split_ifs with e
    · subst e; rfl
    · rfl
  unfold uv_callback_release at h
  rw [if_neg h0] at h
  dsimp only at h
  split_ifs at h with h1
  · simp only [Option.map_eq_some'] at h
    obtain ⟨mem2, hm, rfl⟩ := h
    dsimp only
    rw [(release_unlink_fields callback fuel _ mem2 _ hm p).1]
    exact hm1
  · simp only [Option.some.injEq] at h
    subst h
    exact hm1

/-- A release by the holder of a reference keeps the invariant: the reference
held by the running dispatch on `k`, or one the count has in excess. -/
theorem RefInv.of_release {hs : List Ptr} {s s' : State} {k : Ptr} (fuel : Nat) (callback : Ptr)
    (hinv : RefInv hs s k)
    (hheld : callback = k ∨
      (k = 0 ∧ (notify_refs s hs callback : Int) < (s.mem callback).refcount))
    (hrun : uv_callback_release fuel s callback = some s') : RefInv hs s' 0 := by
  by_cases h0 : callback = 0
  · subst h0
    have hs' : s' = s := by
      unfold uv_callback_release at hrun
      rw [if_pos rfl] at hrun
      exact (Option.some.inj hrun).symm
    have hk : k = 0 := by
      rcases hheld with e | e
      · exact e.symm
      · exact e.1
    rw [hs', ← hk]; exact hinv
  have hfr := release_frame fuel s s' callback hrun
  have hrc := release_refcount fuel s s' callback h0 hrun
  constructor
  · exact MemInv.release fuel s s' callback hrun hinv.memInv
  · intro p hp
    rw [(statics_links (hfr p).1).2.2]
    exact hinv.marked p hp
  · intro p hp
    rw [(statics_links (hfr p).1).1] at hp
    exact hinv.queued_mem p hp
  · intro p hp
    rw [(statics_links (hfr p).1).2.1] at hp ⊢
    exact hinv.master_mem p hp
  · intro x c hc
    rw [(hfr x).2] at hc
    exact hinv.notify_mem x c hc
  · exact hinv.nodup
  · intro n hn
    have h1 : notify_refs s' hs n = notify_refs s hs n := by
      unfold notify_refs
      congr 1
      refine List.map_congr_left (fun x _ => ?_)
      rw [(hfr x).2]
    have h2 := hinv.refs n hn
    rw [h1, hrc n, if_neg hn]
    by_cases e : n = callback
    · rw [if_pos e]
      rcases hheld with hk | ⟨hk, hlt⟩
      · rw [if_pos (e.trans hk)] at h2
        omega
      · rw [e]
        omega
    · rw [if_neg e]
      by_cases e2 : n = k
      · rw [if_pos e2] at h2; omega
      · rw [if_neg e2] at h2; omega
  · rw [hrc 0, if_neg (fun e => h0 e.symm)]
    exact hinv.null_count

theorem RefInv.of_fire_ex {hs : List Ptr} {s : State} {k : Ptr} (hinv : RefInv hs s k)
    (callback data : Ptr) (size : Int) (free_data notify : Ptr) (malloc_ok : Bool)
    (hnotify : notify = 0 ∨ notify ∈ hs) :
    RefInv hs (uv_callback_fire_ex s callback data size free_data notify malloc_ok).2 k := by
  have hst := fun p => statics_links
    (fire_ex_statics s callback data size free_data notify malloc_ok p)
  have hm := MemInv.fire_ex s callback data size free_data notify malloc_ok hinv.memInv
  rcases fire_ex_effect s callback data size free_data notify malloc_ok with he | ⟨t, he⟩
  · exact hinv.of_frame hm hst (fun p => by rw [(he p).1]) (fun p => (he p).2)
  constructor
  · exact hm
  · intro p hp
    rw [(hst p).2.2]
    exact hinv.marked p hp
  · intro p hp
    rw [(hst p).1] at hp
    exact hinv.queued_mem p hp
  · intro p hp
    rw [(hst p).2.1] at hp ⊢
    exact hinv.master_mem p hp
  · intro x c hc
    rw [(he x).1] at hc
    split_ifs at hc
    · rcases List.mem_cons.1 hc with e | e
      · rw [e]; exact hnotify
      · exact hinv.notify_mem x c e
    · exact hinv.notify_mem x c hc
  · exact hinv.nodup
  · intro n hn
    have h2 := hinv.refs n hn
    rw [(he n).2]
    by_cases e : notify = n
    · have h1 : notify_refs (uv_callback_fire_ex s callback data size free_data notify
          malloc_ok).2 hs n ≤ notify_refs s hs n + 1 := by
        unfold notify_refs
        refine sum_map_le_add_one hs _ _ t hinv.nodup (fun x _ hxt => ?_) ?_
        · rw [(he x).1, if_neg hxt]
        · rw [(he t).1, if_pos rfl, List.countP_cons]
          split_ifs <;> omega
      rw [if_pos (show n = notify ∧ notify ≠ 0 from ⟨e.symm, by rw [e]; exact hn⟩)]
      have h3 : (notify_refs (uv_callback_fire_ex s callback data size free_data notify
          malloc_ok).2 hs n : Int) ≤ (notify_refs s hs n : Int) + 1 := by exact_mod_cast h1
      omega
    · have h1 : notify_refs (uv_callback_fire_ex s callback data size free_data notify
          malloc_ok).2 hs n ≤ notify_refs s hs n := by
        unfold notify_refs
        refine sum_map_le_of_le hs _ _ (fun x _ => ?_)
        rw [(he x).1]
        split_ifs
        · rw [List.countP_cons_of_neg]
          simpa using e
        · exact le_refl _
      rw [if_neg (show ¬ (n = notify ∧ notify ≠ 0) from fun h => e h.1.symm)]
      have h3 : (notify_refs (uv_callback_fire_ex s callback data size free_data notify
          malloc_ok).2 hs n : Int) ≤ (notify_refs s hs n : Int) := by exact_mod_cast h1
      omega
  · rw [(he 0).2, if_neg (fun h => h.2 h.1.symm)]
    exact hinv.null_count

/-- A handle with a non-empty queue is one of the initialised handles. -/
theorem RefInv.queue_holder {hs : List Ptr} {s : State} {k : Ptr} (hinv : RefInv hs s k)
    (x : Ptr) (c : uv_call_t) (hc : c ∈ (s.mem x).queue) : x ∈ hs := by
  have ht := hinv.memInv.target x c hc
  by_cases hm : (s.mem c.callback).master ≠ 0
  · rw [if_pos hm] at ht
    rw [← ht.2.2]
    exact hinv.master_mem _ hm
  · rw [if_neg hm] at ht
    rw [← ht.2.2]
    exact hinv.queued_mem _ ht.2.1

theorem dequeue_call_frame (s : State) (h p : Ptr) :
    statics ((dequeue_call s h).2.mem p) = statics (s.mem p)
    ∧ ((dequeue_call s h).2.mem p).refcount = (s.mem p).refcount
    ∧ ((dequeue_call s h).2.mem p).queue
        = if p = h then (s.mem p).queue.dropLast else (s.mem p).queue := by
  simp only [dequeue_call, upd_apply, dequeue_walk_eq]
  split_ifs with e
  · subst e; exact ⟨rfl, rfl, rfl⟩
  · exact ⟨rfl, rfl, rfl⟩

/-- Taking the last record off a queue moves the reference it holds on its
notify handle to the running dispatch. -/
theorem RefInv.dequeue {hs : List Ptr} {s : State} (hinv : RefInv hs s 0) (h : Ptr)
    (c : uv_call_t) (hc : (s.mem h).queue.getLast? = some c) :
    RefInv hs (dequeue_call s h).2 c.notify := by
  have hfr := dequeue_call_frame s h
  have hmem : h ∈ hs := hinv.queue_holder h c (List.mem_of_getLast?_eq_some hc)
  have hsplit : (s.mem h).queue = (s.mem h).queue.dropLast ++ [c] := by
    have hne : (s.mem h).queue ≠ [] := by
      intro e; rw [e] at hc; simp at hc
    have h2 := List.dropLast_append_getLast hne
    rw [List.getLast?_eq_getLast _ hne] at hc
    rw [Option.some.inj hc] at h2
    exact h2.symm
  have hsub : ∀ p, ((dequeue_call s h).2.mem p).queue.Sublist (s.mem p).queue := by
    intro p
    rw [(hfr p).2.2]
    split_ifs
    · exact List.dropLast_sublist _
    · exact List.Sublist.refl _
  constructor
  · exact MemInv.dequeue_call s h hinv.memInv
  · intro p hp
    rw [(statics_links (hfr p).1).2.2]
    exact hinv.marked p hp
  · intro p hp
    rw [(statics_links (hfr p).1).1] at hp
    exact hinv.queued_mem p hp
  · intro p hp
    rw [(statics_links (hfr p).1).2.1] at hp ⊢
    exact hinv.master_mem p hp
  · intro x d hd
    exact hinv.notify_mem x d ((hsub x).subset hd)
  · exact hinv.nodup
  · intro n hn
    have h2 := hinv.refs n hn
    rw [if_neg hn] at h2
    rw [(hfr n).2.1]
    by_cases e : n = c.notify
    · rw [if_pos e]
      have h1 : notify_refs (dequeue_call s h).2 hs n + 1 ≤ notify_refs s hs n := by
        unfold notify_refs
        refine sum_map_succ_le hs _ _ h hmem (fun x _ => (hsub x).countP_le _) ?_
        rw [(hfr h).2.2, if_pos rfl]
        conv_rhs => rw [hsplit]
        rw [List.countP_append]
        simp [e]
      have h3 : (notify_refs (dequeue_call s h).2 hs n : Int) + 1 ≤ (notify_refs s hs n : Int) := by
        exact_mod_cast h1
      omega
    · rw [if_neg e]
      have h1 := notify_refs_le s (dequeue_call s h).2 hs n (fun x _ => hsub x)
      have h3 : (notify_refs (dequeue_call s h).2 hs n : Int) ≤ (notify_refs s hs n : Int) := by
        exact_mod_cast h1
      omega
  · rw [(hfr 0).2.1]; exact hinv.null_count

/-- The invariant reads the handle memory only. -/
theorem RefInv.of_mem {hs : List Ptr} {s s' : State} {k : Ptr} (hinv : RefInv hs s k)
    (h : s'.mem = s.mem) : RefInv hs s' k :=
  hinv.of_frame (by rw [h]; exact hinv.memInv) (fun p => by rw [h]; exact ⟨rfl, rfl, rfl⟩)
    (fun p => by rw [h]) (fun p => by rw [h])

theorem RefInv.of_deliver_result {hs : List Ptr} {s : State} {k : Ptr} (hinv : RefInv hs s k)
    (call : uv_call_t) (result : Ptr) (malloc_ok : Bool) :
    RefInv hs (UvCallback.deliver_result s call result malloc_ok) k := by
  unfold UvCallback.deliver_result
  split_ifs
  · exact hinv.of_fire_ex _ _ _ _ _ _ (Or.inl rfl)
  · exact hinv.of_mem rfl
  · exact hinv

theorem RefInv.set_idle {hs : List Ptr} {s : State} {k : Ptr} (hinv : RefInv hs s k)
    (b : Ptr) (v : Int) (tr : List Event) :
    RefInv hs { s with mem := upd s.mem b { s.mem b with idle_active := v }, trace := tr } k := by
  refine hinv.of_frame (MemInv.upd_keep hinv.memInv b _ ⟨rfl, rfl⟩) (fun p => ?_) (fun p => ?_)
    (fun p => ?_)
  · dsimp only
    rw [upd_apply]
    split_ifs with e
    · subst e; exact ⟨rfl, rfl, rfl⟩
    · exact ⟨rfl, rfl, rfl⟩
  · dsimp only
    rw [upd_apply]
    split_ifs with e
    · subst e; exact List.Sublist.refl _
    · exact List.Sublist.refl _
  · dsimp only
    rw [upd_apply]
    split_ifs with e
    · subst e; rfl
    · rfl

theorem RefInv.of_finish_call {hs : List Ptr} {s : State} {k : Ptr} (hinv : RefInv hs s k)
    (callback : Ptr) (call : uv_call_t) :
    RefInv hs (UvCallback.finish_call s callback call) k := by
  unfold UvCallback.finish_call
  dsimp only
  split_ifs
  · exact hinv.set_idle callback 1 _
  · exact hinv.of_mem rfl

/-- One dispatch keeps the counting invariant: the reference of the record it
took is the one it gives back. -/
theorem RefInv.async_cb (exec : Ptr → Ptr → Ptr → Int → Ptr) (fuel : Nat) {hs : List Ptr}
    {s : State} (handle : Ptr) (malloc_ok : Bool) (s' : State)
    (hrun : uv_callback_async_cb exec fuel s handle malloc_ok = some s')
    (hinv : RefInv hs s 0) : RefInv hs s' 0 := by
  unfold uv_callback_async_cb at hrun
  dsimp only at hrun
  by_cases hq : (s.mem handle).usequeue ≠ 0
  · rw [if_pos hq] at hrun
    have hd1 := dequeue_call_fst s handle
    rcases hd : dequeue_call s handle with ⟨_ | call, s1⟩
    · have hinv1 : RefInv hs (dequeue_call s handle).2 0 :=
        hinv.of_frame (MemInv.dequeue_call s handle hinv.memInv)
          (fun p => statics_links (dequeue_call_frame s handle p).1)
          (fun p => by
            rw [(dequeue_call_frame s handle p).2.2]
            split_ifs
            · exact List.dropLast_sublist _
            · exact List.Sublist.refl _)
          (fun p => (dequeue_call_frame s handle p).2.1)
      rw [hd] at hrun hinv1
      dsimp only at hrun hinv1
      simp only [Option.some.injEq] at hrun
      subst hrun
      exact hinv1.set_idle handle 0 _
    · rw [hd] at hd1
      dsimp only at hd1
      have hinv1 := hinv.dequeue handle call hd1.symm
      rw [hd] at hrun hinv1
      dsimp only at hrun hinv1
      simp only [Option.map_eq_some'] at hrun
      obtain ⟨s4, hs4, rfl⟩ := hrun
      have hinv2 : RefInv hs { s1 with trace := s1.trace ++
            [Event.invoke (s1.mem call.callback).function call.callback call.data call.size] }
          call.notify := hinv1.of_mem rfl
      have hinv3 := hinv2.of_deliver_result call
        (exec (s1.mem call.callback).function call.callback call.data call.size) malloc_ok
      have h4 : RefInv hs s4 0 := by
        split_ifs at hs4 with hn
        · exact hinv3.of_release fuel _ (Or.inl rfl) hs4
        · simp only [Option.some.injEq] at hs4
          subst hs4
          have e : call.notify = 0 := by simpa using hn
          rw [e] at hinv3
          exact hinv3
      exact h4.of_finish_call handle call
  · rw [if_neg hq] at hrun
    simp only [Option.some.injEq] at hrun
    subst hrun
    exact hinv.of_mem rfl

/-- The master found while the storage of `callback` is not an async handle yet
is null or a Queued handle of the heap before the call, other than `callback`. -/
theorem master_found_cases (s : State) (loop callback : Ptr) (c1 : uv_callback_t)
    (h0 : c1.async_type = 0) :
    get_master_callback { s with mem := upd s.mem callback c1 } loop = 0
      ∨ (get_master_callback { s with mem := upd s.mem callback c1 } loop ≠ callback
          ∧ (s.mem (get_master_callback { s with mem := upd s.mem callback c1 } loop)).usequeue
              ≠ 0) := by
  rcases foldl_master_cases { s with mem := upd s.mem callback c1 } (s.loops loop) 0 with h | h
  · exact Or.inl h
  · right
    have h2 := h.2
    unfold is_queue_master at h2
    change ((upd s.mem callback c1) (get_master_callback
      { s with mem := upd s.mem callback c1 } loop)).async_type = UV_ASYNC ∧
      ((upd s.mem callback c1) (get_master_callback
      { s with mem := upd s.mem callback c1 } loop)).usequeue ≠ 0 at h2
    rw [upd_apply] at h2
    split_ifs at h2 with e
    · rw [h0] at h2
      exact absurd h2.1 (by decide)
    · exact ⟨e, h2.2⟩

/-- Past the null checks `uv_callback_init_ex` sets the count of `callback` to 1,
leaves every other count alone, and gives `callback` a master link that is null
or names a Queued handle of the heap before the call. -/
theorem init_ex_counts (fuel : Nat) (s : State) (loop callback function : Ptr)
    (callback_type : Int) (free_cb free_result : Ptr) (idle_rc async_rc rc : Int) (s' : State)
    (hnull : ¬ (loop = 0 ∨ callback = 0 ∨ function = 0))
    (hrun : uv_callback_init_ex fuel s loop callback function callback_type free_cb
      free_result idle_rc async_rc = some (rc, s')) :
    (s'.mem callback).refcount = 1
      ∧ (∀ p, p ≠ callback → (s'.mem p).refcount = (s.mem p).refcount)
      ∧ ((s'.mem callback).master = 0
          ∨ ((s'.mem callback).master ≠ callback
              ∧ (s.mem (s'.mem callback).master).usequeue ≠ 0)) := by
  unfold uv_callback_init_ex at hrun
  rw [if_neg hnull] at hrun
  dsimp only at hrun
  by_cases hty : callback_type = UV_DEFAULT
  · rw [if_pos hty] at hrun
    have hm := master_found_cases s loop callback
      { async_type := zero_callback.async_type, async_data := callback,
        async_loop := zero_callback.async_loop, data := zero_callback.data, usequeue := 1,
        queue := zero_callback.queue, function := function, arg := zero_callback.arg,
        idle_active := zero_callback.idle_active, master := zero_callback.master,
        next := zero_callback.next, inactive := zero_callback.inactive, refcount := 1,
        free_cb := free_cb, free_result := free_result } rfl
    generalize get_master_callback _ loop = m at hrun hm
    unfold init_ex_default at hrun
    dsimp only at hrun
    split_ifs at hrun with hm0 hi
    · simp only [Option.map_eq_some'] at hrun
      obtain ⟨base, -, hb⟩ := hrun
      simp only [Prod.mk.injEq] at hb
      obtain ⟨-, rfl⟩ := hb
      refine ⟨?_, fun p hp => ?_, ?_⟩
      · by_cases e : callback = base
        · subst e; simp [upd_apply]
        · simp [upd_apply, e]
      · by_cases e : p = base
        · subst e; simp [upd_apply, hp]
        · simp [upd_apply, e, hp]
      · by_cases e : callback = base
        · subst e; simpa [upd_apply] using hm
        · simpa [upd_apply, e] using hm
    · simp only [Option.some.injEq, Prod.mk.injEq] at hrun
      obtain ⟨-, rfl⟩ := hrun
      refine ⟨?_, fun p hp => ?_, ?_⟩
      · simp only [upd_apply]; simp
      · simp only [upd_apply]; simp [hp]
      · left; simp only [upd_apply]; simpa using hm0
    · simp only [Option.some.injEq] at hrun
      unfold uv_async_init at hrun
      split_ifs at hrun with ha
      · simp only [Prod.mk.injEq] at hrun
        obtain ⟨-, rfl⟩ := hrun
        refine ⟨?_, fun p hp => ?_, ?_⟩
        · simp only [upd_apply]; simp
        · simp only [upd_apply]; simp [hp]
        · left; simp only [upd_apply]; simpa using hm0
      · simp only [Prod.mk.injEq] at hrun
        obtain ⟨-, rfl⟩ := hrun
        refine ⟨?_, fun p hp => ?_, ?_⟩
        · simp only [upd_apply]; simp
        · simp only [upd_apply]; simp [hp]
        · left; simp only [upd_apply]; simpa using hm0
  · rw [if_neg hty] at hrun
    split_ifs at hrun with hc
    · simp only [Option.some.injEq] at hrun
      unfold uv_async_init at hrun
      split_ifs at hrun with ha
      · simp only [Prod.mk.injEq] at hrun
        obtain ⟨-, rfl⟩ := hrun
        refine ⟨?_, fun p hp => ?_, ?_⟩
        · simp only [upd_apply]; simp
        · simp only [upd_apply]; simp [hp]
        · left; simp only [upd_apply]; simp [zero_callback]
      · simp only [Prod.mk.injEq] at hrun
        obtain ⟨-, rfl⟩ := hrun
        refine ⟨?_, fun p hp => ?_, ?_⟩
        · simp only [upd_apply]; simp
        · simp only [upd_apply]; simp [hp]
        · left; simp only [upd_apply]; simp [zero_callback]
    · simp only [Option.some.injEq, Prod.mk.injEq] at hrun
      obtain ⟨-, rfl⟩ := hrun
      refine ⟨?_, fun p hp => ?_, ?_⟩
      · simp only [upd_apply]; simp
      · simp only [upd_apply]; simp [hp]
      · left; simp only [upd_apply]; simp [zero_callback]

theorem notify_refs_congr (s s' : State) (hs : List Ptr) (n : Ptr)
    (h : ∀ x ∈ hs, (s'.mem x).queue = (s.mem x).queue) :
    notify_refs s' hs n = notify_refs s hs n := by
  unfold notify_refs
  congr 1
  exact List.map_congr_left (fun x hx => by rw [h x hx])

/-- No queued record names a handle outside the initialised ones. -/
theorem RefInv.refs_outside {hs : List Ptr} {s : State} {k : Ptr} (hinv : RefInv hs s k)
    (n : Ptr) (hn : n ≠ 0) (hout : n ∉ hs) : notify_refs s hs n = 0 := by
  unfold notify_refs
  apply List.sum_eq_zero
  intro v hv
  obtain ⟨x, -, rfl⟩ := List.mem_map.1 hv
  rw [List.countP_eq_zero]
  intro c hc
  rcases hinv.notify_mem x c hc with e | e
  · simp only [decide_eq_true_eq]; rw [e]; exact fun h => hn h.symm
  · simp only [decide_eq_true_eq]; exact fun h => hout (h ▸ e)

theorem RefInv.initial : RefInv [] State.init 0 := by
  constructor
  · exact MemInv.init
  · intro p hp; simp at hp
  · intro p hp; simp [State.init, zero_callback] at hp
  · intro p hp; simp [State.init, zero_callback] at hp
  · intro x c hc; simp [State.init, zero_callback] at hc
  · exact List.nodup_nil
  · intro n hn; simp [notify_refs, State.init, zero_callback, hn]
  · rfl

/-- Initialising unused storage adds the new handle with count 1 and no record
naming it. -/
theorem RefInv.of_init_ex {hs : List Ptr} {s : State} (hinv : RefInv hs s 0) (fuel : Nat)
    (loop callback function : Ptr) (callback_type : Int) (free_cb free_result : Ptr)
    (idle_rc async_rc rc : Int) (s' : State)
    (hnull : ¬ (loop = 0 ∨ callback = 0 ∨ function = 0))
    (hfresh : (s.mem callback).async_data ≠ callback)
    (hrun : uv_callback_init_ex fuel s loop callback function callback_type free_cb
      free_result idle_rc async_rc = some (rc, s')) : RefInv (callback :: hs) s' 0 := by
  obtain ⟨hother, hq, hd, hi⟩ := init_ex_reset fuel s loop callback function callback_type
    free_cb free_result idle_rc async_rc rc s' hnull hrun
  obtain ⟨hc1, hcp, hcm⟩ := init_ex_counts fuel s loop callback function callback_type
    free_cb free_result idle_rc async_rc rc s' hnull hrun
  have hc0 : callback ≠ 0 := fun e => hnull (Or.inr (Or.inl e))
  have hout : callback ∉ hs := fun h => hfresh (hinv.marked callback h)
  have hne : ∀ x ∈ hs, x ≠ callback := fun x hx e => hout (e ▸ hx)
  constructor
  · exact MemInv.init_ex fuel s loop callback function callback_type free_cb free_result
      idle_rc async_rc rc s' hfresh hrun hinv.memInv
  · intro p hp
    rcases List.mem_cons.1 hp with e | e
    · rw [e]; exact hd
    · rw [(statics_links (hother p (hne p e)).1).2.2]
      exact hinv.marked p e
  · intro p hp
    by_cases e : p = callback
    · rw [e]; exact List.mem_cons_self _ _
    · rw [(statics_links (hother p e).1).1] at hp
      exact List.mem_cons_of_mem _ (hinv.queued_mem p hp)
  · intro p hp
    by_cases e : p = callback
    · rw [e] at hp ⊢
      rcases hcm with h | h
      · exact absurd h hp
      · exact List.mem_cons_of_mem _ (hinv.queued_mem _ h.2)
    · rw [(statics_links (hother p e).1).2.1] at hp ⊢
      exact List.mem_cons_of_mem _ (hinv.master_mem p hp)
  · intro x c hc
    by_cases e : x = callback
    · rw [e, hq] at hc; simp at hc
    · rw [(hother x e).2] at hc
      rcases hinv.notify_mem x c hc with h | h
      · exact Or.inl h
      · exact Or.inr (List.mem_cons_of_mem _ h)
  · exact List.nodup_cons.2 ⟨hout, hinv.nodup⟩
  · intro n hn
    have hsum : notify_refs s' (callback :: hs) n = notify_refs s hs n := by
      have h1 : notify_refs s' (callback :: hs) n
          = (s'.mem callback).queue.countP (fun c => decide (c.notify = n))
            + notify_refs s' hs n := by
        simp [notify_refs]
      rw [h1, hq, notify_refs_congr s s' hs n (fun x hx => (hother x (hne x hx)).2)]
      simp
    rw [hsum, if_neg hn]
    by_cases e : n = callback
    · rw [e, hc1, hinv.refs_outside callback hc0 hout]
      decide
    · have h2 := hinv.refs n hn
      rw [if_neg hn] at h2
      rw [hcp n e]
      exact h2
  · rw [hcp 0 (fun e => hc0 e.symm)]
    exact hinv.null_count

/-- Every step of a run keeps the counting invariant. -/
theorem RefStep.keeps_inv (exec : Ptr → Ptr → Ptr → Int → Ptr) {hs hs' : List Ptr} {s s' : State}
    (hstep : RefStep exec hs s hs' s') (hinv : RefInv hs s 0) : RefInv hs' s' 0 := by
  cases hstep with
  | init_ex fuel _ loop callback function callback_type free_cb free_result idle_rc async_rc rc
      _ hnull hfresh hrun =>
    exact hinv.of_init_ex fuel loop callback function callback_type free_cb free_result idle_rc
      async_rc rc s' hnull hfresh hrun
  | fire_ex _ callback data size free_data notify malloc_ok hnotify =>
    exact hinv.of_fire_ex callback data size free_data notify malloc_ok hnotify
  | async_cb fuel _ handle malloc_ok _ hnull hrun =>
    exact RefInv.async_cb exec fuel handle malloc_ok s' hrun hinv
  | stop _ callback => exact hinv.of_stop callback
  | release fuel _ callback _ hheld hrun =>
    exact hinv.of_release fuel callback (Or.inr ⟨rfl, hheld⟩) hrun

theorem RefReach.inv (exec : Ptr → Ptr → Ptr → Int → Ptr) {hs : List Ptr} {s : State}
    (hr : RefReach exec hs s) : RefInv hs s 0 := by
  induction hr with
  | init => exact RefInv.initial
  | step hs hs' s s' _ hstep ih => exact hstep.keeps_inv exec ih

theorem run_dispatched_reach : RefReach (fun _ _ _ _ => 0) [2, 1] run_dispatched := by
  have h1 : RefReach (fun _ _ _ _ => 0) [1] run_init1 :=
    RefReach.step _ _ _ _ RefReach.init
      (RefStep.init_ex [] 2 State.init 100 1 7 UV_DEFAULT 0 0 0 0 0 run_init1 (by decide)
        (by decide) rfl)
  have h2 : RefReach (fun _ _ _ _ => 0) [2, 1] run_init2 :=
    RefReach.step _ _ _ _ h1
      (RefStep.init_ex [1] 2 run_init1 100 2 8 UV_DEFAULT 0 0 0 0 0 run_init2 (by decide)
        (by decide) rfl)
  have h3 : RefReach (fun _ _ _ _ => 0) [2, 1] run_notified :=
    RefReach.step _ _ _ _ h2
      (RefStep.fire_ex [2, 1] run_init2 1 10 0 0 2 true (by decide))
  exact RefReach.step _ _ _ _ h3
    (RefStep.async_cb [2, 1] 2 run_notified 1 true run_dispatched (by decide) rfl)

/-- C13 (as claimed, refuted): `uv_callback_release` decrements without looking
at the count, so initialising one handle and releasing it twice, all three
calls returning, leaves its reference count at -1. -/
theorem release_twice_negative :
    ∃ s1 s2 s3, uv_callback_init_ex 2 State.init 100 1 7 UV_DEFAULT 0 0 0 0 = some (0, s1)
      ∧ uv_callback_release 2 s1 1 = some s2
      ∧ uv_callback_release 2 s2 1 = some s3
      ∧ (s3.mem 1).refcount = -1 :=
  ⟨_, _, _, rfl, rfl, rfl, by decide⟩

/-- C13 (amended): in every state reached from the initial one by
`uv_callback_init_ex` on unused storage with non-null arguments,
`uv_callback_fire_ex` with a notify handle that is null or initialised,
`uv_callback_async_cb`, `uv_callback_stop`, and `uv_callback_release` called
directly only on a handle whose count exceeds the number of queued records
naming it as notify, the reference count of every handle is at least 0. -/
theorem refcount_nonneg (exec : Ptr → Ptr → Ptr → Int → Ptr) (hs : List Ptr) (s : State)
    (hr : RefReach exec hs s) (p : Ptr) : 0 ≤ (s.mem p).refcount := by
  have hinv := hr.inv exec
  by_cases h0 : p = 0
  · rw [h0, hinv.null_count]
  · have h := hinv.refs p h0
    rw [if_neg h0] at h
    have h2 : (0 : Int) ≤ (notify_refs s hs p : Int) := Int.ofNat_nonneg _
    omega

/-- C13 on a concrete run: master 1 and sibling 2 are initialised, the master is
fired with notify 2 (count of 2 becomes 2), and one dispatch gives the
reference back (count 1); no count in the final state is negative. -/
theorem refcount_nonneg_witness :
    (run_notified.mem 2).refcount = 2 ∧ (run_dispatched.mem 2).refcount = 1
      ∧ ∀ p, 0 ≤ (run_dispatched.mem p).refcount :=
  ⟨by decide, by decide,
    refcount_nonneg (fun _ _ _ _ => 0) [2, 1] run_dispatched run_dispatched_reach⟩

/-! ## Siblings keep no queue of their own -/

theorem same_links_refl (s : State) : same_links s s := fun _ => ⟨rfl, rfl, rfl⟩

theorem same_links_of_mem {s t : State} (h : t.mem = s.mem) : same_links s t :=
  fun p => by rw [h]; exact ⟨rfl, rfl, rfl⟩

theorem same_links_trans {a b c : State} (h1 : same_links a b) (h2 : same_links b c) :
    same_links a c := by
  intro p
  obtain ⟨x1, x2, x3⟩ := h1 p
  obtain ⟨y1, y2, y3⟩ := h2 p
  exact ⟨y1.trans x1, y2.trans x2, y3.trans x3⟩

theorem LinkInv.of_same_links {s t : State} (hinv : LinkInv s.mem) (h : same_links s t) :
    LinkInv t.mem := by
  constructor
  · intro p hp
    rw [(h p).1] at hp ⊢
    rw [(h _).1, (h _).2.2]
    exact hinv.master_top p hp
  · intro p hp
    rw [(h p).2.1] at hp
    rw [(h p).1]
    exact hinv.async_top p hp

theorem same_links_upd (s : State) (b : Ptr) (v : uv_callback_t) (lp : Ptr → List Ptr)
    (tr : List Event)
    (hv : v.master = (s.mem b).master ∧ v.async_type = (s.mem b).async_type
      ∧ v.async_data = (s.mem b).async_data) :
    same_links s { mem := upd s.mem b v, loops := lp, trace := tr } := by
  intro p
  dsimp only
  rw [upd_apply]
  split_ifs with e
  · subst e; exact hv
  · exact ⟨rfl, rfl, rfl⟩

theorem same_links_fire_ex (s : State) (callback data : Ptr) (size : Int)
    (free_data notify : Ptr) (malloc_ok : Bool) :
    same_links s (uv_callback_fire_ex s callback data size free_data notify malloc_ok).2 := by
  intro p
  unfold uv_callback_fire_ex
  split_ifs <;> simp only [upd_apply] <;> (try split_ifs) <;> simp_all

theorem same_links_stop (s : State) (b : Ptr) : same_links s (uv_callback_stop s b) := by
  intro p
  by_cases hb : b = 0
  · subst hb; rw [stop_null]; exact ⟨rfl, rfl, rfl⟩
  · rw [stop_mem s b p hb]; exact ⟨rfl, rfl, rfl⟩

theorem same_links_stop_chain (fuel : Nat) :
    ∀ (t t' : State) (x : Ptr), stop_chain fuel t x = some t' → same_links t t' := by
  induction fuel with
  | zero =>
    intro t t' x h
    simp only [stop_chain] at h
    split_ifs at h
    simp only [Option.some.injEq] at h
    subst h
    exact same_links_refl _
  | succ fuel ih =>
    intro t t' x h
    simp only [stop_chain] at h
    split_ifs at h
    · simp only [Option.some.injEq] at h
      subst h
      exact same_links_refl _
    · exact same_links_trans (same_links_stop t x) (ih _ t' _ h)

theorem same_links_stop_all_walk (fuel : Nat) (l : List Ptr) :
    ∀ (t t' : State), stop_all_walk fuel t l = some t' → same_links t t' := by
  induction l with
  | nil =>
    intro t t' h
    simp only [stop_all_walk, Option.some.injEq] at h
    subst h
    exact same_links_refl _
  | cons x l ih =>
    intro t t' h
    simp only [stop_all_walk, Option.bind_eq_some] at h
    obtain ⟨t1, h1, h2⟩ := h
    have hfirst : same_links t t1 := by
      unfold stop_all_on_walk at h1
      split_ifs at h1
      · exact same_links_stop_chain fuel t t1 x h1
      · simp only [Option.some.injEq] at h1
        subst h1
        exact same_links_refl _
    exact same_links_trans hfirst (ih t1 t' h2)

theorem same_links_dequeue_call (s : State) (h : Ptr) : same_links s (dequeue_call s h).2 :=
  same_links_upd s h _ _ _ ⟨rfl, rfl, rfl⟩

theorem release_unlink_links (callback : Ptr) (fuel : Nat) :
    ∀ (mem mem' : Ptr → uv_callback_t) (start : Ptr),
      release_unlink callback fuel mem start = some mem' →
      ∀ p, (mem' p).master = (mem p).master ∧ (mem' p).async_type = (mem p).async_type
        ∧ (mem' p).async_data = (mem p).async_data := by
  induction fuel with
  | zero =>
    intro mem mem' start h p
    simp only [release_unlink] at h
    split_ifs at h
    simp only [Option.some.injEq] at h
    subst h; exact ⟨rfl, rfl, rfl⟩
  | succ fuel ih =>
    intro mem mem' start h p
    simp only [release_unlink] at h
    split_ifs at h with h1 h2
    · simp only [Option.some.injEq] at h
      subst h; exact ⟨rfl, rfl, rfl⟩
    · simp only [Option.some.injEq] at h
      subst h
      simp only [upd_apply]
      split_ifs with h3
      · subst h3; exact ⟨rfl, rfl, rfl⟩
      · exact ⟨rfl, rfl, rfl⟩
    · exact ih mem mem' _ h p

theorem same_links_release (fuel : Nat) (s s' : State) (callback : Ptr)
    (h : uv_callback_release fuel s callback = some s') : same_links s s' := by
  intro p
  have hm1 : ∀ r : Int,
      (upd s.mem callback { s.mem callback with refcount := r } p).master = (s.mem p).master
      ∧ (upd s.mem callback { s.mem callback with refcount := r } p).async_type
          = (s.mem p).async_type
      ∧ (upd s.mem callback { s.mem callback with refcount := r } p).async_data
          = (s.mem p).async_data := by
    intro r
    simp only [upd_apply]
    split_ifs with h3
    · subst h3; exact ⟨rfl, rfl, rfl⟩
    · exact ⟨rfl, rfl, rfl⟩
  unfold uv_callback_release at h
  dsimp only at h
  split_ifs at h with h0 h1
  · simp only [Option.some.injEq] at h; subst h; exact ⟨rfl, rfl, rfl⟩
  · simp only [Option.map_eq_some'] at h
    obtain ⟨mem2, hm, rfl⟩ := h
    have h2 := release_unlink_links callback fuel _ mem2 _ hm p
    dsimp only
    rw [h2.1, h2.2.1, h2.2.2]
    exact hm1 _
  · simp only [Option.some.injEq] at h
    subst h
    exact hm1 _

theorem same_links_deliver_result (s : State) (call : uv_call_t) (result : Ptr)
    (malloc_ok : Bool) : same_links s (deliver_result s call result malloc_ok) := by
  unfold deliver_result
  split_ifs
  · exact same_links_fire_ex s _ _ _ _ _ _
  · exact same_links_of_mem rfl
  · exact same_links_refl _

theorem same_links_finish_call (s : State) (callback : Ptr) (call : uv_call_t) :
    same_links s (finish_call s callback call) := by
  unfold finish_call
  dsimp only
  split_ifs
  · exact same_links_upd _ callback _ _ _ ⟨rfl, rfl, rfl⟩
  · exact same_links_of_mem rfl

theorem same_links_async_cb (exec : Ptr → Ptr → Ptr → Int → Ptr) (fuel : Nat) (s : State)
    (handle : Ptr) (malloc_ok : Bool) (s' : State)
    (hrun : uv_callback_async_cb exec fuel s handle malloc_ok = some s') : same_links s s' := by
  unfold uv_callback_async_cb at hrun
  dsimp only at hrun
  by_cases hq : (s.mem handle).usequeue ≠ 0
  · rw [if_pos hq] at hrun
    have hl1 := same_links_dequeue_call s handle
    rcases hd : dequeue_call s handle with ⟨_ | call, s1⟩
    · rw [hd] at hrun hl1
      dsimp only at hrun hl1
      simp only [Option.some.injEq] at hrun
      subst hrun
      exact same_links_trans hl1 (same_links_upd s1 handle _ _ _ ⟨rfl, rfl, rfl⟩)
    · rw [hd] at hrun hl1
      dsimp only at hrun hl1
      simp only [Option.map_eq_some'] at hrun
      obtain ⟨s4, hs4, rfl⟩ := hrun
      have hl2 : same_links s1 { s1 with trace := s1.trace ++
            [Event.invoke (s1.mem call.callback).function call.callback call.data call.size] } :=
        same_links_of_mem rfl
      have hl3 := same_links_deliver_result
        { s1 with trace := s1.trace ++
            [Event.invoke (s1.mem call.callback).function call.callback call.data call.size] }
        call (exec (s1.mem call.callback).function call.callback call.data call.size) malloc_ok
      have hl4 : same_links s s4 := by
        split_ifs at hs4 with hn
        · exact same_links_trans hl1 (same_links_trans hl2
            (same_links_trans hl3 (same_links_release fuel _ s4 _ hs4)))
        · simp only [Option.some.injEq] at hs4
          subst hs4
          exact same_links_trans hl1 (same_links_trans hl2 hl3)
      exact same_links_trans hl4 (same_links_finish_call s4 handle call)
  · rw [if_neg hq] at hrun
    simp only [Option.some.injEq] at hrun
    subst hrun
    exact same_links_of_mem rfl

/-- The master found while the storage of `callback` is not an async handle yet
is null or a queue master of the heap before the call, other than `callback`. -/
theorem master_found_top (s : State) (loop callback : Ptr) (c1 : uv_callback_t)
    (h0 : c1.async_type = 0) :
    get_master_callback { s with mem := upd s.mem callback c1 } loop = 0
      ∨ (get_master_callback { s with mem := upd s.mem callback c1 } loop ≠ callback
          ∧ is_queue_master s.mem
              (get_master_callback { s with mem := upd s.mem callback c1 } loop)) := by
  rcases foldl_master_cases { s with mem := upd s.mem callback c1 } (s.loops loop) 0 with h | h
  · exact Or.inl h
  · right
    have h2 := h.2
    unfold is_queue_master at h2 ⊢
    change ((upd s.mem callback c1) (get_master_callback
      { s with mem := upd s.mem callback c1 } loop)).async_type = UV_ASYNC ∧
      ((upd s.mem callback c1) (get_master_callback
      { s with mem := upd s.mem callback c1 } loop)).usequeue ≠ 0 at h2
    rw [upd_apply] at h2
    split_ifs at h2 with e
    · rw [h0] at h2
      exact absurd h2.1 (by decide)
    · exact ⟨e, h2⟩

/-- Past the null checks `uv_callback_init_ex` leaves the links of every other
handle alone, gives `callback` a master link that is null or names a queue
master of the heap before the call, and makes `callback` an async handle only
when its master link is null. -/
theorem init_ex_links (fuel : Nat) (s : State) (loop callback function : Ptr)
    (callback_type : Int) (free_cb free_result : Ptr) (idle_rc async_rc rc : Int) (s' : State)
    (hnull : ¬ (loop = 0 ∨ callback = 0 ∨ function = 0))
    (hrun : uv_callback_init_ex fuel s loop callback function callback_type free_cb
      free_result idle_rc async_rc = some (rc, s')) :
    (∀ p, p ≠ callback → (s'.mem p).master = (s.mem p).master
        ∧ (s'.mem p).async_type = (s.mem p).async_type
        ∧ (s'.mem p).async_data = (s.mem p).async_data)
      ∧ ((s'.mem callback).master = 0
          ∨ ((s'.mem callback).master ≠ callback
              ∧ is_queue_master s.mem (s'.mem callback).master))
      ∧ ((s'.mem callback).async_type = UV_ASYNC → (s'.mem callback).master = 0) := by
  unfold uv_callback_init_ex at hrun
  rw [if_neg hnull] at hrun
  dsimp only at hrun
  by_cases hty : callback_type = UV_DEFAULT
  · rw [if_pos hty] at hrun
    have hm := master_found_top s loop callback
      { async_type := zero_callback.async_type, async_data := callback,
        async_loop := zero_callback.async_loop, data := zero_callback.data, usequeue := 1,
        queue := zero_callback.queue, function := function, arg := zero_callback.arg,
        idle_active := zero_callback.idle_active, master := zero_callback.master,
        next := zero_callback.next, inactive := zero_callback.inactive, refcount := 1,
        free_cb := free_cb, free_result := free_result } rfl
    generalize get_master_callback _ loop = m at hrun hm
    unfold init_ex_default at hrun
    dsimp only at hrun
    split_ifs at hrun with hm0 hi
    · simp only [Option.map_eq_some'] at hrun
      obtain ⟨base, -, hb⟩ := hrun
      simp only [Prod.mk.injEq] at hb
      obtain ⟨-, rfl⟩ := hb
      refine ⟨fun p hp => ?_, ?_, ?_⟩
      · by_cases e : p = base
        · subst e; simp [upd_apply, hp]
        · simp [upd_apply, e, hp]
      · by_cases e : callback = base
        · subst e; simpa [upd_apply] using hm
        · simpa [upd_apply, e] using hm
      · by_cases e : callback = base
        · subst e; simp [upd_apply, zero_callback, UV_ASYNC]
        · simp [upd_apply, e, zero_callback, UV_ASYNC]
    · simp only [Option.some.injEq, Prod.mk.injEq] at hrun
      obtain ⟨-, rfl⟩ := hrun
      refine ⟨fun p hp => ?_, ?_, ?_⟩
      · simp [upd_apply, hp]
      · left; simp only [upd_apply]; simpa using hm0
      · intro _; simp only [upd_apply]; simpa using hm0
    · simp only [Option.some.injEq] at hrun
      unfold uv_async_init at hrun
      split_ifs at hrun with ha
      · simp only [Prod.mk.injEq] at hrun
        obtain ⟨-, rfl⟩ := hrun
        refine ⟨fun p hp => ?_, ?_, ?_⟩
        · simp [upd_apply, hp]
        · left; simp only [upd_apply]; simpa using hm0
        · intro _; simp only [upd_apply]; simpa using hm0
      · simp only [Prod.mk.injEq] at hrun
        obtain ⟨-, rfl⟩ := hrun
        refine ⟨fun p hp => ?_, ?_, ?_⟩
        · simp [upd_apply, hp]
        · left; simp only [upd_apply]; simpa using hm0
        · intro _; simp only [upd_apply]; simpa using hm0
  · rw [if_neg hty] at hrun
    split_ifs at hrun with hc
    · simp only [Option.some.injEq] at hrun
      unfold uv_async_init at hrun
      split_ifs at hrun with ha
      · simp only [Prod.mk.injEq] at hrun
        obtain ⟨-, rfl⟩ := hrun
        refine ⟨fun p hp => ?_, ?_, ?_⟩
        · simp [upd_apply, hp]
        · left; simp [upd_apply, zero_callback]
        · intro _; simp [upd_apply, zero_callback]
      · simp only [Prod.mk.injEq] at hrun
        obtain ⟨-, rfl⟩ := hrun
        refine ⟨fun p hp => ?_, ?_, ?_⟩
        · simp [upd_apply, hp]
        · left; simp [upd_apply, zero_callback]
        · intro _; simp [upd_apply, zero_callback]
    · simp only [Option.some.injEq, Prod.mk.injEq] at hrun
      obtain ⟨-, rfl⟩ := hrun
      refine ⟨fun p hp => ?_, ?_, ?_⟩
      · simp [upd_apply, hp]
      · left; simp [upd_apply, zero_callback]
      · intro _; simp [upd_apply, zero_callback]

theorem LinkInv.at_start : LinkInv State.init.mem := by
  constructor
  · intro p hp; simp [State.init, zero_callback] at hp
  · intro p _; simp [State.init, zero_callback]

theorem LinkInv.of_new_handle (fuel : Nat) (s : State) (loop callback function : Ptr)
    (callback_type : Int) (free_cb free_result : Ptr) (idle_rc async_rc rc : Int) (s' : State)
    (hfresh : (s.mem callback).async_data ≠ callback)
    (hrun : uv_callback_init_ex fuel s loop callback function callback_type free_cb
      free_result idle_rc async_rc = some (rc, s'))
    (hmem : MemInv s.mem) (hinv : LinkInv s.mem) : LinkInv s'.mem := by
  by_cases hnull : loop = 0 ∨ callback = 0 ∨ function = 0
  · unfold uv_callback_init_ex at hrun
    rw [if_pos hnull] at hrun
    simp only [Option.some.injEq, Prod.mk.injEq] at hrun
    rw [← hrun.2]; exact hinv
  obtain ⟨hother, hcb, hasync⟩ := init_ex_links fuel s loop callback function callback_type
    free_cb free_result idle_rc async_rc rc s' hnull hrun
  have hkeep : ∀ m, (s.mem m).async_data = m → (s.mem m).master = 0 →
      (s'.mem m).master = 0 ∧ (s'.mem m).async_data = m := by
    intro m h1 h2
    have hne : m ≠ callback := fun e => hfresh (by rw [← e]; exact h1)
    rw [(hother m hne).1, (hother m hne).2.2]
    exact ⟨h2, h1⟩
  constructor
  · intro p hp
    by_cases e : p = callback
    · rw [e] at hp ⊢
      rcases hcb with h | h
      · exact absurd h hp
      · exact hkeep _ (hmem.marked _ h.2.2) (hinv.async_top _ h.2.1)
    · rw [(hother p e).1] at hp ⊢
      have h := hinv.master_top p hp
      exact hkeep _ h.2 h.1
  · intro p hp
    by_cases e : p = callback
    · rw [e] at hp ⊢; exact hasync hp
    · rw [(hother p e).2.1] at hp
      rw [(hother p e).1]
      exact hinv.async_top p hp

theorem Reachable.linkInv {exec : Ptr → Ptr → Ptr → Int → Ptr} {s : State}
    (hr : Reachable exec s) : LinkInv s.mem := by
  induction hr with
  | init => exact LinkInv.at_start
  | step s s' hprev hstep ih =>
    cases hstep with
    | init_ex fuel _ loop callback function callback_type free_cb free_result idle_rc async_rc
        rc _ hfresh hrun =>
      exact LinkInv.of_new_handle fuel s loop callback function callback_type free_cb free_result
        idle_rc async_rc rc s' hfresh hrun hprev.memInv ih
    | fire_ex _ callback data size free_data notify malloc_ok =>
      exact ih.of_same_links (same_links_fire_ex s callback data size free_data notify malloc_ok)
    | stop _ callback => exact ih.of_same_links (same_links_stop s callback)
    | stop_all fuel _ loop _ hrun =>
      exact ih.of_same_links (same_links_stop_all_walk fuel _ s s' hrun)
    | dispatch fuel _ handle malloc_ok _ hnull hrun =>
      exact ih.of_same_links (same_links_async_cb exec fuel s handle malloc_ok s' hrun)

/-- C14 (amended): in every state reachable from the initial state by
`uv_callback_init_ex` (each call on storage that holds no handle yet),
`uv_callback_fire_ex`, `uv_callback_stop`, `uv_callback_stop_all` and
`uv_callback_async_cb` steps, a handle whose master link is non-null has an
empty queue field, and a queued record whose target has a non-null master link
is on the queue of that master. -/
theorem sibling_queue_empty (exec : Ptr → Ptr → Ptr → Int → Ptr) (s : State)
    (hr : Reachable exec s) :
    (∀ p, (s.mem p).master ≠ 0 → (s.mem p).queue = [])
    ∧ (∀ x c, c ∈ (s.mem x).queue → (s.mem c.callback).master ≠ 0 →
        x = (s.mem c.callback).master) := by
  have hmem := hr.memInv
  have hlink := hr.linkInv
  refine ⟨fun p hp => ?_, fun x c hc hm => ?_⟩
  · rcases hq : (s.mem p).queue with _ | ⟨c, l⟩
    · rfl
    · exfalso
      have ht := (hmem.target p c (by rw [hq]; exact List.mem_cons_self _ _)).2.2
      by_cases hm : (s.mem c.callback).master ≠ 0
      · rw [if_pos hm] at ht
        exact hp (by rw [← ht]; exact (hlink.master_top _ hm).1)
      · rw [if_neg hm] at ht
        rw [ht] at hm
        exact hm hp
  · have ht := (hmem.target x c hc).2.2
    rw [if_pos hm] at ht
    exact ht.symm

theorem run_fired_reachable (exec : Ptr → Ptr → Ptr → Int → Ptr) :
    Reachable exec run_fired := by
  have h1 : Reachable exec run_init1 :=
    Reachable.step _ _ Reachable.init
      (Step.init_ex 2 State.init 100 1 7 UV_DEFAULT 0 0 0 0 0 run_init1 (by decide) rfl)
  have h2 : Reachable exec run_init2 :=
    Reachable.step _ _ h1
      (Step.init_ex 2 run_init1 100 2 8 UV_DEFAULT 0 0 0 0 0 run_init2 (by decide) rfl)
  have h3 : Reachable exec run_init3 :=
    Reachable.step _ _ h2
      (Step.init_ex 2 run_init2 100 3 9 UV_COALESCE 0 0 0 0 0 run_init3 (by decide) rfl)
  exact Reachable.step _ _ h3 (Step.fire_ex run_init3 2 20 4 5 0 true)

/-- C14 on a concrete run: after registering master 1, sibling 2 and Coalesced
handle 3 and firing the sibling, the sibling (master link 1) has an empty queue
field and its record sits on the queue of the master. -/
theorem sibling_queue_empty_witness :
    (run_fired.mem 2).master = 1 ∧ (run_fired.mem 2).queue = []
    ∧ (run_fired.mem 1).queue
        = [{ callback := 2, data := 20, size := 4, free_data := 5, notify := 0 }]
    ∧ ((∀ p, (run_fired.mem p).master ≠ 0 → (run_fired.mem p).queue = [])
      ∧ (∀ x c, c ∈ (run_fired.mem x).queue → (run_fired.mem c.callback).master ≠ 0 →
          x = (run_fired.mem c.callback).master)) :=
  ⟨by decide, by decide, by decide,
    sibling_queue_empty (fun _ _ _ _ => 0) run_fired (run_fired_reachable _)⟩

/-! ## The guard of `uv_callback_fire_sync` -/

/-- C15: `uv_callback_fire_sync` on a null handle or on a handle that is not
Queued (`usequeue = 0`) returns `UV_EINVAL` for every data, result pointer and
timeout and in every environment; the state is the one before the call, so no
record is enqueued and no field of any handle changes, the trace gets no
event, and nothing is written to `*presult`. -/
theorem fire_sync_einval (env : SyncEnv) (s : State) (callback data presult : Ptr)
    (timeout : Int) (h : callback = 0 ∨ (s.mem callback).usequeue = 0) :
    ∃ s', uv_callback_fire_sync env s callback data presult timeout
        = some (UV_EINVAL, s', none)
      ∧ (∀ p, (s'.mem p).queue = (s.mem p).queue ∧ (s'.mem p).arg = (s.mem p).arg
          ∧ (s'.mem p).data = (s.mem p).data)
      ∧ s'.trace = s.trace ∧ s' = s := by
  refine ⟨s, ?_, fun p => ⟨rfl, rfl, rfl⟩, rfl, rfl⟩
  unfold uv_callback_fire_sync
  rw [if_pos h]

/-- C15 on the demo state: the Coalesced handle 3 and the null handle are both
refused with `UV_EINVAL`, while the same call on the Queued master 1 passes the
guard (here it ends with `UV_ETIMEDOUT` and writes `*presult`). -/
theorem fire_sync_einval_witness :
    (demo_state.mem 3).usequeue = 0
    ∧ (uv_callback_fire_sync demo_sync_env demo_state 1 10 70 1000).map
        (fun r => (r.1, r.2.2)) = some (UV_ETIMEDOUT, some 0)
    ∧ (∃ s', uv_callback_fire_sync demo_sync_env demo_state 3 10 70 1000
          = some (UV_EINVAL, s', none)
        ∧ (∀ p, (s'.mem p).queue = (demo_state.mem p).queue
            ∧ (s'.mem p).arg = (demo_state.mem p).arg
            ∧ (s'.mem p).data = (demo_state.mem p).data)
        ∧ s'.trace = demo_state.trace ∧ s' = demo_state) :=
  ⟨by decide, by decide,
    fire_sync_einval demo_sync_env demo_state 3 10 70 1000 (Or.inr (by decide))⟩

/-! ## What a dispatch does with the result of the user function -/

/-- Redirecting the `next` link of `a` to the successor of its successor `b`
drops `b` from the chain of `a`. -/
theorem chain_skip (mem : Ptr → uv_callback_t) (a b : Ptr) (l : List Ptr)
    (hc : chain_ok mem b l) (ha : a ∉ b :: l) :
    chain_ok (upd mem a { mem a with next := (mem b).next }) a l := by
  cases l with
  | nil =>
    simp only [chain_ok] at hc ⊢
    rw [upd_same]
    exact hc
  | cons c l =>
    simp only [chain_ok] at hc ⊢
    refine ⟨by rw [upd_same]; exact hc.1, hc.2.1, ?_⟩
    refine chain_ok_congr mem _ l c hc.2.2 (fun x hx => ?_)
    have hxa : x ≠ a := fun e => ha (by rw [← e]; exact List.mem_cons_of_mem _ hx)
    rw [upd_other _ _ _ _ hxa]

/-- On a chain `a :: l` without repetition that contains `x` behind `a`, the
unlink walk of `uv_callback_release(x)` from `a` ends within `l.length` steps,
changes only the `next` link of the predecessor of `x`, and leaves the chain
`l` with `x` removed. -/
theorem release_unlink_chain (x : Ptr) (l : List Ptr) :
    ∀ (mem : Ptr → uv_callback_t) (a : Ptr) (fuel : Nat),
      chain_ok mem a l → (a :: l).Nodup → a ≠ 0 → x ∈ l → l.length ≤ fuel →
      ∃ pred, pred ∈ a :: l ∧ pred ≠ x ∧
        release_unlink x fuel mem a
          = some (upd mem pred { mem pred with next := (mem x).next })
        ∧ chain_ok (upd mem pred { mem pred with next := (mem x).next }) a (l.erase x) := by
  induction l with
  | nil => intro mem a fuel _ _ _ hx; simp at hx
  | cons b l ih =>
    intro mem a fuel hc hnd ha hx hf
    simp only [chain_ok] at hc
    have hab : a ∉ b :: l := (List.nodup_cons.1 hnd).1
    cases fuel with
    | zero => simp at hf
    | succ fuel =>
      rw [release_unlink, if_neg ha, hc.1]
      by_cases hbx : b = x
      · subst hbx
        rw [if_pos rfl]
        refine ⟨a, List.mem_cons_self _ _, fun e => hab (by rw [e]; exact List.mem_cons_self _ _),
          rfl, ?_⟩
        rw [List.erase_cons_head]
        exact chain_skip mem a b l hc.2.2 hab
      · rw [if_neg hbx]
        have hxl : x ∈ l := by
          rcases List.mem_cons.1 hx with e | e
          · exact absurd e.symm hbx
          · exact e
        obtain ⟨pred, hp1, hp2, hp3, hp4⟩ := ih mem b fuel hc.2.2 (List.nodup_cons.1 hnd).2
          hc.2.1 hxl (by simpa using hf)
        refine ⟨pred, List.mem_cons_of_mem _ hp1, hp2, hp3, ?_⟩
        have hpa : a ≠ pred := fun e => hab (by rw [e]; exact hp1)
        rw [List.erase_cons_tail (by simpa using hbx)]
        simp only [chain_ok]
        refine ⟨by rw [upd_other _ _ _ _ hpa]; exact hc.1, hc.2.1, hp4⟩

theorem chain_ok_ne_zero (mem : Ptr → uv_callback_t) (l : List Ptr) :
    ∀ a, chain_ok mem a l → ∀ y ∈ l, y ≠ 0 := by
  induction l with
  | nil => intro a _ y hy; simp at hy
  | cons b l ih =>
    intro a hc y hy
    simp only [chain_ok] at hc
    rcases List.mem_cons.1 hy with e | e
    · rw [e]; exact hc.2.1
    · exact ih b hc.2.2 y e

/-- C18: let `L` be the sibling chain of the master `m` (the `next` links from
`m`, without repetition) and `x` a sibling in `L` whose master link is `m`.
A `uv_callback_release(x)` that brings the count of `x` to 0 with `free_cb`
set returns (the fuel covering the chain), and in the state in which
`free_cb(x)` is invoked, the last event of the call and the only `free_cb`
invocation, the chain of `m` is `L` with `x` removed, the others in the same
order; the only fields written are the count of `x` and the `next` link of its
predecessor.  When the count does not reach 0 or no `free_cb` is set, the call
returns, only the count of `x` changes (it is lowered by one), the chain of `m`
is still `L`, and the trace gets no event, so `free_cb` is not invoked. -/
theorem release_unlinks_sibling (fuel : Nat) (s : State) (m x : Ptr) (L : List Ptr)
    (hm : m ≠ 0) (hchain : chain_ok s.mem m L) (hnd : (m :: L).Nodup) (hx : x ∈ L)
    (hmaster : (s.mem x).master = m) (hfuel : L.length ≤ fuel) :
    ((s.mem x).refcount = 1 ∧ (s.mem x).free_cb ≠ 0 →
      ∃ s' pred, uv_callback_release fuel s x = some s'
        ∧ chain_ok s'.mem m (L.erase x)
        ∧ pred ∈ m :: L ∧ pred ≠ x
        ∧ (∀ p, p ≠ pred → p ≠ x → s'.mem p = s.mem p)
        ∧ s'.mem pred = { s.mem pred with next := (s.mem x).next }
        ∧ s'.mem x = { s.mem x with refcount := 0 }
        ∧ s'.trace.getLast? = some (Event.free_cb (s.mem x).free_cb x)
        ∧ free_cb_events s'.trace = free_cb_events s.trace ++ [((s.mem x).free_cb, x)])
    ∧ (¬ ((s.mem x).refcount = 1 ∧ (s.mem x).free_cb ≠ 0) →
      ∃ s', uv_callback_release fuel s x = some s'
        ∧ s'.mem = upd s.mem x { s.mem x with refcount := (s.mem x).refcount - 1 }
        ∧ chain_ok s'.mem m L
        ∧ s'.trace = s.trace) := by
  have hx0 : x ≠ 0 := chain_ok_ne_zero s.mem L m hchain x hx
  have hnext : ∀ r : Int, ∀ y,
      (upd s.mem x { s.mem x with refcount := r } y).next = (s.mem y).next := by
    intro r y
    rw [upd_apply]
    split_ifs with e
    · subst e; rfl
    · rfl
  have hchain1 : ∀ r : Int, chain_ok (upd s.mem x { s.mem x with refcount := r }) m L :=
    fun r => chain_ok_congr s.mem _ L m hchain (fun y _ => hnext r y)
  constructor
  · intro hfin
    obtain ⟨pred, hp1, hp2, hp3, hp4⟩ := release_unlink_chain x L
      (upd s.mem x { s.mem x with refcount := (s.mem x).refcount - 1 }) m fuel
      (hchain1 _) hnd hm hx hfuel
    dsimp only at hp3
    rw [← hmaster] at hp3
    unfold uv_callback_release
    rw [if_neg hx0]
    dsimp only
    rw [upd_same]
    dsimp only
    rw [if_pos ⟨by rw [hfin.1]; rfl, hfin.2⟩, hp3]
    refine ⟨_, pred, rfl, hp4, hp1, hp2, fun p h1 h2 => ?_, ?_, ?_, ?_, ?_⟩
    · dsimp only
      rw [upd_other _ _ _ _ h1, upd_other _ _ _ _ h2]
    · dsimp only
      rw [upd_same, upd_other _ _ _ _ hp2, upd_same]
    · dsimp only
      rw [upd_other _ _ _ _ (Ne.symm hp2), upd_same, hfin.1]
      rfl
    · dsimp only
      rw [upd_other _ _ _ _ (Ne.symm hp2), upd_same]
      simp
    · dsimp only
      rw [upd_other _ _ _ _ (Ne.symm hp2), upd_same]
      split_ifs <;> simp [free_cb_events_append, free_cb_events]
  · intro hk
    have hk2 : ¬ ((s.mem x).refcount - 1 = 0 ∧ (s.mem x).free_cb ≠ 0) := by
      intro h
      exact hk ⟨by omega, h.2⟩
    exact ⟨_, release_keep fuel s x hx0 hk2, rfl, hchain1 _, rfl⟩

/-- C18 on a concrete group: sibling 2 of master 1 has `free_cb` 6 and count 1;
its release returns, empties the chain of the master, brings the count to 0
and invokes `free_cb(2)` once. -/
theorem release_unlinks_sibling_witness :
    (run_sibling.mem 1).next = 2 ∧ (run_sibling.mem 2).master = 1
    ∧ ∃ s', uv_callback_release 2 run_sibling 2 = some s'
        ∧ (s'.mem 1).next = 0 ∧ (s'.mem 2).refcount = 0
        ∧ free_cb_events s'.trace = free_cb_events run_sibling.trace ++ [(6, 2)] := by
  refine ⟨by decide, by decide, ?_⟩
  obtain ⟨s', pred, hrun, hc, -, -, -, -, hx, -, hf⟩ :=
    (release_unlinks_sibling 2 run_sibling 1 2 [2] (by decide)
      (by simp only [chain_ok]; decide) (by decide) (by decide) (by decide) (by decide)).1
      ⟨by decide, by decide⟩
  refine ⟨s', hrun, ?_, ?_, ?_⟩
  · simpa [chain_ok] using hc
  · rw [hx]
  · rw [hf]
    have e : (run_sibling.mem 2).free_cb = 6 := by decide
    rw [e]

/-! ## The purge of `uv_callback_stop` keeps the notify references -/

/-- C19 (refuted, defect in the code): `uv_callback_stop` never changes a
reference count, although its purge removes queued records that hold a
reference on their notify handle.  In `run_queued_notify` the master 1 holds
one record naming sibling 2 as notify handle, and the count of 2 is 2 = 1 + 1.
After `uv_callback_stop(1)` no queue holds a record naming 2, yet the count of
2 is still 2, not 1 + 0.  The dispatch of the same record gives the reference
back: afterwards the count of 2 is 1 with no record naming it. -/
theorem stop_purge_keeps_notify_reference :
    (∀ (s : State) (h n : Ptr),
        ((uv_callback_stop s h).mem n).refcount = (s.mem n).refcount)
    ∧ (run_queued_notify.mem 1).queue
        = [{ callback := 1, data := 10, size := 0, free_data := 0, notify := 2 }]
    ∧ (run_queued_notify.mem 2).refcount = 2
    ∧ notify_refs run_queued_notify [1, 2, 3] 2 = 1
    ∧ ((uv_callback_stop run_queued_notify 1).mem 1).queue = []
    ∧ notify_refs (uv_callback_stop run_queued_notify 1) [1, 2, 3] 2 = 0
    ∧ ((uv_callback_stop run_queued_notify 1).mem 2).refcount = 2
    ∧ (uv_callback_async_cb (fun _ _ _ _ => 0) 2 run_queued_notify 1 false).map
        (fun t => ((t.mem 2).refcount, notify_refs t [1, 2, 3] 2)) = some (1, 0) := by
  refine ⟨fun s h n => ?_, by decide, by decide, by decide, by decide, by decide, by decide,
    by decide⟩
  by_cases h0 : h = 0
  · subst h0; rw [stop_null]
  · rw [stop_mem s h n h0]

/-! ## Registering a handle a second time -/

/-- The walk to the end of a chain does not end on a handle that is its own successor. -/
theorem chain_last_self_loop (mem : Ptr → uv_callback_t) (a : Ptr) (ha : a ≠ 0)
    (hn : (mem a).next = a) : ∀ fuel, chain_last fuel mem a = none := by
  intro fuel
  induction fuel with
  | zero => rw [chain_last, if_neg (by rw [hn]; exact ha)]
  | succ fuel ih => rw [chain_last, if_neg (by rw [hn]; exact ha), hn]; exact ih

/-- C5 (as claimed, refuted): `uv_callback_init_ex` accepts storage that
already holds a handle.  Sibling 2 of master 1 has a record pending on the
queue of 1 and is registered again on loop 200 (return code 0), which makes it
its own master; `uv_callback_stop(2)` then purges the queue of 2 and not that
of 1, so the queue of 1 holds a record that targets the inactive handle 2, and
the dispatch on 1 invokes the function of the stopped Queued handle 2. -/
theorem reinit_leaves_stopped_target :
    (run_fired.mem 1).queue
        = [{ callback := 2, data := 20, size := 4, free_data := 5, notify := 0 }]
    ∧ (uv_callback_init_ex 2 run_fired 200 2 8 UV_DEFAULT 0 0 0 0).map Prod.fst = some 0
    ∧ (run_reinit_stopped.mem 2).inactive = 1
    ∧ (run_reinit_stopped.mem 2).usequeue ≠ 0
    ∧ (run_reinit_stopped.mem 1).queue
        = [{ callback := 2, data := 20, size := 4, free_data := 5, notify := 0 }]
    ∧ (uv_callback_async_cb (fun _ _ _ _ => 0) 2 run_reinit_stopped 1 true).map
        (fun t => invoked_handles t.trace) = some (invoked_handles run_reinit_stopped.trace ++ [2]) := by
  refine ⟨by decide, by decide, by decide, by decide, by decide, by decide⟩

/-- C12 (as claimed, refuted): `uv_callback_init_ex` does not return in every
case with valid arguments.  Registering master 1, sibling 2 and then sibling 2
once more on the same loop returns 0 three times and leaves handle 2 as its own
successor in the chain of master 1; a further call with valid arguments then
walks that chain without end: the model returns nothing for any fuel. -/
theorem init_ex_never_returns :
    (uv_callback_init_ex 2 State.init 100 1 7 UV_DEFAULT 0 0 0 0).map Prod.fst = some 0
    ∧ (uv_callback_init_ex 2 run_init1 100 2 8 UV_DEFAULT 0 0 0 0).map Prod.fst = some 0
    ∧ (uv_callback_init_ex 2 run_init2 100 2 8 UV_DEFAULT 0 0 0 0).map Prod.fst = some 0
    ∧ (run_reinit_same.mem 1).next = 2 ∧ (run_reinit_same.mem 2).next = 2
    ∧ ¬ bad_init_args 100 4 9 UV_DEFAULT
    ∧ ∀ fuel, uv_callback_init_ex fuel run_reinit_same 100 4 9 UV_DEFAULT 0 0 0 0 = none := by
  refine ⟨by decide, by decide, by decide, by decide, by decide,
    by unfold bad_init_args; decide, fun fuel => ?_⟩
  have hm : found_master run_reinit_same 100 4 9 0 0 = 1 := by decide
  rw [init_ex_default_sibling fuel run_reinit_same 100 4 9 0 0 (by decide)
    (by rw [hm]; decide), hm]
  have h1 : (linked_mem run_reinit_same 100 4 9 0 0 1).next = 2 := by decide
  have h2 : (linked_mem run_reinit_same 100 4 9 0 0 2).next = 2 := by decide
  have hloop := chain_last_self_loop (linked_mem run_reinit_same 100 4 9 0 0) 2 (by decide) h2
  cases fuel with
  | zero => rw [chain_last, if_neg (by rw [h1]; decide)]; rfl
  | succ fuel => rw [chain_last, if_neg (by rw [h1]; decide), h1, hloop fuel]; rfl

/-- C14 (as claimed, refuted): `uv_callback_init_ex` accepts storage that
already holds a handle.  With master 1 and sibling 2 on loop 100 and master 9
on loop 200: when master 1 is registered again on loop 200 it gets the master
link 9, and a fire on its old sibling 2 puts a record on the queue of 1, a
handle with a non-null master link; when instead sibling 2 is fired and then
registered again on loop 200, its master link becomes 9 while its record stays
on the queue of 1. -/
theorem reinit_sibling_with_queue :
    (uv_callback_init_ex 2 run_two_loops 200 1 7 UV_DEFAULT 0 0 0 0).map Prod.fst = some 0
    ∧ (run_master_moved.mem 1).master = 9
    ∧ (run_master_moved.mem 1).queue
        = [{ callback := 2, data := 20, size := 4, free_data := 5, notify := 0 }]
    ∧ (uv_callback_init_ex 2 (uv_callback_fire_ex run_two_loops 2 20 4 5 0 true).2
          200 2 8 UV_DEFAULT 0 0 0 0).map Prod.fst = some 0
    ∧ (run_sibling_moved.mem 2).master = 9
    ∧ (run_sibling_moved.mem 1).queue
        = [{ callback := 2, data := 20, size := 4, free_data := 5, notify := 0 }]
    ∧ (run_sibling_moved.mem 9).queue = [] := by
  refine ⟨by decide, by decide, by decide, by decide, by decide, by decide, by decide⟩

end UvCallback
